import Mathlib

/-!
# gofpdi: the PDF object-model parser of `contrib/read/gofpdi`

A shallow embedding of `parser.go` (value parser, xref reader, object resolver,
open sequence) together with the parts of the package it calls that live in
other files (token reader, value types, `strconv`/`strings` helpers).

Conventions
* a byte is a `Char`, a byte string and a `Token` are `List Char`;
* Go `int`/`int64` are `Int` (64-bit range is checked where `strconv` checks it,
  and the running object number of the xref reader wraps as a Go `int` does);
* a Go run-time panic is `Fault.panic`; recursion and unbounded loops carry
  fuel and report `Fault.fuel` when it runs out;
* a finite `float64` is carried as the exact rational it denotes: a number
  parsed from text is rounded to binary64 as `strconv.ParseFloat` rounds it,
  arithmetic on such numbers (the box computations) is exact, and the sign of
  zero is not kept; a run that would produce an infinity or NaN stops with
  `Fault.unmodelled`.
-/

namespace Gofpdi

/-! ## Bytes, tokens and library helpers -/

/-- A token is a byte string (Go: `type Token []byte`). -/
abbrev Token := List Char

/-- Modelled from the spec: `isPdfWhitespace` is defined outside `parser.go`;
the whitespace set is space, CR, LF, tab, form-feed and NUL. -/
def isPdfWhitespace (c : Char) : Bool :=
  c.toNat == 32 || c.toNat == 13 || c.toNat == 10 || c.toNat == 9 ||
    c.toNat == 12 || c.toNat == 0

/-- Modelled from the spec: the bytes that form the structural delimiters
`<<`, `>>`, `<`, `>`, `[`, `]`, `(`, `)`. -/
def isDelimiter (c : Char) : Bool :=
  c == '<' || c == '>' || c == '[' || c == ']' || c == '(' || c == ')'

/-- A byte that may appear inside a regular token: neither whitespace nor a
delimiter byte. -/
def isRegular (c : Char) : Bool :=
  !isPdfWhitespace c && !isDelimiter c

/-- Decimal digit test used by the `strconv` models. -/
def isDigit (c : Char) : Bool :=
  decide (48 ≤ c.toNat) && decide (c.toNat ≤ 57)

/-- Value of a string of decimal digits. -/
def digitsVal (ds : List Char) : Nat :=
  ds.foldl (fun a c => 10 * a + (c.toNat - 48)) 0

/-- Split an optional leading sign off a numeric literal: `(negative, rest)`. -/
def splitSign : List Char → Bool × List Char
  | '-' :: r => (true, r)
  | '+' :: r => (false, r)
  | s => (false, s)

/-- Go `strconv.Atoi` on a 64-bit platform: the parsed value and whether
parsing succeeded. A syntax error yields `0`, a range error the nearest bound. -/
def Atoi (s : List Char) : Int × Bool :=
  let sb := splitSign s
  if sb.2 ≠ [] ∧ sb.2.all isDigit = true then
    let v : Int := if sb.1 then -((digitsVal sb.2 : Nat) : Int) else ((digitsVal sb.2 : Nat) : Int)
    if v < -(2 : Int) ^ 63 then (-(2 : Int) ^ 63, false)
    else if (2 : Int) ^ 63 - 1 < v then ((2 : Int) ^ 63 - 1, false)
    else (v, true)
  else (0, false)

/-- Go `strconv.ParseInt(s, 10, 64)`; identical to `Atoi` on a 64-bit platform. -/
def ParseInt (s : List Char) : Int × Bool := Atoi s

/-- A byte in `[0-9A-Fa-f]`. -/
def isHexDigit (c : Char) : Bool :=
  (decide (48 ≤ c.toNat) && decide (c.toNat ≤ 57)) ||
    (decide (65 ≤ c.toNat) && decide (c.toNat ≤ 70)) ||
    (decide (97 ≤ c.toNat) && decide (c.toNat ≤ 102))

/-- Value of a hexadecimal digit. -/
def hexVal (c : Char) : Nat :=
  if c.toNat ≤ 57 then c.toNat - 48
  else if c.toNat ≤ 70 then c.toNat - 55
  else c.toNat - 87

/-- Value of a string of hexadecimal digits. -/
def hexDigitsVal (ds : List Char) : Nat :=
  ds.foldl (fun a c => 16 * a + hexVal c) 0

/-- Outcome of `strconv.ParseFloat(s, 64)` when it returns no error. -/
inductive ParsedFloat where
  /-- a finite binary64 value, carried as the exact rational it denotes -/
  | finite (q : ℚ)
  /-- `+Inf`, or `-Inf` when `negative` -/
  | inf (negative : Bool)
  /-- NaN -/
  | nan
deriving DecidableEq, Repr

/-- Number of binary digits of `n` (0 for 0); the first argument bounds the
recursion and is taken to be `n` itself. -/
def bitLen : Nat → Nat → Nat
  | 0, _ => 0
  | f + 1, n => if n = 0 then 0 else bitLen f (n / 2) + 1

/-- The integer `e` with `2 ^ e ≤ n / d < 2 ^ (e + 1)`, for `n, d > 0`. -/
def binaryExponent (n d : Nat) : Int :=
  let e0 : Int := (bitLen n n : Int) - (bitLen d d : Int)
  if n * 2 ^ (-e0).toNat < d * 2 ^ e0.toNat then e0 - 1 else e0

/-- The integer nearest to `num / den`, ties to the even one. -/
def roundHalfEven (num den : Nat) : Nat :=
  let q := num / den
  let r := num % den
  if 2 * r < den then q else if den < 2 * r then q + 1 else q + q % 2

/-- The power of two that is the step between neighbouring binary64 values
around a number of binary exponent `e`: 53 significant bits, smallest step
`2 ^ -1074`. -/
def float64Step (e : Int) : Int := if e - 52 < -1074 then -1074 else e - 52

/-- The binary64 value nearest to `n / d` (for `d > 0`), ties to even, with the
sign `negative`: 53 significant bits, smallest step `2 ^ -1074` (a value below
half of it rounds to zero). The result is `none` when the rounded magnitude
is `2 ^ 1024` or more, which has no finite binary64. -/
def roundToFloat64 (negative : Bool) (n d : Nat) : Option ℚ :=
  if n = 0 then some 0
  else
    let e := binaryExponent n d
    let qe := float64Step e
    let m := roundHalfEven (n * 2 ^ (-qe).toNat) (d * 2 ^ qe.toNat)
    if 1024 ≤ e ∨ (qe = 971 ∧ m = 2 ^ 53) then none
    else
      let v : Int := ((m * 2 ^ qe.toNat : Nat) : Int)
      some (mkRat (if negative then -v else v) (2 ^ (-qe).toNat))

/-- Go `float64(n)` for an `int`: the nearest binary64 value. -/
def float64OfInt (n : Int) : ℚ :=
  (roundToFloat64 (decide (n < 0)) n.natAbs 1).getD 0

/-- ASCII lower case of an upper case letter, any other byte unchanged. -/
def lowerAscii (c : Char) : Char :=
  if 65 ≤ c.toNat ∧ c.toNat ≤ 90 then Char.ofNat (c.toNat + 32) else c

/-- The `strconv` helper `commonPrefixLenIgnoreCase`: how many leading bytes of
`s`, ASCII upper case lowered, agree with the lower case word `w`. -/
def commonPrefixLenIgnoreCase : List Char → List Char → Nat
  | c :: s, p :: w => if lowerAscii c = p then commonPrefixLenIgnoreCase s w + 1 else 0
  | _, _ => 0

/-- The `inf`/`infinity` case of the `strconv` helper `special`, after a sign
of `nsign` bytes: the value and the number of bytes taken. -/
def infinityWord (negative : Bool) (nsign : Nat) (s : List Char) : Option (ParsedFloat × Nat) :=
  let n := commonPrefixLenIgnoreCase s "infinity".toList
  let n := if 3 < n ∧ n < 8 then 3 else n
  if n = 3 ∨ n = 8 then some (.inf negative, nsign + n) else none

/-- The `strconv` helper `special`: a leading `inf`, `infinity` (optionally
signed) or `nan`, in any letter case, with the number of bytes taken. -/
def special (s : List Char) : Option (ParsedFloat × Nat) :=
  match s with
  | [] => none
  | c :: t =>
    if c = '+' then infinityWord false 1 t
    else if c = '-' then infinityWord true 1 t
    else if c = 'i' ∨ c = 'I' then infinityWord false 0 s
    else if c = 'n' ∨ c = 'N' then
      if commonPrefixLenIgnoreCase s "nan".toList = 3 then some (.nan, 3) else none
    else none

/-- The scan of the `strconv` helper `underscoreOK`; `saw` is the kind of the
last byte: 0 start of number, 1 digit or base marker, 2 underscore, 3 other. -/
def underscoreScan (hex : Bool) : Nat → List Char → Bool
  | saw, [] => saw != 2
  | saw, c :: t =>
    if isDigit c || (hex && isHexDigit c) then underscoreScan hex 1 t
    else if c = '_' then
      if saw = 1 then underscoreScan hex 2 t else false
    else if saw = 2 then false
    else underscoreScan hex 3 t

/-- The `strconv` helper `underscoreOK`: every underscore stands between two
digits, or between a base marker (`0x`, `0o`, `0b`) and a digit. -/
def underscoreOK (s : List Char) : Bool :=
  match (splitSign s).2 with
  | '0' :: c :: t =>
    if c = 'x' ∨ c = 'X' then underscoreScan true 1 t
    else if c = 'b' ∨ c = 'B' ∨ c = 'o' ∨ c = 'O' then underscoreScan false 1 t
    else underscoreScan false 0 ('0' :: c :: t)
  | u => underscoreScan false 0 u

/-- Value of the digits of an exponent as `strconv` accumulates it: once the
value has reached 10000 further digits are dropped. -/
def exponentVal (ds : List Char) : Nat :=
  ds.foldl (fun e c => if e < 10000 then 10 * e + (c.toNat - 48) else e) 0

/-- Exponent part of a float literal after the mantissa: the marker `lo` or
`up`, an optional sign, then digits up to the end. Without any text the
exponent is 0 unless `required`. -/
def parseExponent (lo up : Char) (required : Bool) : List Char → Option Int
  | [] => if required then none else some 0
  | c :: t =>
    if c = lo ∨ c = up then
      let sb := splitSign t
      if sb.2 ≠ [] ∧ sb.2.all isDigit = true then
        some (if sb.1 then -((exponentVal sb.2 : Nat) : Int) else ((exponentVal sb.2 : Nat) : Int))
      else none
    else none

/-- Mantissa of a float literal: the digits before an optional point, the
digits after it, and the text that follows. -/
def mantissaParts (digit : Char → Bool) (t : List Char) : List Char × List Char × List Char :=
  match t.dropWhile digit with
  | '.' :: u => (t.takeWhile digit, u.takeWhile digit, u.dropWhile digit)
  | r => (t.takeWhile digit, [], r)

/-- The fraction `mant * base ^ x` as numerator and denominator. -/
def scaled (mant base : Nat) (x : Int) : Nat × Nat :=
  if 0 ≤ x then (mant * base ^ x.toNat, 1) else (mant, base ^ (-x).toNat)

/-- An unsigned decimal float literal `digits[.digits][e[+-]digits]`, as the
exact fraction it denotes. -/
def decimalLiteral (t : List Char) : Option (Nat × Nat) :=
  let mp := mantissaParts isDigit t
  if mp.1 = [] ∧ mp.2.1 = [] then none
  else
    match parseExponent 'e' 'E' false mp.2.2 with
    | none => none
    | some e => some (scaled (digitsVal (mp.1 ++ mp.2.1)) 10 (e - (mp.2.1.length : Int)))

/-- An unsigned hexadecimal float literal, after its `0x`:
`hexdigits[.hexdigits]p[+-]digits`, as the exact fraction it denotes. -/
def hexLiteral (u : List Char) : Option (Nat × Nat) :=
  let mp := mantissaParts isHexDigit u
  if mp.1 = [] ∧ mp.2.1 = [] then none
  else
    match parseExponent 'p' 'P' true mp.2.2 with
    | none => none
    | some e => some (scaled (hexDigitsVal (mp.1 ++ mp.2.1)) 2 (e - 4 * (mp.2.1.length : Int)))

/-- An unsigned float literal without underscores: hexadecimal when it starts
with `0x` and has at least one more byte, decimal otherwise. -/
def floatLiteral (t : List Char) : Option (Nat × Nat) :=
  match t with
  | '0' :: x :: u => if (x = 'x' ∨ x = 'X') ∧ u ≠ [] then hexLiteral u else decimalLiteral t
  | _ => decimalLiteral t

/-- Go `strconv.ParseFloat(s, 64)`; `none` is a non-nil error (syntax or
range). The whole of `s` must be one of: `inf`, `infinity` (optionally signed)
or `nan` in any letter case; an optionally signed decimal or hexadecimal float
literal, in which underscores may separate digits. A literal is rounded to the
nearest binary64 value, and a literal that rounds to no finite value is a
range error. -/
def ParseFloat (s : List Char) : Option ParsedFloat :=
  match special s with
  | some r => if r.2 = s.length then some r.1 else none
  | none =>
    if s.contains '_' = true ∧ underscoreOK s = false then none
    else
      let sb := splitSign s
      match floatLiteral (sb.2.filter (fun c => c != '_')) with
      | none => none
      | some nd =>
        match roundToFloat64 sb.1 nd.1 nd.2 with
        | none => none
        | some q => some (.finite q)

/-- Go `int(f)` for a `float64`: truncation toward zero. -/
def floatToInt (q : ℚ) : Int := Int.tdiv q.num (q.den : Int)

/-- The ASCII white space of Go `strings.TrimSpace`: tab, LF, VT, FF, CR,
space. -/
def isGoSpace (c : Char) : Bool :=
  c.toNat == 9 || c.toNat == 10 || c.toNat == 11 || c.toNat == 12 ||
    c.toNat == 13 || c.toNat == 32

/-- The UTF-8 encodings of the white space of `unicode.IsSpace` outside ASCII:
U+0085, U+00A0, U+1680, U+2000 to U+200A, U+2028, U+2029, U+202F, U+205F and
U+3000. -/
def unicodeSpaces : List (List Nat) :=
  [[0xC2, 0x85], [0xC2, 0xA0], [0xE1, 0x9A, 0x80],
   [0xE2, 0x80, 0x80], [0xE2, 0x80, 0x81], [0xE2, 0x80, 0x82], [0xE2, 0x80, 0x83],
   [0xE2, 0x80, 0x84], [0xE2, 0x80, 0x85], [0xE2, 0x80, 0x86], [0xE2, 0x80, 0x87],
   [0xE2, 0x80, 0x88], [0xE2, 0x80, 0x89], [0xE2, 0x80, 0x8A],
   [0xE2, 0x80, 0xA8], [0xE2, 0x80, 0xA9], [0xE2, 0x80, 0xAF], [0xE2, 0x81, 0x9F],
   [0xE3, 0x80, 0x80]]

/-- Number of bytes of the white space rune that `s` starts with when its
bytes are matched against `encs`, 0 when it starts with none. -/
def spaceLen (encs : List (List Nat)) (s : List Char) : Nat :=
  match s with
  | [] => 0
  | c :: _ =>
    if isGoSpace c then 1
    else
      match encs.find? (fun enc => enc.isPrefixOf (s.map Char.toNat)) with
      | some enc => enc.length
      | none => 0

/-- Drop white space runes from the front of `s`; the first argument bounds
the number of runes dropped. -/
def dropSpaces (encs : List (List Nat)) : Nat → List Char → List Char
  | 0, s => s
  | f + 1, s => if spaceLen encs s = 0 then s else dropSpaces encs f (s.drop (spaceLen encs s))

/-- Go `strings.TrimSpace`: the string without the white space runes (as
`unicode.IsSpace` defines them, read as UTF-8) at its start and at its end.
The end is trimmed on the reversed bytes against the reversed encodings. -/
def TrimSpace (s : List Char) : List Char :=
  let front := dropSpaces unicodeSpaces s.length s
  (dropSpaces (unicodeSpaces.map List.reverse) front.length front.reverse).reverse

/-- Go `strings.Split(s, " ")`: the pieces between single space bytes. -/
def Split : List Char → List (List Char)
  | [] => [[]]
  | c :: t =>
    if c == ' ' then [] :: Split t
    else
      match Split t with
      | [] => [[c]]
      | p :: ps => (c :: p) :: ps

/-- Index of the first occurrence of `pat` in `s`, if any. -/
def findSub (pat : List Char) : List Char → Option Nat
  | [] => if pat = [] then some 0 else none
  | c :: t =>
    if pat.isPrefixOf (c :: t) then some 0
    else (findSub pat t).map (· + 1)

/-- Decimal rendering of a natural number (`%d`). -/
def natDigits (n : Nat) : List Char := (Nat.toDigits 10 n)

/-- Decimal rendering of an integer (`fmt.Sprintf("%d", n)`). -/
def fmtInt (n : Int) : List Char :=
  if n < 0 then '-' :: natDigits n.natAbs else natDigits n.natAbs

/-! ## Token reader (`PDFTokenReader`) -/

/-- Modelled from the spec: the token reader lives outside `parser.go`. It is a
seekable byte source with one read cursor. The spec leaves open whether the
empty token produced at end of input is Go's `nil` slice; `nilAtEOF` selects
the reading and every result below holds for both. -/
structure PDFTokenReader where
  /-- the bytes of the file -/
  data : List Char
  /-- the read cursor -/
  pos : Nat
  /-- whether `ReadToken` at end of input returns `nil` rather than an empty token -/
  nilAtEOF : Bool

namespace PDFTokenReader

/-- The bytes from the cursor to the end of the file. -/
def remaining (r : PDFTokenReader) : List Char := r.data.drop r.pos

/-- Modelled from the spec: `seek(offset, whence) -> new position` with the
`io.Seeker` convention (0 from start, 1 from cursor, 2 from end). A negative
target is an error and leaves the cursor alone. Returns `(position, ok)`. -/
def Seek (r : PDFTokenReader) (offset : Int) (whence : Nat) : (Int × Bool) × PDFTokenReader :=
  let base : Int :=
    match whence with
    | 0 => 0
    | 1 => (r.pos : Int)
    | _ => (r.data.length : Int)
  let target := base + offset
  if target < 0 then ((0, false), r)
  else ((target, true), { r with pos := target.toNat })

/-- Modelled from the spec: `readByte() -> byte or EndOfInput`; the byte
returned at end of input is NUL. -/
def ReadByte (r : PDFTokenReader) : (Char × Bool) × PDFTokenReader :=
  match r.remaining with
  | [] => ((Char.ofNat 0, false), r)
  | b :: _ => ((b, true), { r with pos := r.pos + 1 })

/-- Modelled from the spec: `peek(n) -> next n bytes without consuming`. -/
def Peek (r : PDFTokenReader) (n : Nat) : List Char := r.remaining.take n

/-- Modelled from the spec: `readBytes(n) -> exactly n bytes or as many as
remain`; a non-positive count reads nothing. -/
def ReadBytes (r : PDFTokenReader) (n : Int) : List Char × PDFTokenReader :=
  let bs := r.remaining.take n.toNat
  (bs, { r with pos := r.pos + bs.length })

/-- Advance the cursor by `n` bytes. -/
def SkipBytes (r : PDFTokenReader) (n : Nat) : PDFTokenReader :=
  { r with pos := r.pos + n }

/-- Modelled from the spec: one token scanned from `rest`, with the number of
bytes consumed. Whitespace is skipped first; a token is a single delimiter
(`<<`, `>>`, `<`, `>`, `[`, `]`, `(`, `)`) or the maximal run of regular bytes;
at end of input the token is empty. -/
def scanToken (rest : List Char) : Token × Nat :=
  let ws := (rest.takeWhile isPdfWhitespace).length
  match rest.dropWhile isPdfWhitespace with
  | [] => ([], ws)
  | c :: tl =>
    if c == '[' || c == ']' || c == '(' || c == ')' then ([c], ws + 1)
    else if c == '<' || c == '>' then
      match tl with
      | [] => ([c], ws + 1)
      | d :: _ => if d == c then ([c, c], ws + 2) else ([c], ws + 1)
    else
      let run := (c :: tl).takeWhile isRegular
      (run, ws + run.length)

/-- Modelled from the spec: `readToken() -> Token`. `none` is Go's `nil`. -/
def ReadToken (r : PDFTokenReader) : Option Token × PDFTokenReader :=
  let t := scanToken r.remaining
  let r1 := { r with pos := r.pos + t.2 }
  if t.1 = [] ∧ r.nilAtEOF = true then (none, r1) else (some t.1, r1)

/-- Modelled from the spec: `readTokens(n)`: up to `n` tokens, stopping at the
end of input. -/
def ReadTokens : Nat → PDFTokenReader → List Token × PDFTokenReader
  | 0, r => ([], r)
  | n + 1, r =>
    let t := scanToken r.remaining
    if t.1 = [] then ([], { r with pos := r.pos + t.2 })
    else
      let rest := ReadTokens n { r with pos := r.pos + t.2 }
      (t.1 :: rest.1, rest.2)

/-- Modelled from the spec: `peekTokens(n)`: the tokens `readTokens(n)` would
return, without moving the cursor. -/
def PeekTokens (r : PDFTokenReader) (n : Nat) : List Token := (ReadTokens n r).1

/-- Modelled from the spec: `readBytesToToken(delim) -> bytes, found`: the bytes
before the first occurrence of `delim`, which is consumed as well; without an
occurrence, everything that remains. -/
def ReadBytesToToken (r : PDFTokenReader) (delim : Token) : (List Char × Bool) × PDFTokenReader :=
  match findSub delim r.remaining with
  | some i => ((r.remaining.take i, true), { r with pos := r.pos + i + delim.length })
  | none => ((r.remaining, false), { r with pos := r.pos + r.remaining.length })

/-- Break a byte string into lines at every CR or LF. -/
def splitLines : List Char → List (List Char)
  | [] => [[]]
  | c :: t =>
    if c.toNat == 10 || c.toNat == 13 then [] :: splitLines t
    else
      match splitLines t with
      | [] => [[c]]
      | l :: ls => (c :: l) :: ls

/-- Modelled from the spec: `readLinesToToken(delim) -> lines, found`: the raw
lines between the cursor and the first occurrence of `delim`; the cursor is
left at `delim`. -/
def ReadLinesToToken (r : PDFTokenReader) (delim : Token) :
    (List (List Char) × Bool) × PDFTokenReader :=
  match findSub delim r.remaining with
  | some i => ((splitLines (r.remaining.take i), true), { r with pos := r.pos + i })
  | none => ((splitLines r.remaining, false), { r with pos := r.pos + r.remaining.length })

/-- Modelled from the spec: `skipToToken(tok) -> found`: move the cursor to the
first occurrence of the bytes of `tok` at or after it; without an occurrence
the cursor ends at the end of input. -/
def SkipToToken (r : PDFTokenReader) (tok : Token) : Bool × PDFTokenReader :=
  match findSub tok r.remaining with
  | some i => (true, { r with pos := r.pos + i })
  | none => (false, { r with pos := r.pos + r.remaining.length })

end PDFTokenReader

/-- Modelled from the spec: `NewTokenReader` wraps the file with the cursor at
the start. -/
def NewTokenReader (file : List Char) (nilAtEOF : Bool) : PDFTokenReader :=
  { data := file, pos := 0, nilAtEOF := nilAtEOF }

/-! ## Value model -/

/-- Key of an indirect object (Go: `type ObjectRef struct { Obj, Gen int }`). -/
structure ObjectRef where
  /-- object number -/
  Obj : Int
  /-- generation number -/
  Gen : Int
deriving DecidableEq, Repr

/-- Modelled from the spec: the value variants are declared outside
`parser.go`. `goNil` is Go's `nil` interface value, `nilDeclaration` a nil
`*ObjectDeclaration` stored in a `Value`. A dictionary is an association list
read through `lookup`. -/
inductive Value where
  | goNil
  | Null
  | Boolean (b : Bool)
  | Numeric (n : Int)
  | Real (r : ℚ)
  | Token (t : List Char)
  | String (s : List Char)
  | Hex (s : List Char)
  | Stream (s : List Char)
  | Array (xs : List Value)
  | Dictionary (kvs : List (List Char × Value))
  | ObjectRef (obj gen : Int)
  | ObjectDeclaration (obj gen : Int) (values : List Value)
  | nilDeclaration
deriving Repr

/-- Go `type Dictionary map[string]Value`. -/
abbrev Dictionary := List (List Char × Value)

/-- Map read `m[k]` with the `ok` flag. -/
def lookup {κ υ : Type} [DecidableEq κ] (k : κ) : List (κ × υ) → Option υ
  | [] => none
  | (k1, v) :: m => if k1 = k then some v else lookup k m

/-- Map write `m[k] = v`. -/
def mapSet {κ υ : Type} [DecidableEq κ] (k : κ) (v : υ) (m : List (κ × υ)) : List (κ × υ) :=
  (k, v) :: m.filter (fun e => !decide (e.1 = k))

/-- Map read `m[k]` without the flag: a missing key yields the nil value. -/
def Dictionary.get (d : Dictionary) (k : List Char) : Value :=
  (lookup k d).getD Value.goNil

/-- The materialised body of an indirect object. -/
structure ObjectDeclaration where
  /-- object number -/
  Obj : Int
  /-- generation number -/
  Gen : Int
  /-- the values read between the header and `endobj` -/
  Values : List Value
deriving Repr

/-- A page of the document. -/
structure PDFPage where
  /-- the page dictionary -/
  Dictionary : Dictionary
  /-- 1-indexed page number -/
  Number : Int
deriving Repr

/-- The xref part of the parser state. -/
structure XrefTable where
  /-- the highest xref object number -/
  maxObject : Int
  /-- the location of the xref table -/
  xrefLocation : Int
  /-- all the xref offsets -/
  xref : List (ObjectRef × Int)
  /-- the trailer dictionary -/
  trailer : Dictionary

/-- The parser state (Go: `type PDFParser struct`). -/
structure PDFParser where
  /-- the underlying token reader -/
  reader : PDFTokenReader
  /-- the current page number -/
  pageNumber : Int
  /-- the most recently used page box -/
  lastUsedPageBox : List Char
  /-- already loaded pages -/
  pages : List PDFPage
  /-- the xref data -/
  xref : XrefTable
  /-- the object being read -/
  currentObject : ObjectDeclaration
  /-- the dictionary most recently opened -/
  currentDictionary : Dictionary
  /-- the root dictionary -/
  root : Dictionary

/-- How an evaluation can stop without a result. -/
inductive Fault where
  /-- a Go run-time panic -/
  | panic
  /-- the fuel of the model ran out -/
  | fuel
  /-- the run would produce a `float64` infinity or NaN, which the model does
  not represent -/
  | unmodelled
deriving DecidableEq, Repr

/-- Result of a parser method: a value and the new parser state, or a fault. -/
abbrev Res (α : Type) := Except Fault (α × PDFParser)

/-! ## Value parser and object resolver (`parser.go`) -/

/-- Go `Token.Equals` / `Value.Equals` against a token: byte equality. -/
def tokenIs (v : Value) (t : Token) : Bool :=
  match v with
  | .Token s => decide (s = t)
  | _ => false

/-- The `<<` case of `readValue`: the key/value loop. `result` is the map built
so far; `rv` reads one value. Once an entry has been stored, the parser's
current dictionary is the very map being filled, so the `Null` written for a
missing value is seen through it as well. -/
def readDictionary (rv : PDFParser → Option Token → Res Value) :
    Nat → PDFParser → Dictionary → Res Value
  | 0, _, _ => .error .fuel
  | n + 1, parser, result =>
    let k := parser.reader.ReadToken
    let parser := { parser with reader := k.2 }
    match k.1 with
    | none => .ok (.goNil, parser)
    | some key =>
      if key = ['>', '>'] then .ok (.Dictionary result, parser)
      else
        match rv parser none with
        | .error e => .error e
        | .ok (value, parser) =>
          match value with
          | .goNil => .ok (.goNil, parser)
          | _ =>
            if tokenIs value ['>', '>'] then
              let result1 := mapSet key Value.Null result
              .ok (.Dictionary result1,
                if result.isEmpty then parser else { parser with currentDictionary := result1 })
            else
              let result1 := mapSet key value result
              readDictionary rv n { parser with currentDictionary := result1 } result1

/-- The `[` case of `readValue`: read values until a `]` token. -/
def readArray (rv : PDFParser → Option Token → Res Value) :
    Nat → PDFParser → List Value → Res Value
  | 0, _, _ => .error .fuel
  | n + 1, parser, result =>
    let t := parser.reader.ReadToken
    let parser := { parser with reader := t.2 }
    if t.1 = some [']'] then .ok (.Array result, parser)
    else
      match rv parser t.1 with
      | .error e => .error e
      | .ok (value, parser) => readArray rv n parser (result ++ [value])

/-- The `(` case of `readValue`: the byte loop over the input `rest` that
remains, with the bracket counter `openBrackets` and the buffer `buf`; returns
the buffer and the number of bytes consumed. Both `(` and `)` run
`openBrackets++`; after a backslash the next byte replaces it before the
write. -/
def readStringBytes (rest : List Char) (openBrackets : Int) (buf : List Char) (used : Nat) :
    List Char × Nat :=
  if openBrackets > 0 then
    match rest with
    | [] => (buf, used)
    | b :: rest1 =>
      if b.toNat = 0x28 then readStringBytes rest1 (openBrackets + 1) (buf ++ [b]) (used + 1)
      else if b.toNat = 0x29 then readStringBytes rest1 (openBrackets + 1) (buf ++ [b]) (used + 1)
      else if b.toNat = 0x5C then
        match rest1 with
        | [] => (buf ++ [Char.ofNat 0], used + 1)
        | b2 :: rest2 => readStringBytes rest2 openBrackets (buf ++ [b2]) (used + 2)
      else readStringBytes rest1 openBrackets (buf ++ [b]) (used + 1)
  else (buf, used)

/-- The `stream` case of `readValue`: skip the whitespace among the next 32
bytes. -/
def skipStreamWhitespace (r : PDFTokenReader) : PDFTokenReader :=
  r.SkipBytes ((r.Peek 32).takeWhile isPdfWhitespace).length

/-- The read loop of `resolveObject`: values are appended until `endobj`, a nil
value, or a read made when two values are already held. -/
def readObjectValues (rv : PDFParser → Option Token → Res Value) :
    Nat → PDFParser → List Value → Res (List Value)
  | 0, _, _ => .error .fuel
  | n + 1, parser, values =>
    match rv parser none with
    | .error e => .error e
    | .ok (value, parser) =>
      match value with
      | .goNil => .ok (values, parser)
      | _ =>
        if values.length > 1 then .ok (values, parser)
        else if tokenIs value "endobj".toList then .ok (values, parser)
        else readObjectValues rv n parser (values ++ [value])

/-- The bytes `fmt.Sprintf("%d %d obj", obj, gen)`. -/
def objHeader (obj gen : Int) : Token :=
  fmtInt obj ++ [' '] ++ fmtInt gen ++ " obj".toList

/-- Whether a parsed header is the requested reference (`header == objRef`). -/
def headerIs (header : Value) (obj gen : Int) : Bool :=
  match header with
  | .ObjectRef o g => decide (o = obj ∧ g = gen)
  | _ => false

/-- The part of `resolveObject` that follows the header check: build the
declaration from `header.(ObjectRef)`, run the read loop, then seek back to
`originalOffset`. -/
def readDeclaration (rv : PDFParser → Option Token → Res Value) (n : Nat)
    (parser : PDFParser) (originalOffset : Int) (header : Value) :
    Res (Option ObjectDeclaration) :=
  match header with
  | .ObjectRef ho hg =>
    let parser := { parser with currentObject := ObjectDeclaration.mk ho hg [] }
    match readObjectValues rv n parser [] with
    | .error e => .error e
    | .ok (values, parser) =>
      .ok (some (ObjectDeclaration.mk ho hg values),
        { parser with reader := (parser.reader.Seek originalOffset 0).2 })
  | _ => .error .panic

/-- Body of `resolveObject`, with `rv` reading one value and `n` bounding the
read loop. `none` is the nil pointer. -/
def resolveObjectWith (rv : PDFParser → Option Token → Res Value) (n : Nat)
    (parser : PDFParser) (spec : Value) : Res (Option ObjectDeclaration) :=
  match spec with
  | .goNil => .ok (none, parser)
  | .ObjectRef obj gen =>
    match lookup (ObjectRef.mk obj gen) parser.xref.xref with
    | some offset =>
      let originalOffset := (parser.reader.Seek 0 1).1.1
      let parser := { parser with reader := (parser.reader.Seek 0 1).2 }
      let parser := { parser with reader := (parser.reader.Seek offset 0).2 }
      match rv parser none with
      | .error e => .error e
      | .ok (header, parser) =>
        if headerIs header obj gen then readDeclaration rv n parser originalOffset header
        else
          let parser := { parser with reader := (parser.reader.Seek 0 0).2 }
          let toSearchFor := objHeader obj gen
          let sk := parser.reader.SkipToToken toSearchFor
          if sk.1 then
            readDeclaration rv n { parser with reader := sk.2.SkipBytes toSearchFor.length }
              originalOffset header
          else
            .ok (none, { parser with reader := (sk.2.Seek originalOffset 0).2 })
    | none => .ok (none, parser)
  | .ObjectDeclaration obj gen values => .ok (some (ObjectDeclaration.mk obj gen values), parser)
  | _ => .ok (none, parser)

/-- `return Real(real)` for a parsed float; an infinity or NaN is outside the
model. -/
def realValue (parser : PDFParser) (f : ParsedFloat) : Res Value :=
  match f with
  | .finite real => .ok (.Real real, parser)
  | _ => .error .unmodelled

/-- Tail of the numeric branch of `readValue`: the token parsed as an integer
`number` and is not the head of `n g obj` / `n g R`. -/
def numericValue (parser : PDFParser) (str : List Char) (number : Int) : Res Value :=
  match ParseFloat str with
  | some f => realValue parser f
  | none => .ok (.Numeric number, parser)

/-- The `stream` case of `readValue`: skip white space, take `/Length` from the
current dictionary (resolving a reference), read that many bytes and one more
token. -/
def readStream (rv : PDFParser → Option Token → Res Value) (fuel : Nat)
    (parser : PDFParser) : Res Value :=
  let parser := { parser with reader := skipStreamWhitespace parser.reader }
  match parser.currentDictionary.get "/Length".toList with
  | .goNil => .error .panic
  | .ObjectRef obj gen =>
    match resolveObjectWith rv fuel parser (.ObjectRef obj gen) with
    | .error e => .error e
    | .ok (_, _) => .error .panic
  | .Real length =>
    let st := parser.reader.ReadBytes (floatToInt length)
    let parser := { parser with reader := st.2 }
    let parser := { parser with reader := parser.reader.ReadToken.2 }
    .ok (.Stream st.1, parser)
  | _ => .error .panic

/-- The part of `readValue` after the `switch`: numbers, `true`, `false`,
`null`, and any other token. -/
def readPlain (parser : PDFParser) (str : List Char) : Res Value :=
  let a := Atoi str
  if a.2 then
    match parser.reader.PeekTokens 2 with
    | [t0, t1] =>
      if (Atoi t0).2 = true ∧ (t1 = "obj".toList ∨ t1 = ['R']) then
        .ok (.ObjectRef a.1 (Atoi t0).1,
          { parser with reader := (PDFTokenReader.ReadTokens 2 parser.reader).2 })
      else numericValue parser str a.1
    | _ => numericValue parser str a.1
  else
    match ParseFloat str with
    | some f => realValue parser f
    | none =>
      if str = "true".toList then .ok (.Boolean true, parser)
      else if str = "false".toList then .ok (.Boolean false, parser)
      else if str = "null".toList then .ok (.Null, parser)
      else .ok (.Token str, parser)

/-- The `switch str` of `readValue` and what follows it, for the token text
`str` with the cursor after the token. -/
def readValueAt (rv : PDFParser → Option Token → Res Value) (fuel : Nat)
    (parser : PDFParser) (str : List Char) : Res Value :=
  if str = ['<'] then
    let b := parser.reader.ReadBytesToToken ['>']
    .ok (.Hex b.1.1, { parser with reader := b.2 })
  else if str = ['<', '<'] then
    readDictionary rv fuel parser []
  else if str = ['['] then
    readArray rv fuel parser []
  else if str = ['('] then
    let s := readStringBytes parser.reader.remaining 1 [] 0
    .ok (.String s.1, { parser with reader := parser.reader.SkipBytes s.2 })
  else if str = "stream".toList then
    readStream rv fuel parser
  else
    readPlain parser str

/-- Body of the Go method `readValue`; `rv` stands for the recursive calls and
`fuel` bounds the loops and the nested resolution. `token = none` is the `nil`
argument, for which a token is read first. -/
def readValueBody (rv : PDFParser → Option Token → Res Value) (fuel : Nat)
    (parser : PDFParser) (token : Option Token) : Res Value :=
  let tk : Option Token × PDFTokenReader :=
    match token with
    | none => parser.reader.ReadToken
    | some t => (some t, parser.reader)
  readValueAt rv fuel { parser with reader := tk.2 } (tk.1.getD [])

/-- The Go method `readValue`: reads the next value from the PDF. Each level of
recursion uses one unit of fuel. -/
def readValue : Nat → PDFParser → Option Token → Res Value
  | 0, _, _ => .error .fuel
  | fuel + 1, parser, token => readValueBody (readValue fuel) fuel parser token

/-- The Go method `resolveObject`. -/
def resolveObject (fuel : Nat) (parser : PDFParser) (spec : Value) :
    Res (Option ObjectDeclaration) :=
  resolveObjectWith (readValue fuel) fuel parser spec

/-! ## Xref table and trailer (`readXrefTable`) -/

/-- The value of a Go `int` (64 bits) after an operation whose exact result is
`x`: the result wraps around modulo `2 ^ 64` into `-2 ^ 63 .. 2 ^ 63 - 1`. -/
def wrapInt64 (x : Int) : Int :=
  (x + 2 ^ 63) % 2 ^ 64 - 2 ^ 63

/-- The variables the line loop of `readXrefTable` updates: the running object
number `start`, `parser.xref.maxObject` and the map `parser.xref.xref`. -/
structure XrefScan where
  /-- the running object number -/
  start : Int
  /-- the highest xref object number -/
  maxObject : Int
  /-- all the xref offsets -/
  xref : List (ObjectRef × Int)

/-- One iteration of the line loop of `readXrefTable`; `Except.error` is the
`return errors.New(...)` of the `default` case. -/
def xrefLine (st : XrefScan) (lineBytes : List Char) : Except String XrefScan :=
  let line := TrimSpace lineBytes
  if line ≠ [] then
    if line = "xref".toList then .ok st
    else
      match Split line with
      | [] => .ok st
      | [p0, p1] =>
        let start := (Atoi p0).1
        let e := (Atoi p1).1
        .ok { st with start := start, maxObject := if e > st.maxObject then e else st.maxObject }
      | [p0, p1, p2] =>
        let xr := (ParseInt p0).1
        let gen := (Atoi p1).1
        let ref := ObjectRef.mk st.start gen
        let xref1 :=
          match lookup ref st.xref with
          | some _ => st.xref
          | none => if p2 = ['n'] then mapSet ref xr st.xref else st.xref
        .ok { st with xref := xref1, start := wrapInt64 (st.start + 1) }
      | _ => .error ("Unexpected data in xref table: \x27" ++ String.mk line ++ "\x27")
  else .ok st

/-- The line loop of `readXrefTable`. -/
def xrefLines : XrefScan → List (List Char) → Except String XrefScan
  | st, [] => .ok st
  | st, l :: ls =>
    match xrefLine st l with
    | .error e => .error e
    | .ok st1 => xrefLines st1 ls

/-- The Go method `readXrefTable`; the value is the returned `error`
(`none` is `nil`). On the error return of the line loop the entries stored by
the earlier lines are not carried in the returned state: the open sequence
drops the parser on every error. -/
def readXrefTable (fuel : Nat) (parser : PDFParser) (offset : Int) : Res (Option String) :=
  let sk := parser.reader.Seek offset 0
  if sk.1.2 = false then .ok (some "seek failed", parser)
  else
    let parser := { parser with reader := sk.2 }
    let rl := parser.reader.ReadLinesToToken "trailer".toList
    let parser := { parser with reader := rl.2 }
    if rl.1.2 = false then .ok (some "Cannot read end of xref table", parser)
    else
      let parser :=
        if parser.xref.xrefLocation = 0 then
          { parser with xref := { parser.xref with maxObject := 0, xrefLocation := offset, xref := [] } }
        else parser
      match xrefLines (XrefScan.mk 1 parser.xref.maxObject parser.xref.xref) rl.1.1 with
      | .error e =>
        .ok (some e, parser)
      | .ok st =>
        let parser := { parser with xref := { parser.xref with maxObject := st.maxObject, xref := st.xref } }
        let sk2 := parser.reader.Seek offset 0
        if sk2.1.2 = false then .ok (some "seek failed", parser)
        else
          let parser := { parser with reader := sk2.2 }
          let st := parser.reader.SkipToToken "trailer".toList
          let parser := { parser with reader := st.2 }
          if st.1 = false then .ok (some "Cannot skip to trailer", parser)
          else
            let parser := { parser with reader := parser.reader.ReadToken.2 }
            match readValue fuel parser none with
            | .error e => .error e
            | .ok (.Dictionary trailer, parser) =>
              .ok (none, { parser with xref := { parser.xref with trailer := trailer } })
            | .ok (_, _) => .error .panic

/-! ## Open sequence (`OpenPDFParser`) -/

/-- First element of `Values` as a dictionary (`x.Values[0].(Dictionary)`);
`none` is the panic of an empty slice or a failed type assertion. -/
def firstDictionary (d : ObjectDeclaration) : Option Dictionary :=
  match d.Values with
  | .Dictionary m :: _ => some m
  | _ => none

/-- The Go method `readRoot`: reads the object reference for the root. -/
def readRoot (fuel : Nat) (parser : PDFParser) : Res (Option String) :=
  match lookup "/Root".toList parser.xref.trailer with
  | some rootRef =>
    match rootRef with
    | .goNil => .error .panic
    | .ObjectRef obj gen =>
      match resolveObject fuel parser (.ObjectRef obj gen) with
      | .error e => .error e
      | .ok (none, parser) => .ok (some "Could not find reference to root", parser)
      | .ok (some root, parser) =>
        match firstDictionary root with
        | some d => .ok (none, { parser with root := d })
        | none => .error .panic
    | _ => .ok (some "Wrong Type of Root-Element! Must be an indirect reference", parser)
  | none => .ok (some "Could not find root in trailer", parser)

/-- The Go method `getPagesObj`: gets the pages object from the root element. -/
def getPagesObj (fuel : Nat) (parser : PDFParser) : Res (Except String Dictionary) :=
  match lookup "/Pages".toList parser.root with
  | some pagesRef =>
    match pagesRef with
    | .goNil => .error .panic
    | .ObjectRef obj gen =>
      match resolveObject fuel parser (.ObjectRef obj gen) with
      | .error e => .error e
      | .ok (none, parser) => .ok (.error "Could not find reference to pages", parser)
      | .ok (some pages, parser) =>
        match firstDictionary pages with
        | some d => .ok (.ok d, parser)
        | none => .error .panic
    | _ => .ok (.error "Wrong Type of Pages-Element! Must be an indirect reference", parser)
  | none => .ok (.error "Could not find /Pages in /Root-Dictionary", parser)

/-- The `for k, val := range kids` loop of `readPages`; `k` is the index of the
head of `kids`. -/
def readKids (fuel : Nat) : PDFParser → Int → List Value → Res (Option String)
  | parser, _, [] => .ok (none, parser)
  | parser, k, val :: kids =>
    match resolveObject fuel parser val with
    | .error e => .error e
    | .ok (none, parser) =>
      .ok (some ("Could not find reference to page %!i(int=" ++ toString (k + 1) ++ ")"), parser)
    | .ok (some pageObj, parser) =>
      match firstDictionary pageObj with
      | none => .error .panic
      | some d =>
        readKids fuel { parser with pages := parser.pages ++ [PDFPage.mk d (k + 1)] } (k + 1) kids

/-- The Go method `readPages`: parses the PDF Page Object into PDFPages. An
`Array` that `readValue` builds comes from `make`, so it is never a nil slice
and the `kids == nil` branch has no case here. -/
def readPages (fuel : Nat) (parser : PDFParser) (pages : Dictionary) : Res (Option String) :=
  match lookup "/Kids".toList pages with
  | some kidsRef =>
    match kidsRef with
    | .goNil => .error .panic
    | .Array kids => readKids fuel parser 0 kids
    | _ => .ok (some "Wrong Type of Kids-Element! Must be an array", parser)
  | none => .ok (some "Cannot find /Kids in current /Page-Dictionary", parser)

/-- The Go method `getEncryption`: checks if the pdf has encryption. -/
def getEncryption (parser : PDFParser) : Bool :=
  match lookup "/Encrypt".toList parser.xref.trailer with
  | some _ => true
  | none => false

/-- Last index at which `pat` occurs in `s`, if any. -/
def findLastSub (pat : List Char) : List Char → Option Nat
  | [] => if pat = [] then some 0 else none
  | c :: t =>
    match findLastSub pat t with
    | some i => some (i + 1)
    | none => if pat.isPrefixOf (c :: t) then some 0 else none

/-- Modelled from the spec: `findXrefTable` belongs to the token reader; it
locates the table through the trailing `startxref` marker: the integer token
after the last `startxref` is the table offset. -/
def findXrefTable (r : PDFTokenReader) : Except String Int × PDFTokenReader :=
  match findLastSub "startxref".toList r.data with
  | none => (.error "Cannot find startxref", r)
  | some i =>
    let t := ({ r with pos := i + 9 } : PDFTokenReader).ReadToken
    let a := Atoi (t.1.getD [])
    if a.2 then (.ok a.1, t.2) else (.error "Cannot read xref offset", t.2)

/-- Modelled from the spec: the constant `DefaultBox` is declared with the box
names outside `parser.go`; the spec only calls it the default box name, and
its value plays no role in any result below. -/
def DefaultBox : List Char := "/CropBox".toList

/-- The parser `new(PDFParser)` with the reader, page number and box set as in
`OpenPDFParser`. -/
def newParser (reader : PDFTokenReader) : PDFParser :=
  { reader := reader, pageNumber := 0, lastUsedPageBox := DefaultBox, pages := [],
    xref := XrefTable.mk 0 0 [] [], currentObject := ObjectDeclaration.mk 0 0 [],
    currentDictionary := [], root := [] }

/-- The page-tree steps at the end of `OpenPDFParser`: `getPagesObj`, then
`readPages`. -/
def openPages (fuel : Nat) (parser : PDFParser) : Except Fault (Except String PDFParser) :=
  match getPagesObj fuel parser with
  | .error e => .error e
  | .ok (.error err, _) => .ok (.error err)
  | .ok (.ok pagesObj, parser) =>
    match readPages fuel parser pagesObj with
    | .error e => .error e
    | .ok (some err, _) => .ok (.error err)
    | .ok (none, parser) => .ok (.ok parser)

/-- Body of `OpenPDFParser` with the page-tree steps passed as `pageSteps`:
the inner `Except` is Go's `(parser, err)`. -/
def OpenPDFParserWith (pageSteps : PDFParser → Except Fault (Except String PDFParser))
    (fuel : Nat) (file : List Char) (nilAtEOF : Bool) : Except Fault (Except String PDFParser) :=
  let parser := newParser (NewTokenReader file nilAtEOF)
  let fx := findXrefTable parser.reader
  let parser := { parser with reader := fx.2 }
  match fx.1 with
  | .error err => .ok (.error err)
  | .ok offset =>
    match readXrefTable fuel parser offset with
    | .error e => .error e
    | .ok (some err, _) => .ok (.error err)
    | .ok (none, parser) =>
      match readRoot fuel parser with
      | .error e => .error e
      | .ok (some err, _) => .ok (.error err)
      | .ok (none, parser) =>
        if getEncryption parser then .ok (.error "File is encrypted!")
        else pageSteps parser

/-- The Go function `OpenPDFParser`: opens an existing PDF file and readies it. -/
def OpenPDFParser (fuel : Nat) (file : List Char) (nilAtEOF : Bool) :
    Except Fault (Except String PDFParser) :=
  OpenPDFParserWith (openPages fuel) fuel file nilAtEOF

/-! ## Sample inputs -/

/-- A parser over `file` with the cursor at `pos` and the xref index `xref`. -/
def sampleParser (file : String) (pos : Nat) (xref : List (ObjectRef × Int)) : PDFParser :=
  { newParser (PDFTokenReader.mk file.toList pos false) with xref := XrefTable.mk 0 0 xref [] }

/-- Two indirect objects: a dictionary at byte 0 and a number at byte 26. -/
def twoObjects : String := "1 0 obj << /A 1 >> endobj 2 0 obj 7 endobj"

/-- The index of `twoObjects` with correct offsets. -/
def twoObjectsXref : List (ObjectRef × Int) := [(ObjectRef.mk 1 0, 0), (ObjectRef.mk 2 0, 26)]

/-- An index of `twoObjects` whose offset for `2 0` is stale: it is the offset
of object `1 0`. -/
def staleXref : List (ObjectRef × Int) := [(ObjectRef.mk 1 0, 0), (ObjectRef.mk 2 0, 0)]

/-- The map obtained by storing entries in reading order with `m[k] = v`. -/
def dictOf (es : List (Token × Value)) : Dictionary :=
  es.foldl (fun d e => mapSet e.1 e.2 d) []

/-- `EntriesRead rv p acc es q`: from state `p`, with the map `acc` built so
far, the dictionary loop reads the entries `es` one after another, each as a
key token other than `>>` followed by a value that `rv` parses (neither nil nor
the token `>>`), storing each one; `q` is the state after the last store. -/
def EntriesRead (rv : PDFParser → Option Token → Res Value) :
    PDFParser → Dictionary → List (Token × Value) → PDFParser → Prop
  | p, _, [], q => q = p
  | p, acc, (k, v) :: es, q =>
    p.reader.ReadToken.1 = some k ∧ k ≠ ['>', '>'] ∧ v ≠ Value.goNil ∧
      tokenIs v ['>', '>'] = false ∧
      ∃ p2, rv { p with reader := p.reader.ReadToken.2 } none = .ok (v, p2) ∧
        EntriesRead rv { p2 with currentDictionary := mapSet k v acc } (mapSet k v acc) es q

/-- A dictionary with a repeated key, followed by more input. -/
def dictSample : String := "<< /A 1 /B 2 /A 3 >> x"

/-- The entries of `dictSample` in reading order. -/
def dictSampleEntries : List (Token × Value) :=
  [("/A".toList, .Real 1), ("/B".toList, .Real 2), ("/A".toList, .Real 3)]

/-- A literal string with balanced nested parentheses, followed by more input. -/
def stringSample : String := "(a(b)c) 5"

/-- A stream object whose `/Length` is the indirect reference `2 0 R`; object
`2 0` (at byte 56) holds the number 3. -/
def streamSample : String :=
  "1 0 obj << /Length 2 0 R >> stream abc endstream endobj 2 0 obj 3 endobj"

/-- The index of `streamSample`. -/
def streamXref : List (ObjectRef × Int) := [(ObjectRef.mk 1 0, 0), (ObjectRef.mk 2 0, 56)]

/-- A reference `12 0 R` followed by three unrelated integers. -/
def numberSample : String := "12 0 R 7 8 9"

/-- A subsection header: first object number 0, three entries. -/
def xrefHeaderLine : List Char := "0 3".toList

/-- Three entry lines: one free entry and two in-use entries. -/
def xrefEntryLines : List (List Char) :=
  ["0000000000 65535 f ".toList, "0000000017 00000 n ".toList, "0000000081 00000 n ".toList]

/-- The fields of `xrefEntryLines`. -/
def xrefEntries : List (List Char × List Char × List Char) :=
  [("0000000000".toList, "65535".toList, "f".toList),
   ("0000000017".toList, "00000".toList, "n".toList),
   ("0000000081".toList, "00000".toList, "n".toList)]

/-- An xref table with an entry line of four fields. -/
def badXrefFile : String := "xref\n0 1\n0000000000 65535 f extra\ntrailer\n<< >>"

/-- `Frame p q`: state `q` differs from `p` at most in the read cursor, the
current object and the current dictionary; the file, the xref data, the page
list, the root and the page selection are the same. -/
def Frame (p q : PDFParser) : Prop :=
  q.xref = p.xref ∧ q.pages = p.pages ∧ q.root = p.root ∧ q.pageNumber = p.pageNumber ∧
    q.lastUsedPageBox = p.lastUsedPageBox ∧ q.reader.data = p.reader.data ∧
    q.reader.nilAtEOF = p.reader.nilAtEOF

/-- `SameFile r s`: the readers `r` and `s` differ at most in the cursor. -/
def SameFile (r s : PDFTokenReader) : Prop :=
  s.data = r.data ∧ s.nilAtEOF = r.nilAtEOF

/-- A value reader `rv` keeps the frame: every call that returns does so in a
state framed by the state it started in. -/
def KeepsFrame (rv : PDFParser → Option Token → Res Value) : Prop :=
  ∀ p t v q, rv p t = .ok (v, q) → Frame p q

/-- A file whose trailer has `/Encrypt` but no `/Root`; the xref table is at
byte 49. -/
def encryptedNoRoot : String :=
  "1 0 obj\n<< /Type /Catalog /Pages 2 0 R >>\nendobj\nxref\n0 2\n0000000000 65535 f \n0000000000 00000 n \ntrailer\n<< /Size 4 /Encrypt 5 0 R >>\nstartxref\n49\n%%EOF\n"

/-- A file whose trailer has `/Encrypt` and a `/Root` that resolves. -/
def encryptedWithRoot : String :=
  "1 0 obj\n<< /Type /Catalog /Pages 2 0 R >>\nendobj\nxref\n0 2\n0000000000 65535 f \n0000000000 00000 n \ntrailer\n<< /Size 4 /Root 1 0 R /Encrypt 5 0 R >>\nstartxref\n49\n%%EOF\n"

/-- The parser state of `OpenPDFParser` on `file` just before `readXrefTable`. -/
def openStart (file : List Char) (nilAtEOF : Bool) : PDFParser :=
  { newParser (NewTokenReader file nilAtEOF) with
    reader := (findXrefTable (NewTokenReader file nilAtEOF)).2 }

/-! ## Page queries (`parser.go`) -/

/-- Modelled from the spec: the point type of the authoring engine
(`gofpdf.PointType`), a pair of coordinates. -/
structure PointType where
  /-- horizontal coordinate -/
  X : ℚ
  /-- vertical coordinate -/
  Y : ℚ
deriving DecidableEq

/-- Modelled from the spec: the size type of the authoring engine
(`gofpdf.SizeType`), width and height. -/
structure SizeType where
  /-- width -/
  Wd : ℚ
  /-- height -/
  Ht : ℚ
deriving DecidableEq

/-- Modelled from the spec: a page box is declared outside `parser.go`; it holds
`{ origin, size, lowCorner, highCorner }`, in the order `getPageBox` fills it. -/
structure PageBox where
  /-- the first stored corner -/
  origin : PointType
  /-- width and height -/
  size : SizeType
  /-- lower left corner -/
  lowCorner : PointType
  /-- upper right corner -/
  highCorner : PointType
deriving DecidableEq

/-- Modelled from the spec: the box set returned by `GetPageBoxes`, declared
outside `parser.go`: the boxes found, by name, and the default box name. -/
structure PageBoxes where
  /-- the boxes found, by box name -/
  boxes : List (List Char × PageBox)
  /-- the most recently used box name -/
  lastUsedPageBox : List Char

/-- Modelled from the spec: the box name `MediaBox`. -/
def MediaBox : List Char := "/MediaBox".toList

/-- Modelled from the spec: the box name `CropBox`. -/
def CropBox : List Char := "/CropBox".toList

/-- Modelled from the spec: the box name `BleedBox`. -/
def BleedBox : List Char := "/BleedBox".toList

/-- Modelled from the spec: the box name `TrimBox`. -/
def TrimBox : List Char := "/TrimBox".toList

/-- Modelled from the spec: the box name `ArtBox`. -/
def ArtBox : List Char := "/ArtBox".toList

/-- Go `math.Abs` on the rational carried for a `float64`. -/
def fabs (x : ℚ) : ℚ := if x < 0 then -x else x

/-- Go `math.Min`. -/
def fmin (x y : ℚ) : ℚ := if x ≤ y then x else y

/-- Go `math.Max`. -/
def fmax (x y : ℚ) : ℚ := if x ≤ y then y else x

/-- The box computed by `getPageBox` from `boxDetails`, an array of values,
with scale `k`; `none` is the panic of a short array or of an element that is
not a `Real`. -/
def boxFromArray (boxDetails : List Value) (k : ℚ) : Option PageBox :=
  match boxDetails with
  | .Real b0 :: .Real b1 :: .Real b2 :: .Real b3 :: _ =>
    some
      { origin := PointType.mk (b0 / k) (b1 / k),
        size := SizeType.mk (fabs (b0 - b2) / k) (fabs (b1 - b3) / k),
        lowCorner := PointType.mk (fmin b0 b2 / k) (fmin b1 b3 / k),
        highCorner := PointType.mk (fmax b0 b2 / k) (fmax b1 b3 / k) }
  | _ => none

/-- The Go method `getPageBox`: reads a bounding box from a page. `depth`
bounds the climb along `/Parent`, `fuel` is handed to `resolveObject`. The
value `none` is the nil pointer. -/
def getPageBox (fuel : Nat) : Nat → PDFParser → Dictionary → List Char → ℚ → Res (Option PageBox)
  | 0, _, _, _, _ => .error .fuel
  | depth + 1, parser, page, boxIndex, k =>
    match lookup boxIndex page with
    | some .goNil => .error .panic
    | some (.ObjectRef obj gen) =>
      -- the resolved declaration is stored in `box`: never nil, never an array
      match resolveObject fuel parser (.ObjectRef obj gen) with
      | .error e => .error e
      | .ok (_, parser) => .ok (none, parser)
    | some (.Array boxDetails) =>
      match boxFromArray boxDetails k with
      | some box => .ok (some box, parser)
      | none => .error .panic
    | _ =>
      -- box not found, take it from the parent
      match lookup "/Parent".toList page with
      | some parentPageRef =>
        match resolveObject fuel parser parentPageRef with
        | .error e => .error e
        | .ok (none, _) => .error .panic
        | .ok (some parentPageObj, parser) =>
          match firstDictionary parentPageObj with
          | some d => getPageBox fuel depth parser d boxIndex k
          | none => .error .panic
      | none => .ok (none, parser)

/-- One `if box := parser.getPageBox(...); box != nil` step of `GetPageBoxes`. -/
def addPageBox (fuel depth : Nat) (page : Dictionary) (k : ℚ) (name : List Char)
    (acc : Res (List (List Char × PageBox))) : Res (List (List Char × PageBox)) :=
  match acc with
  | .error e => .error e
  | .ok (boxes, parser) =>
    match getPageBox fuel depth parser page name k with
    | .error e => .error e
    | .ok (some box, parser) => .ok (mapSet name box boxes, parser)
    | .ok (none, parser) => .ok (boxes, parser)

/-- Go slice indexing `pages[i]` with an `int` index; `none` is the
index-out-of-range panic. -/
def pageAt (pages : List PDFPage) (i : Int) : Option PDFPage :=
  if i < 0 then none else pages[i.toNat]?

/-- The Go method `GetPageBoxes`: gets all the bounding boxes for a given page. -/
def GetPageBoxes (fuel depth : Nat) (parser : PDFParser) (pageNumber : Int) (k : ℚ) :
    Res PageBoxes :=
  if pageNumber < 0 ∨ pageNumber - 1 ≥ (parser.pages.length : Int) then
    .ok (PageBoxes.mk [] DefaultBox, parser)
  else
    match pageAt parser.pages (pageNumber - 1) with
    | none => .error .panic
    | some page =>
      match
        addPageBox fuel depth page.Dictionary k ArtBox
          (addPageBox fuel depth page.Dictionary k TrimBox
            (addPageBox fuel depth page.Dictionary k BleedBox
              (addPageBox fuel depth page.Dictionary k CropBox
                (addPageBox fuel depth page.Dictionary k MediaBox (.ok ([], parser)))))) with
      | .error e => .error e
      | .ok (boxes, parser) => .ok (PageBoxes.mk boxes DefaultBox, parser)

/-- The Go method `setPageNumber`. -/
def setPageNumber (parser : PDFParser) (pageNumber : Int) : PDFParser :=
  { parser with pageNumber := pageNumber }

/-- The loop `for i, page := range parser.pages { if i == parser.pageNumber - 1`
of the page-selected queries: the page at index `target`, scanning from index
`i`. -/
def findPage : List PDFPage → Int → Int → Option PDFPage
  | [], _, _ => none
  | page :: rest, i, target => if i = target then some page else findPage rest (i + 1) target

/-- The error `errors.New(fmt.Sprintf("Page %s does not exists.", n))`; the verb
`%s` applied to an `int` prints `%!s(int=n)`. -/
def pageError (n : Int) : String :=
  "Page %!s(int=" ++ toString n ++ ") does not exists."

/-- The Go method `_getPageRotation`; the pair is Go's `(error, Value)`, with
`Value.goNil` the nil value. No value that `readValue` builds has the type
`typeObject`, so the two `rotation.(Object).Value` branches have no case here. -/
def _getPageRotation (fuel : Nat) :
    Nat → PDFParser → Value → Res (Option String × Value)
  | 0, _, _ => .error .fuel
  | depth + 1, parser, pageObj =>
    match pageObj with
    | .Dictionary page =>
      match lookup "/Rotate".toList page with
      | some .goNil => .error .panic
      | some rotation => .ok ((none, rotation), parser)
      | none =>
        match lookup "/Parent".toList page with
        | some parentObj =>
          match resolveObject fuel parser parentObj with
          | .error e => .error e
          | .ok (none, _) => .error .panic
          | .ok (some parent, parser) =>
            match parent.Values with
            | [] => .error .panic
            | v :: _ =>
              match _getPageRotation fuel depth parser v with
              | .error e => .error e
              | .ok ((some err, _), parser) => .ok ((some err, .goNil), parser)
              | .ok ((none, parentRotation), parser) => .ok ((none, parentRotation), parser)
        | none => .ok ((none, .goNil), parser)
    | _ => .error .panic

/-- The Go method `getPageRotation`: reads the page rotation for the selected
page. -/
def getPageRotation (fuel depth : Nat) (parser : PDFParser) : Res (Option String × Value) :=
  match findPage parser.pages 0 (parser.pageNumber - 1) with
  | some page => _getPageRotation fuel depth parser (.Dictionary page.Dictionary)
  | none => .ok ((some (pageError (parser.pageNumber - 1)), .goNil), parser)

/-- The Go method `_getPageResources`; the pair is Go's `(error, []Value)`, with
`none` the nil slice. -/
def _getPageResources (fuel : Nat) :
    Nat → PDFParser → Value → Res (Option String × Option (List Value))
  | 0, _, _ => .error .fuel
  | depth + 1, parser, pageObj =>
    match pageObj with
    | .Dictionary page =>
      match lookup "/Resources".toList page with
      | some resources =>
        match resolveObject fuel parser resources with
        | .error e => .error e
        | .ok (none, _) => .error .panic
        | .ok (some decl, parser) => .ok ((none, some decl.Values), parser)
      | none =>
        match lookup "/Parent".toList page with
        | some parentObj =>
          match resolveObject fuel parser parentObj with
          | .error e => .error e
          | .ok (none, _) => .error .panic
          | .ok (some parent, parser) =>
            match parent.Values with
            | [] => .error .panic
            | v :: _ =>
              match _getPageResources fuel depth parser v with
              | .error e => .error e
              | .ok ((some err, _), parser) => .ok ((some err, none), parser)
              | .ok ((none, parentResources), parser) => .ok ((none, parentResources), parser)
        | none => .ok ((none, none), parser)
    | _ => .error .panic

/-- The Go method `getPageResources`: reads the page resources for the selected
page. -/
def getPageResources (fuel depth : Nat) (parser : PDFParser) :
    Res (Option String × Option (List Value)) :=
  match findPage parser.pages 0 (parser.pageNumber - 1) with
  | some page => _getPageResources fuel depth parser (.Dictionary page.Dictionary)
  | none => .ok ((some (pageError (parser.pageNumber - 1)), none), parser)

/-! ## Content streams (`parser.go`) -/

/-- The stream decoders of the Go standard library that `_unFilterStream`
calls, taken as parameters: `zlibDecode` is `zlib.NewReader` followed by
`io.Copy` (`none` when `NewReader` rejects the data: its result is then nil and
the deferred `Close` panics), `lzwDecode` is `lzw.NewReader(_, lzw.MSB, 8)` with
`io.Copy`, `ascii85Decode` is `ascii85.NewDecoder` with `io.Copy`. -/
structure Codecs where
  /-- zlib inflate -/
  zlibDecode : List Char → Option (List Char)
  /-- LZW, MSB first, 8 bit literals -/
  lzwDecode : List Char → List Char
  /-- ASCII-85 -/
  ascii85Decode : List Char → List Char

/-- Go `hex.DecodeString` on a string of hexadecimal digits of even length. -/
def hexPairs : List Char → List Char
  | a :: b :: rest => Char.ofNat (16 * hexVal a + hexVal b) :: hexPairs rest
  | _ => []

/-- The `ASCIIHexDecode` case of `_unFilterStream`: drop every byte outside
`[0-9A-Fa-f]`, pad an odd length with `0`, decode. -/
def asciiHexDecode (stream : List Char) : List Char :=
  let hexstring := stream.filter isHexDigit
  hexPairs (if hexstring.length % 2 = 1 then hexstring ++ ['0'] else hexstring)

/-- The names collected in `useFilters` from the `/Filter` value; `none` is the
panic of `Type()` on a nil value or of an array element that is not a token. -/
def filterNames : Value → Option (List (List Char))
  | .goNil => none
  | .Token t => some [t]
  | .Array xs =>
    xs.foldr
      (fun x acc =>
        match x, acc with
        | .Token t, some ts => some (t :: ts)
        | _, _ => none)
      (some [])
  | _ => some []

/-- The loop `for _, filter := range useFilters` of `_unFilterStream` on the
raw bytes `stream`: the case `/Fl` has an empty body, every other case returns
its decoding of `stream`; the result after the loop is nil, here `[]`. -/
def applyFilters (codecs : Codecs) (stream : List Char) : List (List Char) → Except Fault (List Char)
  | [] => .ok []
  | filter :: rest =>
    if filter = "/Fl".toList then applyFilters codecs stream rest
    else if filter = "/FlateDecode".toList then
      match codecs.zlibDecode stream with
      | some out => .ok out
      | none => .error .panic
    else if filter = "/LZWDecode".toList then .ok (codecs.lzwDecode stream)
    else if filter = "/ASCII85Decode".toList then .ok (codecs.ascii85Decode stream)
    else if filter = "ASCIIHexDecode".toList then .ok (asciiHexDecode stream)
    else applyFilters codecs stream rest

/-- The Go method `_unFilterStream`; a nil result and an empty result are both
`[]`. -/
def _unFilterStream (codecs : Codecs) (fuel : Nat) (parser : PDFParser) (content : List Value) :
    Res (List Char) :=
  match content with
  | .Dictionary d :: rest =>
    let names : Res (List (List Char)) :=
      match lookup "/Filter".toList d with
      | some .goNil => .error .panic
      | some (.ObjectRef obj gen) =>
        match resolveObject fuel parser (.ObjectRef obj gen) with
        | .error e => .error e
        | .ok (none, _) => .error .panic
        | .ok (some tmpFilter, parser) =>
          match tmpFilter.Values with
          | [] => .error .panic
          | filter :: _ =>
            match filterNames filter with
            | some ns => .ok (ns, parser)
            | none => .error .panic
      | some filter =>
        match filterNames filter with
        | some ns => .ok (ns, parser)
        | none => .error .panic
      | none => .ok ([], parser)
    match names with
    | .error e => .error e
    | .ok (useFilters, parser) =>
      match rest with
      | .Stream stream :: _ =>
        match applyFilters codecs stream useFilters with
        | .error e => .error e
        | .ok out => .ok (out, parser)
      | _ => .error .panic
  | _ => .error .panic

/-- The loop `for _, pageContent := range contentRef.(Array)` of
`_getPageContent`, with `visit` the recursive call. -/
def forEachContent
    (visit : PDFParser → Value → List (List Value) → Res (List (List Value))) :
    List Value → PDFParser → List (List Value) → Res (List (List Value))
  | [], parser, result => .ok (result, parser)
  | pageContent :: rest, parser, result =>
    match visit parser pageContent result with
    | .error e => .error e
    | .ok (result, parser) => forEachContent visit rest parser result

/-- The Go method `_getPageContent`; `result` is `*resultContent`. -/
def _getPageContent (fuel : Nat) :
    Nat → PDFParser → Value → List (List Value) → Res (List (List Value))
  | 0, _, _, _ => .error .fuel
  | depth + 1, parser, contentRef, result =>
    match contentRef with
    | .goNil => .error .panic
    | .ObjectRef obj gen =>
      match resolveObject fuel parser (.ObjectRef obj gen) with
      | .error e => .error e
      | .ok (none, _) => .error .panic
      | .ok (some content, parser) =>
        match content.Values with
        | [] => .error .panic
        | .goNil :: _ => .error .panic
        | .Array xs :: _ => _getPageContent fuel depth parser (.Array xs) result
        | _ => .ok (result ++ [content.Values], parser)
    | .Array xs => forEachContent (_getPageContent fuel depth) xs parser result
    | _ => .ok (result, parser)

/-- The loop `for _, content := range contents` of `getContent`. -/
def unfilterAll (codecs : Codecs) (fuel : Nat) :
    List (List Value) → PDFParser → List Char → Res (List Char)
  | [], parser, returnBytes => .ok (returnBytes, parser)
  | content :: rest, parser, returnBytes =>
    match _unFilterStream codecs fuel parser content with
    | .error e => .error e
    | .ok (newBytes, parser) => unfilterAll codecs fuel rest parser (returnBytes ++ newBytes)

/-- The Go method `getContent`: reads the content of the selected page; the
pair is Go's `(error, []byte)`. -/
def getContent (codecs : Codecs) (fuel depth : Nat) (parser : PDFParser) :
    Res (Option String × List Char) :=
  match findPage parser.pages 0 (parser.pageNumber - 1) with
  | some page =>
    match lookup "/Contents".toList page.Dictionary with
    | some contentRef =>
      match _getPageContent fuel depth parser contentRef [] with
      | .error e => .error e
      | .ok (contents, parser) =>
        match unfilterAll codecs fuel contents parser [] with
        | .error e => .error e
        | .ok (returnBytes, parser) => .ok ((none, returnBytes), parser)
    | none => .ok ((none, []), parser)
  | none => .ok ((some (pageError (parser.pageNumber - 1)), []), parser)

/-! ## Document handle (`fpdi.go`) -/

/-- The Go type `Fpdi`. The field `pdfVersion`, copied from the reader, is
outside the reader contract of the spec and is left out. -/
structure Fpdi where
  /-- the number of pages in the PDF document -/
  numPages : Int
  /-- the most recently used value of boxNames -/
  lastUsedPageBox : List Char
  /-- the actual document reader -/
  parser : PDFParser
  /-- default scale factor (number of points in user unit) -/
  k : ℚ

/-- The Go function `Open`: makes an existing PDF file usable for templates. -/
def Open (fuel : Nat) (file : List Char) (nilAtEOF : Bool) : Except Fault (Except String Fpdi) :=
  match OpenPDFParser fuel file nilAtEOF with
  | .error e => .error e
  | .ok (.error err) => .ok (.error err)
  | .ok (.ok parser) =>
    .ok (.ok
      { numPages := (parser.pages.length : Int), lastUsedPageBox := [], parser := parser,
        k := mkRat 720 254 })

/-- The Go method `CountPages`: the number of pages in this source document. -/
def CountPages (td : Fpdi) : Int := td.numPages

/-! ## Deciding equality of values and states -/

mutual
/-- Equality of values is decidable. -/
def Value.decEq (a b : Value) : Decidable (a = b) :=
  match a with
  | .goNil => by
    cases b <;> first | exact isTrue rfl | exact isFalse (fun e => nomatch e)
  | .Null => by
    cases b <;> first | exact isTrue rfl | exact isFalse (fun e => nomatch e)
  | .nilDeclaration => by
    cases b <;> first | exact isTrue rfl | exact isFalse (fun e => nomatch e)
  | .Boolean x => by
    cases b
    case Boolean y =>
      exact decidable_of_iff (x = y) ⟨fun h => by rw [h], fun h => Value.Boolean.inj h⟩
    all_goals exact isFalse (fun e => nomatch e)
  | .Numeric x => by
    cases b
    case Numeric y =>
      exact decidable_of_iff (x = y) ⟨fun h => by rw [h], fun h => Value.Numeric.inj h⟩
    all_goals exact isFalse (fun e => nomatch e)
  | .Real x => by
    cases b
    case Real y =>
      exact decidable_of_iff (x = y) ⟨fun h => by rw [h], fun h => Value.Real.inj h⟩
    all_goals exact isFalse (fun e => nomatch e)
  | .Token x => by
    cases b
    case Token y =>
      exact decidable_of_iff (x = y) ⟨fun h => by rw [h], fun h => Value.Token.inj h⟩
    all_goals exact isFalse (fun e => nomatch e)
  | .String x => by
    cases b
    case String y =>
      exact decidable_of_iff (x = y) ⟨fun h => by rw [h], fun h => Value.String.inj h⟩
    all_goals exact isFalse (fun e => nomatch e)
  | .Hex x => by
    cases b
    case Hex y =>
      exact decidable_of_iff (x = y) ⟨fun h => by rw [h], fun h => Value.Hex.inj h⟩
    all_goals exact isFalse (fun e => nomatch e)
  | .Stream x => by
    cases b
    case Stream y =>
      exact decidable_of_iff (x = y) ⟨fun h => by rw [h], fun h => Value.Stream.inj h⟩
    all_goals exact isFalse (fun e => nomatch e)
  | .ObjectRef o g => by
    cases b
    case ObjectRef o2 g2 =>
      exact decidable_of_iff (o = o2 ∧ g = g2)
        ⟨fun h => by rw [h.1, h.2], fun h => Value.ObjectRef.inj h⟩
    all_goals exact isFalse (fun e => nomatch e)
  | .Array xs => by
    cases b
    case Array ys =>
      exact @decidable_of_iff _ (xs = ys) ⟨fun h => by rw [h], fun h => Value.Array.inj h⟩
        (Value.decEqList xs ys)
    all_goals exact isFalse (fun e => nomatch e)
  | .Dictionary xs => by
    cases b
    case Dictionary ys =>
      exact @decidable_of_iff _ (xs = ys) ⟨fun h => by rw [h], fun h => Value.Dictionary.inj h⟩
        (Value.decEqEntries xs ys)
    all_goals exact isFalse (fun e => nomatch e)
  | .ObjectDeclaration o g xs => by
    cases b
    case ObjectDeclaration o2 g2 ys =>
      exact @decidable_of_iff _ ((o = o2 ∧ g = g2) ∧ xs = ys)
        ⟨fun h => by rw [h.1.1, h.1.2, h.2],
          fun h => ⟨⟨(Value.ObjectDeclaration.inj h).1, (Value.ObjectDeclaration.inj h).2.1⟩,
            (Value.ObjectDeclaration.inj h).2.2⟩⟩
        (@instDecidableAnd _ _ inferInstance (Value.decEqList xs ys))
    all_goals exact isFalse (fun e => nomatch e)
/-- Equality of lists of values is decidable. -/
def Value.decEqList (as bs : List Value) : Decidable (as = bs) :=
  match as, bs with
  | [], [] => isTrue rfl
  | [], _ :: _ => isFalse (fun e => nomatch e)
  | _ :: _, [] => isFalse (fun e => nomatch e)
  | a :: as, b :: bs =>
    @decidable_of_iff _ (a = b ∧ as = bs)
      ⟨fun h => by rw [h.1, h.2], fun h => List.cons.inj h⟩
      (@instDecidableAnd _ _ (Value.decEq a b) (Value.decEqList as bs))
/-- Equality of dictionary entry lists is decidable. -/
def Value.decEqEntries (as bs : List (List Char × Value)) : Decidable (as = bs) :=
  match as, bs with
  | [], [] => isTrue rfl
  | [], _ :: _ => isFalse (fun e => nomatch e)
  | _ :: _, [] => isFalse (fun e => nomatch e)
  | (k, a) :: as, (l, b) :: bs =>
    @decidable_of_iff _ ((k = l ∧ a = b) ∧ as = bs)
      ⟨fun h => by rw [h.1.1, h.1.2, h.2],
        fun h => ⟨Prod.mk.inj (List.cons.inj h).1, (List.cons.inj h).2⟩⟩
      (@instDecidableAnd _ _ (@instDecidableAnd _ _ inferInstance (Value.decEq a b))
        (Value.decEqEntries as bs))
end

instance : DecidableEq Value := Value.decEq

deriving instance DecidableEq for PDFTokenReader
deriving instance DecidableEq for ObjectDeclaration
deriving instance DecidableEq for PDFPage
deriving instance DecidableEq for XrefTable
deriving instance DecidableEq for PDFParser
deriving instance DecidableEq for Except
/-- State `p` with the page list replaced by `ps`. -/
def withPages (ps : List PDFPage) (p : PDFParser) : PDFParser :=
  { p with pages := ps }

/-- Apply `f` to the final state of a run. -/
def mapState {α : Type} (f : PDFParser → PDFParser) : Res α → Res α
  | .ok (a, s) => .ok (a, f s)
  | .error e => .error e

/-- A value reader `rv` does not look at the page list: run with another page
list, it gives the same value and the same final state up to the page list. -/
def IgnoresPages (rv : PDFParser → Option Token → Res Value) : Prop :=
  ∀ ps p t, rv (withPages ps p) t = mapState (withPages ps) (rv p t)

/-- `KidsResolve fuel p kids ds q`: resolved one after another from state `p`,
the kids `kids` yield declarations whose first values are the dictionaries
`ds`, ending in state `q` (up to the page list, which resolving leaves alone). -/
def KidsResolve (fuel : Nat) : PDFParser → List Value → List Dictionary → PDFParser → Prop
  | p, [], [], q => q = p
  | p, kid :: kids, d :: ds, q =>
    ∃ decl p2,
      resolveObject fuel p kid = .ok (some decl, p2) ∧
      firstDictionary decl = some d ∧ KidsResolve fuel p2 kids ds q
  | _, _, _, _ => False

/-- The pages made from the dictionaries `ds`, numbered `k + 1`, `k + 2`, ... -/
def numberPages : Int → List Dictionary → List PDFPage
  | _, [] => []
  | k, d :: ds => PDFPage.mk d (k + 1) :: numberPages (k + 1) ds

/-- A document with three pages whose object numbers are 7, 3 and 5. -/
def threePages : String :=
  "1 0 obj << /Pages 2 0 R >> endobj 2 0 obj << /Kids [7 0 R 3 0 R 5 0 R] >> endobj 7 0 obj << /N /a >> endobj 3 0 obj << /N /b >> endobj 5 0 obj << /N /c >> endobj xref\n0 8\n0 0 f\n0 0 n\n34 0 n\n108 0 n\n0 0 f\n135 0 n\n0 0 f\n81 0 n\ntrailer << /Root 1 0 R >> startxref 162 "

/-- The steps of `OpenPDFParser` that come before the page tree: the outcome of
`OpenPDFParser` when the page-tree steps are replaced by handing back the
parser as it is. -/
def openPrefix (fuel : Nat) (file : List Char) (nilAtEOF : Bool) :
    Except Fault (Except String PDFParser) :=
  OpenPDFParserWith (fun s => .ok (.ok s)) fuel file nilAtEOF

/-- The state in which a run ends, or `p` when it ends in a fault. -/
def stateOr {α : Type} (r : Res α) (p : PDFParser) : PDFParser :=
  match r with
  | .ok (_, s) => s
  | .error _ => p

/-- The xref index of `threePages`, as `readXrefTable` builds it. -/
def threePagesXref : List (ObjectRef × Int) :=
  [(ObjectRef.mk 7 0, 81), (ObjectRef.mk 5 0, 135), (ObjectRef.mk 3 0, 108),
   (ObjectRef.mk 2 0, 34), (ObjectRef.mk 1 0, 0)]

/-- The state of `OpenPDFParser` on `threePages` before the page tree. -/
def threePagesPrefix : PDFParser :=
  { reader := PDFTokenReader.mk threePages.toList 250 false, pageNumber := 0,
    lastUsedPageBox := DefaultBox, pages := [],
    xref := XrefTable.mk 8 162 threePagesXref [("/Root".toList, .ObjectRef 1 0)],
    currentObject := ObjectDeclaration.mk 1 0 [],
    currentDictionary := [("/Pages".toList, .ObjectRef 2 0)],
    root := [("/Pages".toList, .ObjectRef 2 0)] }

/-- The `/Kids` of `threePages`. -/
def threePagesKids : List Value := [.ObjectRef 7 0, .ObjectRef 3 0, .ObjectRef 5 0]

/-- The page dictionaries of `threePages`, in `/Kids` order. -/
def threePagesDicts : List Dictionary :=
  [[("/N".toList, .Token "/a".toList)], [("/N".toList, .Token "/b".toList)],
   [("/N".toList, .Token "/c".toList)]]

/-- The state of `threePages` after the object `obj 0` with the single
dictionary `d` has been resolved. -/
def threePagesAfter (obj : Int) (d : Dictionary) : PDFParser :=
  { threePagesPrefix with
    currentObject := ObjectDeclaration.mk obj 0 [], currentDictionary := d }

/-- A document whose top-level `/Pages` node (object 2) has one kid, the
intermediate `/Pages` node 3, which has the two leaf pages 4 and 5. -/
def nestedPages : String :=
  "1 0 obj << /Pages 2 0 R >> endobj 2 0 obj << /Kids [3 0 R] >> endobj 3 0 obj << /Kids [4 0 R 5 0 R] >> endobj 4 0 obj << /N /a >> endobj 5 0 obj << /N /b >> endobj xref\n0 6\n0 0 f\n0 0 n\n34 0 n\n69 0 n\n110 0 n\n137 0 n\ntrailer << /Root 1 0 R >> startxref 164 "

/-- The xref index of `nestedPages`. -/
def nestedPagesXref : List (ObjectRef × Int) :=
  [(ObjectRef.mk 5 0, 137), (ObjectRef.mk 4 0, 110), (ObjectRef.mk 3 0, 69),
   (ObjectRef.mk 2 0, 34), (ObjectRef.mk 1 0, 0)]

/-- The dictionary of the intermediate node 3 of `nestedPages`. -/
def nestedPagesInner : Dictionary :=
  [("/Kids".toList, .Array [.ObjectRef 4 0, .ObjectRef 5 0])]

/-- The page count and the page list of an opened document. -/
def pagesOf (r : Except Fault (Except String Fpdi)) : Option (Int × List PDFPage) :=
  match r with
  | .ok (.ok td) => some (CountPages td, td.parser.pages)
  | _ => none

/-- An indirect object 3 that holds the box array `[0 0 200 200]`. -/
def boxObject : String := "3 0 obj [0 0 200 200] endobj"

/-- The xref index of `boxObject`. -/
def boxObjectXref : List (ObjectRef × Int) := [(ObjectRef.mk 3 0, 0)]

/-- The box array `[0 0 200 200]`. -/
def squareBox : Value := .Array [.Real 0, .Real 0, .Real 200, .Real 200]

/-- The box array `[200 200 0 0]`: the corners of `squareBox` in the other order. -/
def squareBoxReversed : Value := .Array [.Real 200, .Real 200, .Real 0, .Real 0]

/-- `Climbs fuel key p page ds last q`: starting in state `p` at the dictionary
`page`, the dictionaries `ds` are the ancestors reached one after another by
resolving `/Parent`, none of the dictionaries before the final one has the
entry `key`, `last` is the final dictionary of the chain (`page` itself when
`ds` is empty) and `q` is the state after the last resolution. -/
def Climbs (fuel : Nat) (key : List Char) :
    PDFParser → Dictionary → List Dictionary → Dictionary → PDFParser → Prop
  | p, page, [], last, q => last = page ∧ q = p
  | p, page, d :: ds, last, q =>
    lookup key page = none ∧
    ∃ parentObj decl p2 rest,
      lookup "/Parent".toList page = some parentObj ∧
      resolveObject fuel p parentObj = .ok (some decl, p2) ∧
      decl.Values = .Dictionary d :: rest ∧ Climbs fuel key p2 d ds last q

/-- A parser over `file` with the xref index `xref` whose page list is the one
page `page`, selected as page 1. -/
def selectedParser (file : String) (xref : List (ObjectRef × Int)) (page : Dictionary) :
    PDFParser :=
  { sampleParser file 0 xref with pages := [PDFPage.mk page 1], pageNumber := 1 }

/-- An indirect object 2, a `/Pages` node with `/Rotate 90`. -/
def rotatedParent : String := "2 0 obj << /Rotate 90 >> endobj"

/-- The xref index of `rotatedParent`. -/
def rotatedParentXref : List (ObjectRef × Int) := [(ObjectRef.mk 2 0, 0)]

/-- `FlattensList F p xs cs q`: the elements of `xs`, each described by `F`,
yield one after another from state `p` the content lists whose concatenation
in order is `cs`, ending in state `q`. -/
def FlattensList (F : PDFParser → Value → List (List Value) → PDFParser → Prop) :
    PDFParser → List Value → List (List Value) → PDFParser → Prop
  | p, [], cs, q => cs = [] ∧ q = p
  | p, x :: xs, cs, q =>
    ∃ c1 p2 c2, F p x c1 p2 ∧ FlattensList F p2 xs c2 q ∧ cs = c1 ++ c2

/-- `Flattens fuel n p v cs q`: the `/Contents` value `v` is, within nesting
height `n`, a reference to a (dictionary, stream) object, a reference to an
object holding an array, or an array of such values; `cs` lists the values of
the (dictionary, stream) objects in depth-first array order, and `q` is the
state after the last resolution. -/
def Flattens (fuel : Nat) : Nat → PDFParser → Value → List (List Value) → PDFParser → Prop
  | 0, _, _, _, _ => False
  | n + 1, p, .ObjectRef obj gen, cs, q =>
    ∃ decl p2, resolveObject fuel p (.ObjectRef obj gen) = .ok (some decl, p2) ∧
      ((∃ d s rest, decl.Values = .Dictionary d :: .Stream s :: rest ∧
          cs = [decl.Values] ∧ q = p2) ∨
        (∃ xs rest, decl.Values = .Array xs :: rest ∧ Flattens fuel n p2 (.Array xs) cs q))
  | n + 1, p, .Array xs, cs, q => FlattensList (Flattens fuel n) p xs cs q
  | _ + 1, _, _, _, _ => False

/-- `Decoded codecs fuel p cs bs q`: run one after another from state `p`,
`_unFilterStream` turns each content of `cs` into the bytes at the same
position of `bs`, ending in state `q`. -/
def Decoded (codecs : Codecs) (fuel : Nat) :
    PDFParser → List (List Value) → List (List Char) → PDFParser → Prop
  | p, [], [], q => q = p
  | p, c :: cs, b :: bs, q =>
    ∃ p2, _unFilterStream codecs fuel p c = .ok (b, p2) ∧ Decoded codecs fuel p2 cs bs q
  | _, _, _, _ => False

/-- Two content streams: object 4 with the filter `/LZWDecode` and the bytes
`abc`, object 5 with the filter `/ASCII85Decode` and the bytes `xyz`. -/
def twoStreams : String :=
  "4 0 obj << /Filter /LZWDecode /Length 3 >> stream\nabc\nendstream endobj 5 0 obj << /Filter /ASCII85Decode /Length 3 >> stream\nxyz\nendstream endobj"

/-- The xref index of `twoStreams`. -/
def twoStreamsXref : List (ObjectRef × Int) := [(ObjectRef.mk 4 0, 0), (ObjectRef.mk 5 0, 71)]

/-- Stand-ins for the library decoders that make the two filters of
`twoStreams` visible: LZW maps to upper case, ASCII-85 reverses. -/
def sampleCodecs : Codecs :=
  { zlibDecode := fun s => some s,
    lzwDecode := fun s => s.map Char.toUpper,
    ascii85Decode := fun s => s.reverse }

/-- The dictionary of object 4 of `twoStreams`, as `readValue` builds it. -/
def lzwDict : Dictionary :=
  [("/Length".toList, .Real 3), ("/Filter".toList, .Token "/LZWDecode".toList)]

/-- The dictionary of object 5 of `twoStreams`, as `readValue` builds it. -/
def a85Dict : Dictionary :=
  [("/Length".toList, .Real 3), ("/Filter".toList, .Token "/ASCII85Decode".toList)]

/-- A page over `twoStreams` whose `/Contents` is the array `[4 0 R [5 0 R]]`. -/
def twoStreamsParser : PDFParser :=
  selectedParser twoStreams twoStreamsXref
    [("/Contents".toList, .Array [.ObjectRef 4 0, .Array [.ObjectRef 5 0]])]

/-- The state of `twoStreamsParser` after object `obj` with the dictionary `d`
has been resolved. -/
def twoStreamsAfter (obj : Int) (d : Dictionary) : PDFParser :=
  { twoStreamsParser with
    currentObject := ObjectDeclaration.mk obj 0 [], currentDictionary := d }

/-- A content stream without `/Filter`: object 4 with the bytes `abc`. -/
def plainStream : String := "4 0 obj << /Length 3 >> stream\nabc\nendstream endobj"

/-- The xref index of `plainStream`. -/
def plainStreamXref : List (ObjectRef × Int) := [(ObjectRef.mk 4 0, 0)]

/-- A page over `plainStream` whose `/Contents` is `4 0 R`. -/
def plainStreamParser : PDFParser :=
  selectedParser plainStream plainStreamXref [("/Contents".toList, .ObjectRef 4 0)]


/-- Three content streams: object 4 (`/LZWDecode`, bytes `abc`), object 6
(`/DCTDecode`, bytes `qq`) and object 5 (`/ASCII85Decode`, bytes `xyz`). -/
def threeStreams : String :=
  "4 0 obj << /Filter /LZWDecode /Length 3 >> stream\nabc\nendstream endobj 6 0 obj << /Filter /DCTDecode /Length 2 >> stream\nqq\nendstream endobj 5 0 obj << /Filter /ASCII85Decode /Length 3 >> stream\nxyz\nendstream endobj"

/-- The xref index of `threeStreams`. -/
def threeStreamsXref : List (ObjectRef × Int) :=
  [(ObjectRef.mk 4 0, 0), (ObjectRef.mk 6 0, 71), (ObjectRef.mk 5 0, 141)]

/-- The dictionary of object 6 of `threeStreams`, as `readValue` builds it. -/
def dctStreamDict : Dictionary :=
  [("/Length".toList, .Real 2), ("/Filter".toList, .Token "/DCTDecode".toList)]

/-- A page over `threeStreams` whose `/Contents` is `[4 0 R 6 0 R 5 0 R]`. -/
def threeStreamsParser : PDFParser :=
  selectedParser threeStreams threeStreamsXref
    [("/Contents".toList, .Array [.ObjectRef 4 0, .ObjectRef 6 0, .ObjectRef 5 0])]

/-- The state of `threeStreamsParser` after object `obj` with the dictionary
`d` has been resolved. -/
def threeStreamsAfter (obj : Int) (d : Dictionary) : PDFParser :=
  { threeStreamsParser with
    currentObject := ObjectDeclaration.mk obj 0 [], currentDictionary := d }

/-- An object whose array is never closed: the input ends right after `[`. -/
def unclosedArray : String := "1 0 obj ["

/-- A parser over `unclosedArray` with object `1 0` indexed at byte 0; the
flag selects what `ReadToken` returns at the end of input. -/
def unclosedArrayParser (nilAtEOF : Bool) : PDFParser :=
  { newParser (PDFTokenReader.mk unclosedArray.toList 0 nilAtEOF) with
    xref := XrefTable.mk 0 0 [(ObjectRef.mk 1 0, 0)] [] }

/-- The parenthesis bytes `(` and `)`, which the string loop counts. -/
def isParen (c : Char) : Bool := c.toNat == 0x28 || c.toNat == 0x29

/-- The backslash byte. -/
def backslash : Char := Char.ofNat 0x5C

/-- The literal string `(a\nb)`: the body holds the escape `\n`. -/
def escapeSample : String := "(a\\nb)"

/-- A stream object whose three data bytes are a space, `a` and `b`. -/
def spaceStream : String := "1 0 obj << /Length 3 >> stream\n ab\nendstream endobj"

/-- The xref index of `spaceStream`. -/
def spaceStreamXref : List (ObjectRef × Int) := [(ObjectRef.mk 1 0, 0)]

/-- The single integer token `42`. -/
def integerSample : String := "42"

/-- Three dictionaries in a row: one entry, none, and a key without a value. -/
def staleDictSample : String := "<< /A 1 >> << >> << /K >>"

/-- `ReadsIn rv p vs q`: successive calls of `rv` with no token, starting in
state `p`, return the values `vs` in this order and end in state `q`. -/
def ReadsIn (rv : PDFParser → Option Token → Res Value) :
    PDFParser → List Value → PDFParser → Prop
  | p, [], q => q = p
  | p, v :: vs, q => ∃ p2, rv p none = .ok (v, p2) ∧ ReadsIn rv p2 vs q

/-! ## Theorems -/

/-! ### Cursor handling of the reader -/

theorem Seek_current (r : PDFTokenReader) :
    (r.Seek 0 1).1.1 = (r.pos : Int) ∧ (r.Seek 0 1).2 = r := by
  have h : ¬ ((r.pos : Int) < 0) := by omega
  simp [PDFTokenReader.Seek, h]

theorem Seek_start_pos (r : PDFTokenReader) (n : Nat) :
    (r.Seek (n : Int) 0).2.pos = n := by
  have h : ¬ ((n : Int) < 0) := by omega
  simp [PDFTokenReader.Seek, h]

/-! ### Object resolver -/

theorem readDeclaration_pos (rv : PDFParser → Option Token → Res Value) (n : Nat)
    (parser : PDFParser) (k : Nat) (header : Value) (res : Option ObjectDeclaration)
    (parser1 : PDFParser)
    (h : readDeclaration rv n parser (k : Int) header = .ok (res, parser1)) :
    parser1.reader.pos = k := by
  unfold readDeclaration at h
  split at h
  · dsimp only at h
    split at h
    · cases h
    · cases h
      exact Seek_start_pos _ _
  · cases h

theorem resolveObjectWith_restores (rv : PDFParser → Option Token → Res Value) (n : Nat)
    (parser : PDFParser) (spec : Value) (res : Option ObjectDeclaration) (parser1 : PDFParser)
    (h : resolveObjectWith rv n parser spec = .ok (res, parser1)) :
    parser1.reader.pos = parser.reader.pos := by
  unfold resolveObjectWith at h
  split at h
  · cases h; rfl
  · split at h
    · rw [(Seek_current parser.reader).1, (Seek_current parser.reader).2] at h
      simp only at h
      split at h
      · cases h
      · split at h
        · exact readDeclaration_pos _ _ _ _ _ _ _ h
        · split at h
          · exact readDeclaration_pos _ _ _ _ _ _ _ h
          · cases h
            exact Seek_start_pos _ _
    · cases h; rfl
  · cases h; rfl
  · cases h; rfl

/-- C1: whenever `resolveObject` returns for an object reference (found or not
found, key in the xref index or not, recorded offset right or stale), the read
cursor of the reader is where it was before the call. -/
theorem resolveObject_restores_cursor (fuel : Nat) (parser : PDFParser) (obj gen : Int)
    (res : Option ObjectDeclaration) (parser1 : PDFParser)
    (h : resolveObject fuel parser (.ObjectRef obj gen) = .ok (res, parser1)) :
    parser1.reader.pos = parser.reader.pos :=
  resolveObjectWith_restores (readValue fuel) fuel parser _ res parser1 h

/-- C1 at a concrete input: resolving `2 0` in `twoObjects` from cursor 5 reads
the object at byte 26 and leaves the cursor at 5. -/
theorem resolveObject_restores_cursor_witness :
    resolveObject 10 (sampleParser twoObjects 5 twoObjectsXref) (.ObjectRef 2 0) =
        .ok (some (ObjectDeclaration.mk 2 0 [.Real 7]),
          { sampleParser twoObjects 5 twoObjectsXref with
            currentObject := ObjectDeclaration.mk 2 0 [] }) ∧
      ({ sampleParser twoObjects 5 twoObjectsXref with
          currentObject := ObjectDeclaration.mk 2 0 [] } : PDFParser).reader.pos =
        (sampleParser twoObjects 5 twoObjectsXref).reader.pos :=
  ⟨rfl, resolveObject_restores_cursor 10 (sampleParser twoObjects 5 twoObjectsXref) 2 0 _ _ rfl⟩

/-- C2 (failing input): with the stale index the header parsed at the recorded
offset is `1 0 obj`; the fallback scan finds `2 0 obj` and the values of object
2 are read, but the declaration returned for the request `2 0` carries the
number and generation of the stale header, `1 0`. -/
theorem resolveObject_stale_offset_number :
    resolveObject 10 (sampleParser twoObjects 5 staleXref) (.ObjectRef 2 0) =
      .ok (some (ObjectDeclaration.mk 1 0 [.Real 7]),
        { sampleParser twoObjects 5 staleXref with
          currentObject := ObjectDeclaration.mk 1 0 [] }) :=
  rfl

/-! ### Dictionaries (`<<`) -/

theorem lookup_mapSet {κ υ : Type} [DecidableEq κ] (k1 k : κ) (v : υ) (m : List (κ × υ)) :
    lookup k (mapSet k1 v m) = if k1 = k then some v else lookup k m := by
  unfold mapSet
  by_cases h : k1 = k
  · simp [lookup, h]
  · simp only [lookup, h, if_false]
    induction m with
    | nil => simp [lookup]
    | cons e m ih =>
      obtain ⟨a, b⟩ := e
      by_cases ha : a = k1
      · subst ha
        simp [List.filter, lookup, h, ih]
      · simp [List.filter, lookup, ha, ih]

theorem readDictionary_step (rv : PDFParser → Option Token → Res Value) (n : Nat)
    (p p2 : PDFParser) (acc : Dictionary) (k : Token) (v : Value)
    (hk : p.reader.ReadToken.1 = some k) (hne : k ≠ ['>', '>']) (hv : v ≠ Value.goNil)
    (ht : tokenIs v ['>', '>'] = false)
    (hrv : rv { p with reader := p.reader.ReadToken.2 } none = .ok (v, p2)) :
    readDictionary rv (n + 1) p acc =
      readDictionary rv n { p2 with currentDictionary := mapSet k v acc } (mapSet k v acc) := by
  rw [readDictionary]
  simp only [hk, hne, if_false, hrv, ht]
  cases v <;> first | exact absurd rfl hv | simp

theorem readDictionary_entries (rv : PDFParser → Option Token → Res Value)
    (es : List (Token × Value)) :
    ∀ (n : Nat) (p : PDFParser) (acc : Dictionary) (q : PDFParser),
      EntriesRead rv p acc es q →
      readDictionary rv (es.length + n) p acc =
        readDictionary rv n q (es.foldl (fun d e => mapSet e.1 e.2 d) acc) := by
  induction es with
  | nil =>
    intro n p acc q h
    simp only [EntriesRead] at h
    subst h
    simp
  | cons e es ih =>
    intro n p acc q h
    obtain ⟨k, v⟩ := e
    simp only [EntriesRead] at h
    obtain ⟨hk, hne, hv, ht, p2, hrv, hrest⟩ := h
    have hlen : ((k, v) :: es).length + n = (es.length + n) + 1 := by
      simp only [List.length_cons]; omega
    rw [hlen, readDictionary_step rv (es.length + n) p p2 acc k v hk hne hv ht hrv]
    rw [ih n _ _ q hrest]
    rfl

theorem lookup_foldl_mapSet (k : Token) (es : List (Token × Value)) :
    ∀ acc : Dictionary,
      lookup k (es.foldl (fun d e => mapSet e.1 e.2 d) acc) =
        match es.reverse.find? (fun e => decide (e.1 = k)) with
        | some e => some e.2
        | none => lookup k acc := by
  induction es with
  | nil => intro acc; simp
  | cons e es ih =>
    intro acc
    simp only [List.foldl_cons, List.reverse_cons, List.find?_append]
    rw [ih]
    cases hfind : es.reverse.find? (fun e => decide (e.1 = k)) with
    | some x => simp
    | none =>
      simp only [Option.none_or, lookup_mapSet, List.find?_cons, List.find?_nil]
      by_cases hk : e.1 = k <;> simp [hk]

theorem readValue_dictionary_eq (fuel : Nat) (parser : PDFParser) :
    readValue (fuel + 1) parser (some ['<', '<']) =
      readDictionary (readValue fuel) fuel parser [] := by
  rw [readValue, readValueBody, readValueAt]
  simp

theorem readDictionary_close (rv : PDFParser → Option Token → Res Value) (n : Nat)
    (q : PDFParser) (d : Dictionary) (r : PDFTokenReader)
    (h : q.reader.ReadToken = (some ['>', '>'], r)) :
    readDictionary rv (n + 1) q d = .ok (.Dictionary d, { q with reader := r }) := by
  rw [readDictionary]
  simp [h]

theorem readDictionary_missing (rv : PDFParser → Option Token → Res Value) (n : Nat)
    (q q2 : PDFParser) (d : Dictionary) (key : Token) (r : PDFTokenReader)
    (h : q.reader.ReadToken = (some key, r)) (hne : key ≠ ['>', '>'])
    (hrv : rv { q with reader := r } none = .ok (.Token ['>', '>'], q2)) :
    readDictionary rv (n + 1) q d =
      .ok (.Dictionary (mapSet key Value.Null d),
        if d.isEmpty then q2 else { q2 with currentDictionary := mapSet key Value.Null d }) := by
  rw [readDictionary]
  simp [h, hne, hrv, tokenIs]

/-- C3: `readValue` on `<<` followed by key/value pairs `es` and a closing `>>`
returns the dictionary holding exactly the keys read, each mapped to the value
parsed right after it, a later duplicate replacing an earlier one (the lookup
of `k` is the value of the last entry with key `k`, and nothing if `k` was not
read); if instead a further key is followed by `>>` where its value should be,
the result is the same entries plus that key mapped to `Null`, and the call
returns in the state reached by that read. -/
theorem readValue_dictionary (fuel : Nat) (parser q : PDFParser) (es : List (Token × Value))
    (hes : EntriesRead (readValue fuel) parser [] es q) (hfuel : es.length < fuel) :
    (∀ r, q.reader.ReadToken = (some ['>', '>'], r) →
        readValue (fuel + 1) parser (some ['<', '<']) =
          .ok (.Dictionary (dictOf es), { q with reader := r })) ∧
    (∀ key r q2, q.reader.ReadToken = (some key, r) → key ≠ ['>', '>'] →
        readValue fuel { q with reader := r } none = .ok (.Token ['>', '>'], q2) →
        readValue (fuel + 1) parser (some ['<', '<']) =
          .ok (.Dictionary (mapSet key Value.Null (dictOf es)),
            if (dictOf es).isEmpty then q2
            else { q2 with currentDictionary := mapSet key Value.Null (dictOf es) })) ∧
    (∀ k, lookup k (dictOf es) =
        (es.reverse.find? (fun e => decide (e.1 = k))).map Prod.snd) ∧
    (∀ key k, lookup k (mapSet key Value.Null (dictOf es)) =
        if key = k then some Value.Null else lookup k (dictOf es)) := by
  obtain ⟨m, hm⟩ : ∃ m, fuel = es.length + (m + 1) := ⟨fuel - es.length - 1, by omega⟩
  have hrun := readDictionary_entries (readValue fuel) es (m + 1) parser [] q hes
  rw [← hm] at hrun
  refine ⟨?_, ?_, ?_, ?_⟩
  · intro r hr
    rw [readValue_dictionary_eq, hrun]
    exact readDictionary_close _ _ _ _ _ hr
  · intro key r q2 hr hne hrv
    rw [readValue_dictionary_eq, hrun]
    exact readDictionary_missing _ _ _ _ _ _ _ hr hne hrv
  · intro k
    have h := lookup_foldl_mapSet k es []
    unfold dictOf
    rw [h]
    cases es.reverse.find? (fun e => decide (e.1 = k)) <;> simp [lookup]
  · intro key k
    exact lookup_mapSet key k Value.Null (dictOf es)

/-- C3 at a concrete input: `<< /A 1 /B 2 /A 3 >>` parses to the dictionary of
its three entries, the cursor ending after `>>`. -/
theorem readValue_dictionary_witness :
    readValue 6 (sampleParser dictSample 2 []) (some ['<', '<']) =
      .ok (.Dictionary (dictOf dictSampleEntries),
        { sampleParser dictSample 20 [] with currentDictionary := dictOf dictSampleEntries }) :=
  (readValue_dictionary 5 (sampleParser dictSample 2 [])
    { sampleParser dictSample 17 [] with currentDictionary := dictOf dictSampleEntries }
    dictSampleEntries
    ⟨rfl, by decide, (fun h => nomatch h), rfl, _, rfl,
      rfl, by decide, (fun h => nomatch h), rfl, _, rfl,
      rfl, by decide, (fun h => nomatch h), rfl, _, rfl, rfl⟩
    (by decide)).1 _ rfl

/-! ### Literal strings (`(`) and streams -/

theorem readStringBytes_consumes_all (m : Nat) :
    ∀ (rest : List Char) (openBrackets : Int) (buf : List Char) (used : Nat),
      rest.length ≤ m → 0 < openBrackets →
      (readStringBytes rest openBrackets buf used).2 = used + rest.length := by
  induction m with
  | zero =>
    intro rest ob buf used hlen hob
    have : rest = [] := List.length_eq_zero.mp (by omega)
    subst this
    rw [readStringBytes.eq_def]
    simp [hob]
  | succ m ih =>
    intro rest ob buf used hlen hob
    cases rest with
    | nil =>
      rw [readStringBytes.eq_def]
      simp [hob]
    | cons b rest1 =>
      have h1 : rest1.length ≤ m := by simpa using hlen
      rw [readStringBytes.eq_def]
      simp only [gt_iff_lt, hob, if_true]
      split
      · rw [ih rest1 _ _ _ h1 (by omega)]; simp; omega
      · split
        · rw [ih rest1 _ _ _ h1 (by omega)]; simp; omega
        · split
          · cases rest1 with
            | nil => simp
            | cons b2 rest2 =>
              have h2 : rest2.length ≤ m := by simp at h1; omega
              simp only
              rw [ih rest2 _ _ _ h2 hob]; simp; omega
          · rw [ih rest1 _ _ _ h1 hob]; simp; omega

/-- The `(` case of `readValue` always runs to the end of the input: the
bracket counter never decreases, so only the end of input stops the loop. -/
theorem readValue_string_reads_to_end (fuel : Nat) (parser : PDFParser) :
    ∃ s, readValue (fuel + 1) parser (some ['(']) =
      .ok (.String s,
        { parser with
          reader := parser.reader.SkipBytes parser.reader.remaining.length }) := by
  rw [readValue, readValueBody, readValueAt]
  have h := readStringBytes_consumes_all parser.reader.remaining.length
    parser.reader.remaining 1 [] 0 (le_refl _) (by decide)
  simp only [Nat.zero_add] at h
  simp [h]

/-- C4 (failing input): on `(a(b)c) 5` the literal string does not stop at the
matching `)` at byte 6; the bytes ` 5` that follow are swallowed into the
string and the cursor ends at the end of input, byte 9. -/
theorem readValue_string_sample :
    readValue 3 (sampleParser stringSample 0 []) none =
      .ok (.String "a(b)c) 5".toList, sampleParser stringSample 9 []) :=
  rfl

/-- C5 (failing input): in `streamSample` the length object `2 0` resolves to
the number 3, yet reading the stream object `1 0`, whose `/Length` is `2 0 R`,
ends in a run-time panic instead of a 3-byte stream. -/
theorem resolveObject_indirect_length_sample :
    resolveObject 10 (sampleParser streamSample 0 streamXref) (.ObjectRef 1 0) = .error .panic ∧
    resolveObject 10 (sampleParser streamSample 0 streamXref) (.ObjectRef 2 0) =
      .ok (some (ObjectDeclaration.mk 2 0 [.Real 3]),
        { sampleParser streamSample 0 streamXref with
          currentObject := ObjectDeclaration.mk 2 0 [] }) :=
  ⟨rfl, rfl⟩

theorem readStream_indirect_length (rv : PDFParser → Option Token → Res Value) (fuel : Nat)
    (parser : PDFParser) (obj gen : Int)
    (h : parser.currentDictionary.get "/Length".toList = .ObjectRef obj gen) :
    ∀ v p1, readStream rv fuel parser ≠ .ok (v, p1) := by
  intro v p1
  unfold readStream
  dsimp only
  rw [h]
  dsimp only
  split <;> simp

/-- Whenever the current dictionary holds an indirect `/Length`, the `stream`
case of `readValue` returns no value: the resolved declaration is asserted to
be a `Real`. -/
theorem readValue_stream_indirect_length (fuel : Nat) (parser : PDFParser) (obj gen : Int)
    (h : parser.currentDictionary.get "/Length".toList = .ObjectRef obj gen) :
    ∀ v p1, readValue (fuel + 1) parser (some "stream".toList) ≠ .ok (v, p1) := by
  intro v p1
  rw [readValue, readValueBody, readValueAt]
  simp only [Option.getD_some]
  have e1 : ("stream".toList = ['<']) = False := by decide
  have e2 : ("stream".toList = ['<', '<']) = False := by decide
  have e3 : ("stream".toList = ['[']) = False := by decide
  have e4 : ("stream".toList = ['(']) = False := by decide
  simp only [e1, e2, e3, e4, if_false, if_true]
  exact readStream_indirect_length _ fuel _ obj gen h v p1

/-! ### Numeric tokens -/

theorem bitLen_zero (f : Nat) : bitLen f 0 = 0 := by
  cases f <;> simp [bitLen]

theorem bitLen_spec (f : Nat) :
    ∀ n : Nat, n ≤ f → n ≠ 0 → 2 ^ (bitLen f n - 1) ≤ n ∧ n < 2 ^ bitLen f n := by
  induction f with
  | zero =>
    intro n h0 hn
    omega
  | succ f ih =>
    intro n hle hn
    rw [bitLen, if_neg hn]
    by_cases h2 : n / 2 = 0
    · rw [h2, bitLen_zero]
      have : n = 1 := by omega
      subst this
      simp
    · obtain ⟨h1, h3⟩ := ih (n / 2) (by omega) h2
      have hb : bitLen f (n / 2) ≠ 0 := by
        intro hc
        rw [hc] at h3
        simp at h3
        exact h2 h3
      obtain ⟨b, hbe⟩ : ∃ b, bitLen f (n / 2) = b + 1 := ⟨bitLen f (n / 2) - 1, by omega⟩
      rw [hbe] at h1 h3 ⊢
      simp only [Nat.add_sub_cancel] at h1 ⊢
      constructor
      · rw [pow_succ]
        omega
      · rw [pow_succ]
        omega

theorem binaryExponent_int (n : Nat) (hn : n ≠ 0) :
    binaryExponent n 1 = ((bitLen n n - 1 : Nat) : Int) := by
  obtain ⟨h1, h2⟩ := bitLen_spec n n (le_refl _) hn
  have hb : bitLen n n ≠ 0 := by
    intro hc
    rw [hc] at h2
    simp at h2
    exact hn h2
  have e1 : (bitLen 1 1 : Int) = 1 := by decide
  have e2 : (bitLen n n : Int) - 1 = ((bitLen n n - 1 : Nat) : Int) := by omega
  unfold binaryExponent
  simp only []
  rw [e1, e2]
  have e3 : (-((bitLen n n - 1 : Nat) : Int)).toNat = 0 := by omega
  rw [e3, Int.toNat_ofNat, pow_zero, Nat.mul_one, Nat.one_mul, if_neg (by omega)]

theorem roundToFloat64_int_some (negative : Bool) (n : Nat) (h : n < 2 ^ 64) :
    ∃ q, roundToFloat64 negative n 1 = some q := by
  by_cases hn : n = 0
  · exact ⟨0, by simp [roundToFloat64, hn]⟩
  · obtain ⟨h1, h2⟩ := bitLen_spec n n (le_refl _) hn
    have hlt : bitLen n n - 1 < 64 := by
      have := lt_of_le_of_lt h1 h
      exact (Nat.pow_lt_pow_iff_right (by decide)).mp this
    unfold roundToFloat64
    simp only [hn, if_false, binaryExponent_int n hn]
    have hq : float64Step ((bitLen n n - 1 : Nat) : Int) = ((bitLen n n - 1 : Nat) : Int) - 52 := by
      unfold float64Step
      rw [if_neg (by omega)]
    rw [hq]
    split
    · rename_i hc
      exfalso
      rcases hc with hc | ⟨hc, _⟩ <;> omega
    · exact ⟨_, rfl⟩

theorem roundHalfEven_one (num : Nat) : roundHalfEven num 1 = num := by
  unfold roundHalfEven
  simp [Nat.mod_one]

theorem roundToFloat64_int_exact (negative : Bool) (n : Nat) (h : n ≤ 2 ^ 53) :
    roundToFloat64 negative n 1 = some (if negative then -(n : ℚ) else (n : ℚ)) := by
  by_cases hn : n = 0
  · subst hn
    simp [roundToFloat64]
  by_cases h53 : n = 2 ^ 53
  · subst h53
    cases negative
    · decide!
    · decide!
  obtain ⟨h1, h2⟩ := bitLen_spec n n (le_refl _) hn
  have hlt : bitLen n n - 1 < 53 := by
    have : 2 ^ (bitLen n n - 1) < 2 ^ 53 := lt_of_le_of_lt h1 (by omega)
    exact (Nat.pow_lt_pow_iff_right (by decide)).mp this
  obtain ⟨k, hk⟩ : ∃ k : Nat, ((bitLen n n - 1 : Nat) : Int) - 52 = -(k : Int) :=
    ⟨52 - (bitLen n n - 1), by omega⟩
  unfold roundToFloat64
  simp only [hn, if_false, binaryExponent_int n hn]
  have hq : float64Step ((bitLen n n - 1 : Nat) : Int) = -(k : Int) := by
    unfold float64Step
    rw [if_neg (by omega), hk]
  rw [hq]
  have e1 : (-(k : Int)).toNat = 0 := by omega
  have e2 : (- -(k : Int)).toNat = k := by omega
  rw [e1, e2, pow_zero, Nat.mul_one, roundHalfEven_one, Nat.mul_one]
  rw [if_neg (by omega)]
  congr 1
  rw [Rat.mkRat_eq_div]
  have hk0 : ((2 ^ k : Nat) : ℚ) ≠ 0 := by positivity
  cases negative
  · simp only [Bool.false_eq_true, if_false]
    push_cast
    field_simp
  · simp only [if_true]
    push_cast
    field_simp

theorem float64OfInt_exact (n : Int) (h : n.natAbs ≤ 2 ^ 53) : float64OfInt n = (n : ℚ) := by
  unfold float64OfInt
  rw [roundToFloat64_int_exact _ _ h]
  simp only [Option.getD_some]
  obtain ⟨m, hm | hm⟩ := Int.eq_nat_or_neg n
  · subst hm
    have : ¬ ((m : Int) < 0) := by omega
    simp only [this, decide_False, Bool.false_eq_true, if_false, Int.natAbs_ofNat, Int.cast_natCast]
  · subst hm
    by_cases hz : m = 0
    · subst hz
      simp
    · have : (-(m : Int) < 0) := by omega
      simp only [this, decide_True, if_true, Int.natAbs_neg, Int.natAbs_ofNat, Int.cast_neg,
        Int.cast_natCast]

theorem takeWhile_of_all (p : Char → Bool) (l : List Char) (h : l.all p = true) :
    l.takeWhile p = l ∧ l.dropWhile p = [] := by
  induction l with
  | nil => simp
  | cons a l ih =>
    simp only [List.all_cons, Bool.and_eq_true] at h
    simp [List.takeWhile, List.dropWhile, h.1, ih h.2]

theorem isDigit_bounds (c : Char) (h : isDigit c = true) : 48 ≤ c.toNat ∧ c.toNat ≤ 57 := by
  unfold isDigit at h
  simpa using h

theorem lowerAscii_digit (c : Char) (h : isDigit c = true) : lowerAscii c = c := by
  have hb := isDigit_bounds c h
  unfold lowerAscii
  rw [if_neg (by omega)]

theorem commonPrefixLenIgnoreCase_digit (c p : Char) (s w : List Char) (h : isDigit c = true)
    (hp : isDigit p = false) : commonPrefixLenIgnoreCase (c :: s) (p :: w) = 0 := by
  have hne : c ≠ p := by
    intro hc
    rw [hc, hp] at h
    cases h
  simp [commonPrefixLenIgnoreCase, lowerAscii_digit c h, hne]

theorem infinityWord_digit (negative : Bool) (nsign : Nat) (c : Char) (s : List Char)
    (h : isDigit c = true) : infinityWord negative nsign (c :: s) = none := by
  unfold infinityWord
  have e : "infinity".toList = 'i' :: "nfinity".toList := by decide
  rw [e, commonPrefixLenIgnoreCase_digit c 'i' s _ h (by decide)]
  simp

theorem splitSign_cases (s : List Char) :
    (s = '-' :: (splitSign s).2 ∧ (splitSign s).1 = true) ∨
      (s = '+' :: (splitSign s).2 ∧ (splitSign s).1 = false) ∨
      ((splitSign s).2 = s ∧ (splitSign s).1 = false ∧
        ∀ c t, s = c :: t → c ≠ '-' ∧ c ≠ '+') := by
  unfold splitSign
  split
  · simp
  · simp
  · rename_i h1 h2
    refine Or.inr (Or.inr ⟨rfl, rfl, ?_⟩)
    intro c t hs
    subst hs
    constructor
    · intro hc
      subst hc
      exact h1 t rfl
    · intro hc
      subst hc
      exact h2 t rfl

theorem digit_not_special (c : Char) (h : isDigit c = true) :
    c ≠ '+' ∧ c ≠ '-' ∧ c ≠ 'i' ∧ c ≠ 'I' ∧ c ≠ 'n' ∧ c ≠ 'N' ∧ c ≠ '_' ∧ c ≠ 'x' ∧ c ≠ 'X' ∧
      c ≠ '.' := by
  refine ⟨?_, ?_, ?_, ?_, ?_, ?_, ?_, ?_, ?_, ?_⟩ <;> intro hc <;> subst hc <;> revert h <;> decide

theorem special_of_digits (s : List Char) (hne : (splitSign s).2 ≠ [])
    (hall : (splitSign s).2.all isDigit = true) : special s = none := by
  cases hd : (splitSign s).2 with
  | nil => exact absurd hd hne
  | cons d t =>
    rw [hd] at hall
    simp only [List.all_cons, Bool.and_eq_true] at hall
    obtain ⟨k1, k2, k3, k4, k5, k6, _⟩ := digit_not_special d hall.1
    rcases splitSign_cases s with ⟨hs, _⟩ | ⟨hs, _⟩ | ⟨hs, _, _⟩
    · rw [hs, hd]
      unfold special
      have e : ('-' = '+') = False := by decide
      simp only [e, if_false, if_true]
      exact infinityWord_digit _ _ d t hall.1
    · rw [hs, hd]
      unfold special
      simp only [if_true]
      exact infinityWord_digit _ _ d t hall.1
    · rw [← hs, hd]
      unfold special
      simp only [k1, k2, k3, k4, k5, k6, if_false, or_self]

theorem filter_of_digits (l : List Char) (h : l.all isDigit = true) :
    l.filter (fun c => c != '_') = l ∧ l.contains '_' = false := by
  induction l with
  | nil => simp
  | cons a l ih =>
    simp only [List.all_cons, Bool.and_eq_true] at h
    obtain ⟨_, _, _, _, _, _, k7, _⟩ := digit_not_special a h.1
    have ih2 := ih h.2
    constructor
    · rw [List.filter_cons_of_pos (by simpa using k7), ih2.1]
    · have := ih2.2
      simp only [List.contains_cons, Bool.or_eq_false_iff]
      exact ⟨by simpa using Ne.symm k7, this⟩

theorem decimalLiteral_of_digits (l : List Char) (hne : l ≠ []) (h : l.all isDigit = true) :
    decimalLiteral l = some (digitsVal l, 1) := by
  obtain ⟨ht, hd⟩ := takeWhile_of_all isDigit l h
  unfold decimalLiteral mantissaParts
  simp only [ht, hd, hne, false_and, if_false, parseExponent, List.append_nil, List.length_nil,
    scaled]
  simp

theorem floatLiteral_of_digits (l : List Char) (hne : l ≠ []) (h : l.all isDigit = true) :
    floatLiteral l = some (digitsVal l, 1) := by
  unfold floatLiteral
  split
  · rename_i x u
    simp only [List.all_cons, Bool.and_eq_true] at h
    obtain ⟨_, _, _, _, _, _, _, k8, k9, _⟩ := digit_not_special x h.2.1
    simp only [k8, k9, or_self, false_and, if_false]
    exact decimalLiteral_of_digits _ hne (by simpa using h)
  · exact decimalLiteral_of_digits _ hne h

theorem contains_sign (s : List Char) (h : (splitSign s).2.contains '_' = false) :
    s.contains '_' = false := by
  rcases splitSign_cases s with ⟨hs, _⟩ | ⟨hs, _⟩ | ⟨hs, _, _⟩
  · rw [hs]
    simp only [List.contains_cons, Bool.or_eq_false_iff]
    exact ⟨by decide, h⟩
  · rw [hs]
    simp only [List.contains_cons, Bool.or_eq_false_iff]
    exact ⟨by decide, h⟩
  · rw [← hs]
    exact h

/-- A token that `Atoi` accepts is accepted by `ParseFloat` too, which yields
the binary64 value nearest to the integer. -/
theorem ParseFloat_of_Atoi (s : List Char) (n : Int) (h : Atoi s = (n, true)) :
    ParseFloat s = some (.finite (float64OfInt n)) := by
  have key : ∀ v : Int,
      (if v < -(2 : Int) ^ 63 then (-(2 : Int) ^ 63, false)
        else if (2 : Int) ^ 63 - 1 < v then ((2 : Int) ^ 63 - 1, false)
        else (v, true)) = (n, true) → v = n ∧ -(2 : Int) ^ 63 ≤ v ∧ v ≤ (2 : Int) ^ 63 - 1 := by
    intro v hv
    split_ifs at hv with h1 h2
    · simp at hv
    · simp at hv
    · simp only [Prod.mk.injEq, and_true] at hv
      exact ⟨hv, by omega, by omega⟩
  unfold Atoi at h
  dsimp only at h
  by_cases hc : (splitSign s).2 ≠ [] ∧ (splitSign s).2.all isDigit = true
  · rw [if_pos hc] at h
    obtain ⟨hv, hlo, hhi⟩ := key _ h
    obtain ⟨hne, hall⟩ := hc
    have hsp := special_of_digits s hne hall
    obtain ⟨hf, hcn⟩ := filter_of_digits _ hall
    have hcs := contains_sign s hcn
    have hlit := floatLiteral_of_digits _ hne hall
    unfold ParseFloat
    simp only [hsp, hcs, Bool.false_eq_true, false_and, if_false, hf, hlit]
    by_cases hs : (splitSign s).1 = true
    · simp only [hs, if_true] at hv hlo hhi ⊢
      have hlt : digitsVal (splitSign s).2 < 2 ^ 64 := by omega
      obtain ⟨q, hq⟩ := roundToFloat64_int_some true _ hlt
      rw [hq]
      unfold float64OfInt
      by_cases h0 : digitsVal (splitSign s).2 = 0
      · rw [h0] at hv hq
        subst hv
        simp [roundToFloat64] at hq ⊢
        exact hq.symm
      · have hn : n < 0 := by omega
        have ha : n.natAbs = digitsVal (splitSign s).2 := by omega
        simp only [hn, decide_True, ha, hq, Option.getD_some]
    · simp only [hs, Bool.false_eq_true, if_false] at hv hlo hhi ⊢
      have hlt : digitsVal (splitSign s).2 < 2 ^ 64 := by omega
      obtain ⟨q, hq⟩ := roundToFloat64_int_some false _ hlt
      rw [hq]
      unfold float64OfInt
      have hn : ¬ n < 0 := by omega
      have ha : n.natAbs = digitsVal (splitSign s).2 := by omega
      simp only [hn, decide_False, ha, hq, Option.getD_some]
  · rw [if_neg hc] at h
    simp at h

theorem Atoi_ok_not_keyword (s : List Char) (h : (Atoi s).2 = true) :
    s ≠ ['<'] ∧ s ≠ ['<', '<'] ∧ s ≠ ['['] ∧ s ≠ ['('] ∧ s ≠ "stream".toList := by
  refine ⟨?_, ?_, ?_, ?_, ?_⟩ <;> intro hs <;> subst hs <;> revert h <;> decide

theorem numericValue_of_Atoi (parser : PDFParser) (str : List Char) (n : Int)
    (hn : Atoi str = (n, true)) :
    numericValue parser str n = .ok (.Real (float64OfInt n), parser) := by
  unfold numericValue
  rw [ParseFloat_of_Atoi _ _ hn]
  rfl

theorem realValue_ok (p : PDFParser) (f : ParsedFloat) (v : Value) (q : PDFParser)
    (h : realValue p f = .ok (v, q)) : q = p ∧ ∃ r, v = .Real r := by
  cases f with
  | finite r =>
    simp only [realValue, Except.ok.injEq, Prod.mk.injEq] at h
    exact ⟨h.2.symm, r, h.1.symm⟩
  | inf b => simp [realValue] at h
  | nan => simp [realValue] at h

theorem numericValue_ok (p : PDFParser) (str : List Char) (n : Int) (v : Value) (q : PDFParser)
    (h : numericValue p str n = .ok (v, q)) :
    q = p ∧ ((∃ r, v = .Real r) ∨ (ParseFloat str = none ∧ v = .Numeric n)) := by
  unfold numericValue at h
  split at h
  · obtain ⟨h1, h2⟩ := realValue_ok _ _ _ _ h
    exact ⟨h1, Or.inl h2⟩
  · rename_i hpf
    simp only [Except.ok.injEq, Prod.mk.injEq] at h
    exact ⟨h.2.symm, Or.inr ⟨hpf, h.1.symm⟩⟩

/-- C6: let the token handed to (or read by) `readValue` parse as the integer
`n`, and let `tk.2` be the reader just after that token. If the next two tokens
are an integer `g` and then `obj` or `R`, the result is `ObjectRef n g` and the
two lookahead tokens are consumed too. Otherwise the integer is returned on its
own with the cursor just after the first token, so the lookahead tokens are
what the next reads return; it is returned as the `Real` of the `float64`
nearest to `n`, which is `n` itself whenever `|n| ≤ 2 ^ 53`. -/
theorem readValue_integer (fuel : Nat) (parser : PDFParser) (token : Option Token)
    (tk : Option Token × PDFTokenReader) (n : Int)
    (htk : tk = match token with
      | none => parser.reader.ReadToken
      | some t => (some t, parser.reader))
    (hn : Atoi (tk.1.getD []) = (n, true)) :
    (∀ t0 t1, tk.2.PeekTokens 2 = [t0, t1] → (Atoi t0).2 = true →
        (t1 = "obj".toList ∨ t1 = ['R']) →
        readValue (fuel + 1) parser token =
            .ok (.ObjectRef n (Atoi t0).1,
              { parser with reader := (PDFTokenReader.ReadTokens 2 tk.2).2 }) ∧
          (PDFTokenReader.ReadTokens 2 tk.2).1 = [t0, t1]) ∧
    ((¬ ∃ t0 t1, tk.2.PeekTokens 2 = [t0, t1] ∧ (Atoi t0).2 = true ∧
          (t1 = "obj".toList ∨ t1 = ['R'])) →
        readValue (fuel + 1) parser token =
            .ok (.Real (float64OfInt n), { parser with reader := tk.2 }) ∧
          (PDFTokenReader.ReadTokens 2 tk.2).1 = tk.2.PeekTokens 2) ∧
    (n.natAbs ≤ 2 ^ 53 → float64OfInt n = (n : ℚ)) := by
  have hok : (Atoi (tk.1.getD [])).2 = true := by rw [hn]
  obtain ⟨k1, k2, k3, k4, k5⟩ := Atoi_ok_not_keyword _ hok
  have hnum : ∀ q : PDFParser, numericValue q (tk.1.getD []) n =
      .ok (.Real (float64OfInt n), q) := fun q => numericValue_of_Atoi q _ n hn
  have hfst : (Atoi (tk.1.getD [])).1 = n := by rw [hn]
  refine ⟨?_, ?_, float64OfInt_exact n⟩
  · intro t0 t1 hp h0 h1
    refine ⟨?_, hp⟩
    rw [readValue]
    unfold readValueBody readValueAt readPlain
    simp only [← htk, k1, k2, k3, k4, k5, if_false, hok, if_true, hp, h0, h1, true_and, hfst]
  · intro hno
    refine ⟨?_, rfl⟩
    rw [readValue]
    unfold readValueBody readValueAt readPlain
    simp only [← htk, k1, k2, k3, k4, k5, if_false, hok, if_true, hfst, hnum]
    split
    · rename_i t0 t1 hp
      split
      · rename_i hc
        exact absurd ⟨t0, t1, hp, hc.1, hc.2⟩ hno
      · rfl
    · rfl

/-- C6 at a concrete input: in `12 0 R 7 8 9` the first read yields the reference
`12 0` with the cursor after `R`; the next read yields `7` alone with the
cursor right after it. -/
theorem readValue_integer_witness :
    readValue 3 (sampleParser numberSample 0 []) none =
        .ok (.ObjectRef 12 0, sampleParser numberSample 6 []) ∧
      readValue 3 (sampleParser numberSample 6 []) none =
        .ok (.Real (float64OfInt 7), sampleParser numberSample 8 []) ∧
      float64OfInt 7 = ((7 : Int) : ℚ) :=
  ⟨((readValue_integer 2 (sampleParser numberSample 0 []) none _ 12 rfl rfl).1
      "0".toList "R".toList rfl rfl (Or.inr rfl)).1,
    ((readValue_integer 2 (sampleParser numberSample 6 []) none _ 7 rfl rfl).2.1
      (fun ⟨t0, t1, hp, _, h1⟩ => by
        have e : (sampleParser numberSample 6 []).reader.ReadToken.2.PeekTokens 2 =
            ["8".toList, "9".toList] := rfl
        rw [e] at hp
        cases hp
        revert h1
        decide)).1,
    (readValue_integer 2 (sampleParser numberSample 6 []) none _ 7 rfl rfl).2.2 (by decide)⟩

/-! ### Xref table -/

theorem xrefLine_keeps (st st1 : XrefScan) (line : List Char) (h : xrefLine st line = .ok st1)
    (k : ObjectRef) (off : Int) (hk : lookup k st.xref = some off) :
    lookup k st1.xref = some off := by
  unfold xrefLine at h
  dsimp only at h
  split at h
  · split at h
    · cases h; exact hk
    · split at h
      · cases h; exact hk
      · cases h; exact hk
      · cases h
        dsimp only
        split
        · exact hk
        · rename_i hnone
          split
          · rw [lookup_mapSet]
            split
            · rename_i hc
              rw [hc, hk] at hnone
              cases hnone
            · exact hk
          · exact hk
      · cases h
  · cases h; exact hk

/-- C7: the line loop of `readXrefTable` is first-seen-wins: a key that is in
the xref index when a line is processed keeps its offset through that line and
all later lines, so no later entry, subsection or section overwrites it. -/
theorem xrefLines_first_seen_wins (lines : List (List Char)) :
    ∀ (st st1 : XrefScan), xrefLines st lines = .ok st1 →
      ∀ (k : ObjectRef) (off : Int), lookup k st.xref = some off →
        lookup k st1.xref = some off := by
  induction lines with
  | nil =>
    intro st st1 h k off hk
    simp only [xrefLines] at h
    cases h
    exact hk
  | cons l ls ih =>
    intro st st1 h k off hk
    simp only [xrefLines] at h
    split at h
    · cases h
    · rename_i st2 h2
      exact ih st2 st1 h k off (xrefLine_keeps st st2 l h2 k off hk)

theorem xrefLine_header (st : XrefScan) (hdr a b : List Char)
    (hh : Split (TrimSpace hdr) = [a, b]) :
    xrefLine st hdr =
      .ok { st with
        start := (Atoi a).1,
        maxObject := if (Atoi b).1 > st.maxObject then (Atoi b).1 else st.maxObject } := by
  have h1 : TrimSpace hdr ≠ [] := by
    intro hc; rw [hc] at hh; revert hh; simp [Split]
  have h2 : TrimSpace hdr ≠ "xref".toList := by
    intro hc; rw [hc, show Split "xref".toList = ["xref".toList] from rfl] at hh; cases hh
  unfold xrefLine
  simp only [h1, h2, hh, ne_eq, not_false_eq_true, if_true, if_false]

theorem xrefLine_entry (st : XrefScan) (l p0 p1 p2 : List Char)
    (hl : Split (TrimSpace l) = [p0, p1, p2]) :
    xrefLine st l =
      .ok { st with
        xref :=
          (match lookup (ObjectRef.mk st.start (Atoi p1).1) st.xref with
          | some _ => st.xref
          | none =>
            if p2 = ['n'] then mapSet (ObjectRef.mk st.start (Atoi p1).1) (ParseInt p0).1 st.xref
            else st.xref),
        start := wrapInt64 (st.start + 1) } := by
  have h1 : TrimSpace l ≠ [] := by
    intro hc; rw [hc] at hl; revert hl; simp [Split]
  have h2 : TrimSpace l ≠ "xref".toList := by
    intro hc; rw [hc, show Split "xref".toList = ["xref".toList] from rfl] at hl; cases hl
  unfold xrefLine
  simp only [h1, h2, hl, ne_eq, not_false_eq_true, if_true, if_false]

theorem wrapInt64_succ (x : Int) : wrapInt64 (wrapInt64 x + 1) = wrapInt64 (x + 1) := by
  unfold wrapInt64
  omega

theorem wrapInt64_ne (c d : Int) (h0 : 0 < d) (h1 : d < 2 ^ 64) :
    wrapInt64 (c + d) ≠ wrapInt64 c := by
  unfold wrapInt64
  omega

theorem wrapInt64_id (x : Int) (h0 : -(2 : Int) ^ 63 ≤ x) (h1 : x < 2 ^ 63) : wrapInt64 x = x := by
  unfold wrapInt64
  omega

theorem Atoi_range (s : List Char) :
    -(2 : Int) ^ 63 ≤ (Atoi s).1 ∧ (Atoi s).1 < 2 ^ 63 := by
  unfold Atoi
  dsimp only
  split_ifs <;> constructor <;> simp only [] <;> omega

theorem xrefLines_entries (es : List (List Char × List Char × List Char)) :
    ∀ (lines : List (List Char)) (st : XrefScan) (c : Int),
      List.Forall₂ (fun l e => Split (TrimSpace l) = [e.1, e.2.1, e.2.2]) lines es →
      st.start = wrapInt64 c →
      (es.length : Int) ≤ 2 ^ 64 →
      (∀ (k : ObjectRef) (i : Nat), i < es.length → k.Obj = wrapInt64 (c + i) →
        lookup k st.xref = none) →
      ∃ st1, xrefLines st lines = .ok st1 ∧ st1.start = wrapInt64 (c + es.length) ∧
        (∀ k : ObjectRef, (∀ i : Nat, i < es.length → k.Obj ≠ wrapInt64 (c + i)) →
          lookup k st1.xref = lookup k st.xref) ∧
        ∀ (i : Nat) (e : List Char × List Char × List Char), es[i]? = some e →
          lookup (ObjectRef.mk (wrapInt64 (c + i)) (Atoi e.2.1).1) st1.xref =
            if e.2.2 = ['n'] then some (ParseInt e.1).1 else none := by
  induction es with
  | nil =>
    intro lines st c hl hc _ hfresh
    cases hl
    exact ⟨st, rfl, by simpa using hc, fun _ _ => rfl, by simp⟩
  | cons e es ih =>
    intro lines st c hl hc hlen hfresh
    simp only [List.length_cons, Nat.cast_add, Nat.cast_one] at hlen
    cases hl with
    | cons hhead htail =>
      rename_i l ls
      have hnone : lookup (ObjectRef.mk st.start (Atoi e.2.1).1) st.xref = none :=
        hfresh _ 0 (by simp) (by simpa using hc)
      obtain ⟨st2, hst2⟩ : ∃ st2 : XrefScan, st2 =
          { st with
            xref := if e.2.2 = ['n'] then
                mapSet (ObjectRef.mk st.start (Atoi e.2.1).1) (ParseInt e.1).1 st.xref
              else st.xref,
            start := wrapInt64 (st.start + 1) } := ⟨_, rfl⟩
      have hstep : xrefLine st l = .ok st2 := by
        rw [xrefLine_entry st l e.1 e.2.1 e.2.2 hhead, hnone, hst2]
      have hs2 : st2.start = wrapInt64 (c + 1) := by rw [hst2, hc]; exact wrapInt64_succ c
      have hx2 : ∀ k : ObjectRef, k.Obj ≠ st.start → lookup k st2.xref = lookup k st.xref := by
        intro k hk
        rw [hst2]
        show lookup k (if e.2.2 = ['n'] then _ else _) = _
        split
        · rw [lookup_mapSet, if_neg]
          intro hc
          rw [← hc] at hk
          exact hk rfl
        · rfl
      have hx0 : lookup (ObjectRef.mk st.start (Atoi e.2.1).1) st2.xref =
          if e.2.2 = ['n'] then some (ParseInt e.1).1 else none := by
        rw [hst2]
        show lookup _ (if e.2.2 = ['n'] then _ else _) = _
        split
        · rw [lookup_mapSet, if_pos rfl]
        · exact hnone
      have hdist : ∀ j : Nat, j < es.length → wrapInt64 (c + 1 + j) ≠ st.start := by
        intro j hj
        rw [hc, add_assoc]
        exact wrapInt64_ne c (1 + j) (by omega) (by omega)
      obtain ⟨st1, hrun, hstart, hframe, hidx⟩ := ih ls st2 (c + 1) htail hs2 (by omega) (by
        intro k i hi hk
        rw [hx2 k (by rw [hk]; exact hdist i hi)]
        refine hfresh k (i + 1) (by simp only [List.length_cons]; omega) ?_
        rw [hk]
        congr 1
        push_cast
        ring)
      refine ⟨st1, ?_, ?_, ?_, ?_⟩
      · simp only [xrefLines, hstep]
        exact hrun
      · rw [hstart]
        simp only [List.length_cons]
        congr 1
        push_cast
        ring
      · intro k hk
        rw [hframe k (by
          intro i hi
          have := hk (i + 1) (by simp only [List.length_cons]; omega)
          intro hc2
          apply this
          rw [hc2]
          congr 1
          push_cast
          ring)]
        exact hx2 k (by
          have := hk 0 (by simp)
          rw [hc]
          simpa using this)
      · intro i e1 hi
        cases i with
        | zero =>
          simp only [List.getElem?_cons_zero, Option.some.injEq] at hi
          subst hi
          simp only [Nat.cast_zero, add_zero]
          rw [← hc, hframe _ (by
            intro j hj
            exact (hdist j hj).symm)]
          exact hx0
        | succ j =>
          simp only [List.getElem?_cons_succ] at hi
          have := hidx j e1 hi
          rw [← this]
          congr 3
          push_cast
          ring

/-- C8: a subsection header `a b` sets the running object number to `a` and
leaves the index alone; each of the entry lines that follow, in-use or free,
advances the running number by one as a Go `int` (wrapping past `2 ^ 63 - 1`),
so after the header and the entries `es` the running number is
`a + es.length` as a Go `int`, and in an index that was fresh the `i`-th entry
(fields `offset generation flag`) is found under `(a + i, generation)` with its
offset exactly when its flag is `n`, and is absent otherwise; `a + i` is the
exact sum whenever it is below `2 ^ 63`. The entries are as many as a Go slice
can hold. -/
theorem xrefLines_subsection (st : XrefScan) (hdr a b : List Char) (lines : List (List Char))
    (es : List (List Char × List Char × List Char))
    (hh : Split (TrimSpace hdr) = [a, b])
    (hl : List.Forall₂ (fun l e => Split (TrimSpace l) = [e.1, e.2.1, e.2.2]) lines es)
    (hfresh : st.xref = [])
    (hlen : es.length < 2 ^ 63) :
    (∃ st0, xrefLine st hdr = .ok st0 ∧ st0.start = (Atoi a).1 ∧ st0.xref = st.xref) ∧
    ∃ st1, xrefLines st (hdr :: lines) = .ok st1 ∧
      st1.start = wrapInt64 ((Atoi a).1 + es.length) ∧
      (∀ (i : Nat) (e : List Char × List Char × List Char), es[i]? = some e →
        lookup (ObjectRef.mk (wrapInt64 ((Atoi a).1 + i)) (Atoi e.2.1).1) st1.xref =
          if e.2.2 = ['n'] then some (ParseInt e.1).1 else none) ∧
      (∀ (i : Nat) (e : List Char × List Char × List Char), es[i]? = some e →
        (Atoi a).1 + i < 2 ^ 63 →
        lookup (ObjectRef.mk ((Atoi a).1 + i) (Atoi e.2.1).1) st1.xref =
          if e.2.2 = ['n'] then some (ParseInt e.1).1 else none) ∧
      ((Atoi a).1 + es.length < 2 ^ 63 → st1.start = (Atoi a).1 + es.length) := by
  obtain ⟨st0, hst0⟩ : ∃ st0 : XrefScan, st0 =
      { st with
        start := (Atoi a).1,
        maxObject := if (Atoi b).1 > st.maxObject then (Atoi b).1 else st.maxObject } :=
    ⟨_, rfl⟩
  have hstep : xrefLine st hdr = .ok st0 := by rw [xrefLine_header st hdr a b hh, hst0]
  have hs0 : st0.start = (Atoi a).1 := by rw [hst0]
  have hx0 : st0.xref = st.xref := by rw [hst0]
  obtain ⟨hlo, hhi⟩ := Atoi_range a
  refine ⟨⟨st0, hstep, hs0, hx0⟩, ?_⟩
  obtain ⟨st1, hrun, hstart, _, hidx⟩ := xrefLines_entries es lines st0 (Atoi a).1 hl
    (by rw [hs0, wrapInt64_id _ hlo hhi]) (by omega) (by
    intro k _ _ _
    rw [hx0, hfresh]
    rfl)
  refine ⟨st1, ?_, hstart, hidx, ?_, ?_⟩
  · simp only [xrefLines, hstep]
    exact hrun
  · intro i e hi hb
    rw [← hidx i e hi, wrapInt64_id _ (by omega) hb]
  · intro hb
    rw [hstart, wrapInt64_id _ (by omega) hb]

/-- C7 at a concrete input: the key `1 0`, present with offset 17, keeps it
through a later subsection that lists object 1 at offset 999. -/
theorem xrefLines_first_seen_wins_witness :
    xrefLines (XrefScan.mk 1 0 [(ObjectRef.mk 1 0, 17)])
        ["1 1".toList, "0000000999 00000 n ".toList] =
        .ok (XrefScan.mk 2 1 [(ObjectRef.mk 1 0, 17)]) ∧
      lookup (ObjectRef.mk 1 0) (XrefScan.mk 2 1 [(ObjectRef.mk 1 0, 17)]).xref = some 17 :=
  ⟨rfl, xrefLines_first_seen_wins ["1 1".toList, "0000000999 00000 n ".toList]
    (XrefScan.mk 1 0 [(ObjectRef.mk 1 0, 17)]) (XrefScan.mk 2 1 [(ObjectRef.mk 1 0, 17)]) rfl
    (ObjectRef.mk 1 0) 17 rfl⟩

/-- C8 at a concrete input: after `0 3` and three entries the running number
is 3, the free entry `0 65535` is absent and objects 1 and 2 have offsets 17
and 81. -/
theorem xrefLines_subsection_witness :
    ∃ st1, xrefLines (XrefScan.mk 1 0 []) (xrefHeaderLine :: xrefEntryLines) = .ok st1 ∧
      st1.start = 3 ∧
      lookup (ObjectRef.mk 0 65535) st1.xref = none ∧
      lookup (ObjectRef.mk 1 0) st1.xref = some 17 ∧
      lookup (ObjectRef.mk 2 0) st1.xref = some 81 :=
  let ⟨st1, hrun, _, _, hidx, hstart⟩ :=
    (xrefLines_subsection (XrefScan.mk 1 0 []) xrefHeaderLine "0".toList "3".toList
      xrefEntryLines xrefEntries rfl
      (List.Forall₂.cons rfl (List.Forall₂.cons rfl (List.Forall₂.cons rfl List.Forall₂.nil)))
      rfl (by decide)).2
  ⟨st1, hrun, hstart (by decide), hidx 0 _ rfl (by decide), hidx 1 _ rfl (by decide),
    hidx 2 _ rfl (by decide)⟩

theorem Split_ne_nil (s : List Char) : Split s ≠ [] := by
  cases s with
  | nil => simp [Split]
  | cons c t =>
    rw [Split]
    split
    · simp
    · split <;> simp

theorem xrefLine_bad (st : XrefScan) (l : List Char)
    (h1 : TrimSpace l ≠ []) (h2 : TrimSpace l ≠ "xref".toList)
    (h3 : (Split (TrimSpace l)).length ≠ 2) (h4 : (Split (TrimSpace l)).length ≠ 3) :
    ∃ e, xrefLine st l = .error e := by
  unfold xrefLine
  simp only [h1, h2, ne_eq, not_false_eq_true, if_true, if_false]
  split
  · rename_i hs
    exact absurd hs (Split_ne_nil _)
  · rename_i hs
    rw [hs] at h3
    exact absurd rfl h3
  · rename_i hs
    rw [hs] at h4
    exact absurd rfl h4
  · exact ⟨_, rfl⟩

theorem xrefLines_bad (lines : List (List Char)) :
    ∀ (st : XrefScan),
      (∃ l ∈ lines, TrimSpace l ≠ [] ∧ TrimSpace l ≠ "xref".toList ∧
        (Split (TrimSpace l)).length ≠ 2 ∧ (Split (TrimSpace l)).length ≠ 3) →
      ∃ e, xrefLines st lines = .error e := by
  induction lines with
  | nil =>
    intro st h
    obtain ⟨l, hl, _⟩ := h
    cases hl
  | cons l0 ls ih =>
    intro st h
    obtain ⟨l, hl, h1, h2, h3, h4⟩ := h
    simp only [xrefLines]
    cases hstep : xrefLine st l0 with
    | error e => exact ⟨e, rfl⟩
    | ok st1 =>
      simp only
      rcases List.mem_cons.mp hl with heq | hmem
      · subst heq
        obtain ⟨e, he⟩ := xrefLine_bad st l h1 h2 h3 h4
        rw [he] at hstep
        cases hstep
      · exact ih st1 ⟨l, hmem, h1, h2, h3, h4⟩

/-- C9: `readXrefTable` returns an error when the `trailer` keyword is not
found after the given offset, and when some line of the table that is neither
blank nor the `xref` keyword has a number of space-separated fields other than
2 and 3. -/
theorem readXrefTable_errors (fuel : Nat) (parser : PDFParser) (offset : Int) :
    (((parser.reader.Seek offset 0).2.ReadLinesToToken "trailer".toList).1.2 = false →
      ∃ err p1, readXrefTable fuel parser offset = .ok (some err, p1)) ∧
    ((∃ l ∈ ((parser.reader.Seek offset 0).2.ReadLinesToToken "trailer".toList).1.1,
        TrimSpace l ≠ [] ∧ TrimSpace l ≠ "xref".toList ∧
          (Split (TrimSpace l)).length ≠ 2 ∧ (Split (TrimSpace l)).length ≠ 3) →
      ∃ err p1, readXrefTable fuel parser offset = .ok (some err, p1)) := by
  constructor
  · intro h
    unfold readXrefTable
    dsimp only
    split
    · exact ⟨_, _, rfl⟩
    · exact ⟨_, _, rfl⟩
  · intro h
    unfold readXrefTable
    dsimp only
    split
    · exact ⟨_, _, rfl⟩
    · split
      · exact ⟨_, _, rfl⟩
      · obtain ⟨e, he⟩ := xrefLines_bad _ (XrefScan.mk 1
          (if parser.xref.xrefLocation = 0 then (0 : Int) else parser.xref.maxObject)
          (if parser.xref.xrefLocation = 0 then [] else parser.xref.xref)) h
        by_cases hz : parser.xref.xrefLocation = 0
        · simp only [hz, if_true] at he ⊢
          rw [he]
          exact ⟨_, _, rfl⟩
        · simp only [hz, if_false] at he ⊢
          rw [he]
          exact ⟨_, _, rfl⟩

/-- C9 at a concrete input: an entry line with four fields makes
`readXrefTable` return an error. -/
theorem readXrefTable_errors_witness :
    ∃ err p1, readXrefTable 5 (sampleParser badXrefFile 0 []) 0 = .ok (some err, p1) :=
  (readXrefTable_errors 5 (sampleParser badXrefFile 0 []) 0).2
    ⟨"0000000000 65535 f extra".toList, by decide, by decide, by decide, by decide, by decide⟩

/-! ### What a parse leaves unchanged -/

theorem Frame.self (p : PDFParser) : Frame p p := ⟨rfl, rfl, rfl, rfl, rfl, rfl, rfl⟩

theorem Frame.step {p q r : PDFParser} (h1 : Frame p q) (h2 : Frame q r) : Frame p r := by
  obtain ⟨a1, a2, a3, a4, a5, a6, a7⟩ := h1
  obtain ⟨b1, b2, b3, b4, b5, b6, b7⟩ := h2
  exact ⟨Eq.trans b1 a1, Eq.trans b2 a2, Eq.trans b3 a3, Eq.trans b4 a4, Eq.trans b5 a5,
    Eq.trans b6 a6, Eq.trans b7 a7⟩

theorem SameFile.same (r : PDFTokenReader) : SameFile r r := ⟨rfl, rfl⟩

theorem SameFile.chain {r s t : PDFTokenReader} (h1 : SameFile r s) (h2 : SameFile s t) :
    SameFile r t := ⟨Eq.trans h2.1 h1.1, Eq.trans h2.2 h1.2⟩

theorem Frame.of_reader (p : PDFParser) (r : PDFTokenReader) (h : SameFile p.reader r) :
    Frame p { p with reader := r } := ⟨rfl, rfl, rfl, rfl, rfl, h.1, h.2⟩

theorem Frame.set_reader {p q : PDFParser} (h : Frame p q) (r : PDFTokenReader)
    (hr : SameFile q.reader r) : Frame p { q with reader := r } :=
  h.step (Frame.of_reader q r hr)

theorem Frame.set_dictionary {p q : PDFParser} (h : Frame p q) (d : Dictionary) :
    Frame p { q with currentDictionary := d } := h

theorem Frame.set_object {p q : PDFParser} (h : Frame p q) (d : ObjectDeclaration) :
    Frame p { q with currentObject := d } := h

theorem Seek_same (r : PDFTokenReader) (o : Int) (w : Nat) : SameFile r (r.Seek o w).2 := by
  unfold PDFTokenReader.Seek
  dsimp only
  split <;> exact ⟨rfl, rfl⟩

theorem ReadToken_same (r : PDFTokenReader) : SameFile r r.ReadToken.2 := by
  unfold PDFTokenReader.ReadToken
  dsimp only
  split <;> exact ⟨rfl, rfl⟩

theorem ReadTokens_same (n : Nat) :
    ∀ r : PDFTokenReader, SameFile r (PDFTokenReader.ReadTokens n r).2 := by
  induction n with
  | zero => intro r; exact ⟨rfl, rfl⟩
  | succ n ih =>
    intro r
    rw [PDFTokenReader.ReadTokens]
    dsimp only
    split
    · exact ⟨rfl, rfl⟩
    · exact SameFile.chain (r := r) ⟨rfl, rfl⟩ (ih _)

theorem ReadBytes_same (r : PDFTokenReader) (n : Int) : SameFile r (r.ReadBytes n).2 :=
  ⟨rfl, rfl⟩

theorem SkipBytes_same (r : PDFTokenReader) (n : Nat) : SameFile r (r.SkipBytes n) :=
  ⟨rfl, rfl⟩

theorem ReadBytesToToken_same (r : PDFTokenReader) (t : Token) :
    SameFile r (r.ReadBytesToToken t).2 := by
  unfold PDFTokenReader.ReadBytesToToken
  split <;> exact ⟨rfl, rfl⟩

theorem ReadLinesToToken_same (r : PDFTokenReader) (t : Token) :
    SameFile r (r.ReadLinesToToken t).2 := by
  unfold PDFTokenReader.ReadLinesToToken
  split <;> exact ⟨rfl, rfl⟩

theorem SkipToToken_same (r : PDFTokenReader) (t : Token) :
    SameFile r (r.SkipToToken t).2 := by
  unfold PDFTokenReader.SkipToToken
  split <;> exact ⟨rfl, rfl⟩

theorem skipStreamWhitespace_same (r : PDFTokenReader) :
    SameFile r (skipStreamWhitespace r) := ⟨rfl, rfl⟩

theorem readDictionary_frame (rv : PDFParser → Option Token → Res Value) (hrv : KeepsFrame rv)
    (n : Nat) : ∀ (p : PDFParser) (acc : Dictionary) (v : Value) (q : PDFParser),
      readDictionary rv n p acc = .ok (v, q) → Frame p q := by
  induction n with
  | zero => intro p acc v q h; simp [readDictionary] at h
  | succ n ih =>
    intro p acc v q h
    rw [readDictionary] at h
    dsimp only at h
    have h0 : Frame p { p with reader := p.reader.ReadToken.2 } :=
      Frame.of_reader p _ (ReadToken_same _)
    split at h
    · cases h; exact h0
    · split at h
      · cases h; exact h0
      · split at h
        · cases h
        · rename_i value p2 hv
          have h1 := h0.step (hrv _ _ _ _ hv)
          split at h
          · cases h; exact h1
          · split at h
            · cases h
              split
              · exact h1
              · exact h1
            · exact (h1.set_dictionary _).step (ih _ _ _ _ h)

theorem readArray_frame (rv : PDFParser → Option Token → Res Value) (hrv : KeepsFrame rv)
    (n : Nat) : ∀ (p : PDFParser) (acc : List Value) (v : Value) (q : PDFParser),
      readArray rv n p acc = .ok (v, q) → Frame p q := by
  induction n with
  | zero => intro p acc v q h; simp [readArray] at h
  | succ n ih =>
    intro p acc v q h
    rw [readArray] at h
    try dsimp only at h
    have h0 : Frame p { p with reader := p.reader.ReadToken.2 } :=
      Frame.of_reader p _ (ReadToken_same _)
    split at h
    · cases h; exact h0
    · split at h
      · cases h
      · rename_i value p2 hv
        exact (h0.step (hrv _ _ _ _ hv)).step (ih _ _ _ _ h)

theorem readObjectValues_frame (rv : PDFParser → Option Token → Res Value)
    (hrv : KeepsFrame rv) (n : Nat) :
    ∀ (p : PDFParser) (acc : List Value) (vs : List Value) (q : PDFParser),
      readObjectValues rv n p acc = .ok (vs, q) → Frame p q := by
  induction n with
  | zero => intro p acc v q h; simp [readObjectValues] at h
  | succ n ih =>
    intro p acc vs q h
    rw [readObjectValues] at h
    split at h
    · cases h
    · rename_i value p2 hv
      have h1 := hrv _ _ _ _ hv
      split at h
      · cases h; exact h1
      · split at h
        · cases h; exact h1
        · split at h
          · cases h; exact h1
          · exact h1.step (ih _ _ _ _ h)

theorem readDeclaration_frame (rv : PDFParser → Option Token → Res Value)
    (hrv : KeepsFrame rv) (n : Nat) (p : PDFParser) (o : Int) (header : Value)
    (res : Option ObjectDeclaration) (q : PDFParser)
    (h : readDeclaration rv n p o header = .ok (res, q)) : Frame p q := by
  unfold readDeclaration at h
  split at h
  · dsimp only at h
    split at h
    · cases h
    · rename_i vs p2 hv
      cases h
      have h1 : Frame p p2 :=
        (Frame.set_object (Frame.self p) _).step (readObjectValues_frame rv hrv n _ _ _ _ hv)
      exact h1.set_reader _ (Seek_same _ _ _)
  · cases h

theorem resolveObjectWith_frame (rv : PDFParser → Option Token → Res Value)
    (hrv : KeepsFrame rv) (n : Nat) (p : PDFParser) (spec : Value)
    (res : Option ObjectDeclaration) (q : PDFParser)
    (h : resolveObjectWith rv n p spec = .ok (res, q)) : Frame p q := by
  unfold resolveObjectWith at h
  split at h
  · cases h; exact Frame.self _
  · split at h
    · dsimp only at h
      have h0 : ∀ o : Int, Frame p { p with reader := ((p.reader.Seek 0 1).2.Seek o 0).2 } :=
        fun o => Frame.of_reader p _ (SameFile.chain (Seek_same _ _ _) (Seek_same _ _ _))
      split at h
      · cases h
      · rename_i header p2 hv
        have h1 := (h0 _).step (hrv _ _ _ _ hv)
        split at h
        · exact h1.step (readDeclaration_frame rv hrv n _ _ _ _ _ h)
        · split at h
          · refine Frame.step ?_ (readDeclaration_frame rv hrv n _ _ _ _ _ h)
            exact h1.set_reader _
              (SameFile.chain (SameFile.chain (Seek_same _ _ _) (SkipToToken_same _ _))
                (SkipBytes_same _ _))
          · cases h
            exact h1.set_reader _
              (SameFile.chain (SameFile.chain (Seek_same _ _ _) (SkipToToken_same _ _))
                (Seek_same _ _ _))
    · cases h; exact Frame.self _
  · cases h; exact Frame.self _
  · cases h; exact Frame.self _

theorem readStream_frame (rv : PDFParser → Option Token → Res Value) (fuel : Nat) :
    ∀ p v q, readStream rv fuel p = .ok (v, q) → Frame p q := by
  intro p v q h
  unfold readStream at h
  dsimp only at h
  split at h
  · cases h
  · split at h
    · cases h
    · cases h
  · cases h
    exact (Frame.of_reader p _ (skipStreamWhitespace_same _)).set_reader _
      (SameFile.chain (ReadBytes_same _ _) (ReadToken_same _))
  · cases h

theorem readPlain_frame (p : PDFParser) (str : List Char) (v : Value) (q : PDFParser)
    (h : readPlain p str = .ok (v, q)) : Frame p q := by
  unfold readPlain at h
  dsimp only at h
  split at h
  · split at h
    · split at h
      · cases h
        exact Frame.of_reader p _ (ReadTokens_same _ _)
      · rw [(numericValue_ok _ _ _ _ _ h).1]; exact Frame.self _
    · rw [(numericValue_ok _ _ _ _ _ h).1]; exact Frame.self _
  · split at h
    · rw [(realValue_ok _ _ _ _ h).1]; exact Frame.self _
    · split at h
      · cases h; exact Frame.self _
      · split at h
        · cases h; exact Frame.self _
        · split at h
          · cases h; exact Frame.self _
          · cases h; exact Frame.self _

theorem readValueAt_frame (rv : PDFParser → Option Token → Res Value) (hrv : KeepsFrame rv)
    (fuel : Nat) (p : PDFParser) (str : List Char) (v : Value) (q : PDFParser)
    (h : readValueAt rv fuel p str = .ok (v, q)) : Frame p q := by
  unfold readValueAt at h
  split at h
  · cases h
    exact Frame.of_reader p _ (ReadBytesToToken_same _ _)
  · split at h
    · exact readDictionary_frame _ hrv _ _ _ _ _ h
    · split at h
      · exact readArray_frame _ hrv _ _ _ _ _ h
      · split at h
        · cases h
          exact Frame.of_reader p _ (SkipBytes_same _ _)
        · split at h
          · exact readStream_frame _ _ _ _ _ h
          · exact readPlain_frame _ _ _ _ h

theorem readValueBody_frame (rv : PDFParser → Option Token → Res Value) (hrv : KeepsFrame rv)
    (fuel : Nat) : KeepsFrame (readValueBody rv fuel) := by
  intro p t v q h
  unfold readValueBody at h
  cases t with
  | none => exact (Frame.of_reader p _ (ReadToken_same _)).step (readValueAt_frame _ hrv _ _ _ _ _ h)
  | some t => exact readValueAt_frame _ hrv _ _ _ _ _ h

theorem readValue_frame (fuel : Nat) : KeepsFrame (readValue fuel) := by
  induction fuel with
  | zero => intro p t v q h; simp [readValue] at h
  | succ fuel ih =>
    intro p t v q h
    rw [readValue] at h
    exact readValueBody_frame _ ih fuel p t v q h

theorem resolveObject_frame (fuel : Nat) (p : PDFParser) (spec : Value)
    (res : Option ObjectDeclaration) (q : PDFParser)
    (h : resolveObject fuel p spec = .ok (res, q)) : Frame p q :=
  resolveObjectWith_frame _ (readValue_frame fuel) fuel p spec res q h

/-! ### Opening a document -/

theorem readRoot_keeps_xref (fuel : Nat) (p : PDFParser) (e : Option String) (q : PDFParser)
    (h : readRoot fuel p = .ok (e, q)) : q.xref = p.xref := by
  unfold readRoot at h
  split at h
  · split at h
    · cases h
    · split at h
      · cases h
      · cases h
        rename_i hres
        exact (resolveObject_frame _ _ _ _ _ hres).1
      · rename_i hres
        split at h
        · cases h
          exact (resolveObject_frame _ _ _ _ _ hres).1
        · cases h
    · cases h; rfl
  · cases h; rfl

set_option maxRecDepth 100000 in
/-- C10 (counterexample): the trailer of `encryptedNoRoot` contains `/Encrypt`,
yet `OpenPDFParser` fails with the error of `readRoot`, which runs before the
encryption check, and not with the encrypted-document error. -/
theorem OpenPDFParser_encrypted_counterexample :
    (match readXrefTable 10 (openStart encryptedNoRoot.toList false) 49 with
      | .ok (none, p) => getEncryption p
      | _ => false) = true ∧
    OpenPDFParser 10 encryptedNoRoot.toList false =
      .ok (.error "Could not find root in trailer") ∧
    "Could not find root in trailer" ≠ "File is encrypted!" :=
  ⟨rfl, rfl, by decide⟩

/-- C10 (amended): when the trailer read by `readXrefTable` contains `/Encrypt`,
`OpenPDFParser` returns no parser and its outcome does not depend on the
page-tree steps (they are never run); the outcome is the encrypted-document
error whenever `readRoot` succeeds, and the error of `readRoot` when that step
reports one. -/
theorem OpenPDFParser_encrypted (fuel : Nat) (file : List Char) (nilAtEOF : Bool)
    (offset : Int) (p1 : PDFParser)
    (hfind : (findXrefTable (NewTokenReader file nilAtEOF)).1 = .ok offset)
    (hxref : readXrefTable fuel (openStart file nilAtEOF) offset = .ok (none, p1))
    (henc : getEncryption p1 = true) :
    (∀ pageSteps, OpenPDFParserWith pageSteps fuel file nilAtEOF =
        OpenPDFParser fuel file nilAtEOF) ∧
    (∀ p, OpenPDFParser fuel file nilAtEOF ≠ .ok (.ok p)) ∧
    (∀ p2, readRoot fuel p1 = .ok (none, p2) →
        OpenPDFParser fuel file nilAtEOF = .ok (.error "File is encrypted!")) ∧
    (∀ err p2, readRoot fuel p1 = .ok (some err, p2) →
        OpenPDFParser fuel file nilAtEOF = .ok (.error err)) := by
  have henc2 : ∀ e p2, readRoot fuel p1 = .ok (e, p2) → getEncryption p2 = true := by
    intro e p2 h
    unfold getEncryption at henc ⊢
    rw [readRoot_keeps_xref fuel p1 e p2 h]
    exact henc
  have hopen : ∀ pageSteps, OpenPDFParserWith pageSteps fuel file nilAtEOF =
      match readRoot fuel p1 with
      | .error e => .error e
      | .ok (some err, _) => .ok (.error err)
      | .ok (none, _) => .ok (.error "File is encrypted!") := by
    intro pageSteps
    unfold OpenPDFParserWith
    have e1 : (findXrefTable (newParser (NewTokenReader file nilAtEOF)).reader).1 =
        Except.ok offset := hfind
    have e2 : readXrefTable fuel
        { newParser (NewTokenReader file nilAtEOF) with
          reader := (findXrefTable (newParser (NewTokenReader file nilAtEOF)).reader).2 }
        offset = .ok (none, p1) := hxref
    dsimp only at e2 ⊢
    rw [e1]
    dsimp only
    rw [e2]
    dsimp only
    cases hroot : readRoot fuel p1 with
    | error e => rfl
    | ok r =>
      obtain ⟨e, p2⟩ := r
      cases e with
      | some err => rfl
      | none =>
        dsimp only
        rw [henc2 none p2 hroot]
        rfl
  refine ⟨?_, ?_, ?_, ?_⟩
  · intro pageSteps
    unfold OpenPDFParser
    rw [hopen, hopen]
  · intro p
    unfold OpenPDFParser
    rw [hopen]
    cases hroot : readRoot fuel p1 with
    | error e => simp
    | ok r =>
      obtain ⟨e, p2⟩ := r
      cases e <;> simp
  · intro p2 h
    unfold OpenPDFParser
    rw [hopen, h]
  · intro err p2 h
    unfold OpenPDFParser
    rw [hopen, h]

set_option maxRecDepth 100000 in
/-- C10 (amended) at a concrete input: `encryptedWithRoot` has `/Encrypt` and a
root that resolves, and opening it fails with the encrypted-document error. -/
theorem OpenPDFParser_encrypted_witness :
    OpenPDFParser 10 encryptedWithRoot.toList false = .ok (.error "File is encrypted!") :=
  (OpenPDFParser_encrypted 10 encryptedWithRoot.toList false 49 _ rfl rfl rfl).2.2.1 _ rfl






/-! ### The page list is not read while parsing -/

theorem readDictionary_pages (rv : PDFParser → Option Token → Res Value)
    (hrv : IgnoresPages rv) (ps : List PDFPage) (n : Nat) :
    ∀ (p : PDFParser) (acc : Dictionary),
      readDictionary rv n (withPages ps p) acc =
        mapState (withPages ps) (readDictionary rv n p acc) := by
  induction n with
  | zero => intro p acc; rfl
  | succ n ih =>
    intro p acc
    rw [readDictionary, readDictionary]
    dsimp only
    have e1 : (withPages ps p).reader = p.reader := rfl
    rw [e1]
    cases p.reader.ReadToken.1 with
    | none => rfl
    | some key =>
      dsimp only
      split
      · rfl
      · have e2 : ({ withPages ps p with reader := p.reader.ReadToken.2 } : PDFParser) =
            withPages ps { p with reader := p.reader.ReadToken.2 } := rfl
        rw [e2, hrv]
        cases rv { p with reader := p.reader.ReadToken.2 } none with
        | error e => rfl
        | ok r =>
          obtain ⟨value, p2⟩ := r
          simp only [mapState]
          cases value <;> first
            | rfl
            | (dsimp only
               split
               · split <;> rfl
               · exact ih { p2 with currentDictionary := mapSet key _ acc } (mapSet key _ acc))


theorem readArray_pages (rv : PDFParser → Option Token → Res Value)
    (hrv : IgnoresPages rv) (ps : List PDFPage) (n : Nat) :
    ∀ (p : PDFParser) (acc : List Value),
      readArray rv n (withPages ps p) acc =
        mapState (withPages ps) (readArray rv n p acc) := by
  induction n with
  | zero => intro p acc; rfl
  | succ n ih =>
    intro p acc
    rw [readArray, readArray]
    have h := hrv ps { p with reader := p.reader.ReadToken.2 } p.reader.ReadToken.1
    dsimp only [withPages] at h ⊢
    split
    · rfl
    · rw [h]
      cases rv { p with reader := p.reader.ReadToken.2 } p.reader.ReadToken.1 with
      | error e => rfl
      | ok r =>
        obtain ⟨value, p2⟩ := r
        exact ih p2 _

theorem readObjectValues_pages (rv : PDFParser → Option Token → Res Value)
    (hrv : IgnoresPages rv) (ps : List PDFPage) (n : Nat) :
    ∀ (p : PDFParser) (acc : List Value),
      readObjectValues rv n (withPages ps p) acc =
        mapState (withPages ps) (readObjectValues rv n p acc) := by
  induction n with
  | zero => intro p acc; rfl
  | succ n ih =>
    intro p acc
    rw [readObjectValues, readObjectValues, hrv]
    cases rv p none with
    | error e => rfl
    | ok r =>
      obtain ⟨value, p2⟩ := r
      simp only [mapState]
      cases value <;> first
        | rfl
        | (dsimp only
           split
           · rfl
           · split
             · rfl
             · exact ih p2 _)

theorem readDeclaration_pages (rv : PDFParser → Option Token → Res Value)
    (hrv : IgnoresPages rv) (ps : List PDFPage) (n : Nat) (p : PDFParser) (o : Int)
    (header : Value) :
    readDeclaration rv n (withPages ps p) o header =
      mapState (withPages ps) (readDeclaration rv n p o header) := by
  unfold readDeclaration
  cases header <;> first
    | rfl
    | (rename_i ho hg
       have h := readObjectValues_pages rv hrv ps n
         { p with currentObject := ObjectDeclaration.mk ho hg [] } []
       dsimp only [withPages] at h ⊢
       rw [h]
       cases readObjectValues rv n { p with currentObject := ObjectDeclaration.mk ho hg [] } []
         with
       | error e => rfl
       | ok r => rfl)

theorem resolveObjectWith_pages (rv : PDFParser → Option Token → Res Value)
    (hrv : IgnoresPages rv) (ps : List PDFPage) (n : Nat) (p : PDFParser) (spec : Value) :
    resolveObjectWith rv n (withPages ps p) spec =
      mapState (withPages ps) (resolveObjectWith rv n p spec) := by
  unfold resolveObjectWith
  cases spec <;> first
    | rfl
    | (rename_i obj gen
       dsimp only [withPages]
       cases lookup (ObjectRef.mk obj gen) p.xref.xref with
       | none => rfl
       | some offset =>
         have h := hrv ps { p with reader := ((p.reader.Seek 0 1).2.Seek offset 0).2 } none
         dsimp only [withPages] at h ⊢
         rw [h]
         cases rv { p with reader := ((p.reader.Seek 0 1).2.Seek offset 0).2 } none with
         | error e => rfl
         | ok r =>
           obtain ⟨header, p2⟩ := r
           dsimp only [mapState, withPages]
           split
           · exact readDeclaration_pages rv hrv ps n p2 _ header
           · split
             · exact readDeclaration_pages rv hrv ps n
                 { p2 with reader := _ } _ header
             · rfl)

theorem readStream_pages (rv : PDFParser → Option Token → Res Value)
    (hrv : IgnoresPages rv) (ps : List PDFPage) (fuel : Nat) (p : PDFParser) :
    readStream rv fuel (withPages ps p) = mapState (withPages ps) (readStream rv fuel p) := by
  unfold readStream
  dsimp only [withPages]
  cases p.currentDictionary.get "/Length".toList <;> first
    | rfl
    | (rename_i obj gen
       have h := resolveObjectWith_pages rv hrv ps fuel
         { p with reader := skipStreamWhitespace p.reader } (.ObjectRef obj gen)
       dsimp only [withPages] at h ⊢
       rw [h]
       cases resolveObjectWith rv fuel { p with reader := skipStreamWhitespace p.reader }
         (.ObjectRef obj gen) with
       | error e => rfl
       | ok r => rfl)

theorem realValue_pages (ps : List PDFPage) (p : PDFParser) (f : ParsedFloat) :
    realValue (withPages ps p) f = mapState (withPages ps) (realValue p f) := by
  cases f <;> rfl

theorem numericValue_pages (ps : List PDFPage) (p : PDFParser) (str : List Char) (n : Int) :
    numericValue (withPages ps p) str n = mapState (withPages ps) (numericValue p str n) := by
  unfold numericValue
  split
  · exact realValue_pages ps p _
  · rfl

theorem readPlain_pages (ps : List PDFPage) (p : PDFParser) (str : List Char) :
    readPlain (withPages ps p) str = mapState (withPages ps) (readPlain p str) := by
  unfold readPlain
  dsimp only
  split
  · have e : (withPages ps p).reader = p.reader := rfl
    rw [e]
    split
    · split
      · rfl
      · exact numericValue_pages ps p str _
    · exact numericValue_pages ps p str _
  · split
    · exact realValue_pages ps p _
    · repeat' split
      all_goals rfl

theorem readValueAt_pages (rv : PDFParser → Option Token → Res Value)
    (hrv : IgnoresPages rv) (ps : List PDFPage) (fuel : Nat) (p : PDFParser)
    (str : List Char) :
    readValueAt rv fuel (withPages ps p) str =
      mapState (withPages ps) (readValueAt rv fuel p str) := by
  unfold readValueAt
  split
  · rfl
  · split
    · exact readDictionary_pages rv hrv ps fuel p []
    · split
      · exact readArray_pages rv hrv ps fuel p []
      · split
        · rfl
        · split
          · exact readStream_pages rv hrv ps fuel p
          · exact readPlain_pages ps p str

theorem readValueBody_pages (rv : PDFParser → Option Token → Res Value)
    (hrv : IgnoresPages rv) (fuel : Nat) : IgnoresPages (readValueBody rv fuel) := by
  intro ps p t
  unfold readValueBody
  cases t with
  | none => exact readValueAt_pages rv hrv ps fuel { p with reader := p.reader.ReadToken.2 } _
  | some t => exact readValueAt_pages rv hrv ps fuel { p with reader := p.reader } _

theorem readValue_pages (fuel : Nat) : IgnoresPages (readValue fuel) := by
  induction fuel with
  | zero => intro ps p t; rfl
  | succ fuel ih =>
    intro ps p t
    rw [readValue, readValue]
    exact readValueBody_pages _ ih fuel ps p t

theorem resolveObject_pages (fuel : Nat) (ps : List PDFPage) (p : PDFParser) (spec : Value) :
    resolveObject fuel (withPages ps p) spec =
      mapState (withPages ps) (resolveObject fuel p spec) :=
  resolveObjectWith_pages _ (readValue_pages fuel) ps fuel p spec


theorem readXrefTable_pages (fuel : Nat) (p : PDFParser) (o : Int) (e : Option String)
    (q : PDFParser) (h : readXrefTable fuel p o = .ok (e, q)) : q.pages = p.pages := by
  unfold readXrefTable at h
  dsimp only at h
  by_cases hz : p.xref.xrefLocation = 0
  · simp only [hz, if_true] at h
    repeat' split at h
    all_goals try cases h
    all_goals first
      | rfl
      | (rename_i hv; exact (readValue_frame _ _ _ _ _ hv).2.1)
  · simp only [hz, if_false] at h
    repeat' split at h
    all_goals try cases h
    all_goals first
      | rfl
      | (rename_i hv; exact (readValue_frame _ _ _ _ _ hv).2.1)

theorem readRoot_keeps_pages (fuel : Nat) (p : PDFParser) (e : Option String) (q : PDFParser)
    (h : readRoot fuel p = .ok (e, q)) : q.pages = p.pages := by
  unfold readRoot at h
  split at h
  · split at h
    · cases h
    · split at h
      · cases h
      · cases h
        rename_i hres
        exact (resolveObject_frame _ _ _ _ _ hres).2.1
      · rename_i hres
        split at h
        · cases h
          exact (resolveObject_frame _ _ _ _ _ hres).2.1
        · cases h
    · cases h; rfl
  · cases h; rfl

theorem getPagesObj_frame (fuel : Nat) (p : PDFParser) (r : Except String Dictionary)
    (q : PDFParser) (h : getPagesObj fuel p = .ok (r, q)) : Frame p q := by
  unfold getPagesObj at h
  split at h
  · split at h
    · cases h
    · split at h
      · cases h
      · cases h
        rename_i hres
        exact resolveObject_frame _ _ _ _ _ hres
      · rename_i hres
        split at h
        · cases h
          exact resolveObject_frame _ _ _ _ _ hres
        · cases h
    · cases h; exact Frame.self _
  · cases h; exact Frame.self _

theorem OpenPDFParserWith_steps (steps : PDFParser → Except Fault (Except String PDFParser))
    (fuel : Nat) (file : List Char) (nilAtEOF : Bool) :
    OpenPDFParserWith steps fuel file nilAtEOF =
      match openPrefix fuel file nilAtEOF with
      | .ok (.ok s) => steps s
      | .ok (.error err) => .ok (.error err)
      | .error e => .error e := by
  unfold openPrefix OpenPDFParserWith
  dsimp only
  split
  · rfl
  · split
    · rfl
    · rfl
    · split
      · rfl
      · rfl
      · split <;> rfl

theorem openPrefix_pages (fuel : Nat) (file : List Char) (nilAtEOF : Bool) (s : PDFParser)
    (h : openPrefix fuel file nilAtEOF = .ok (.ok s)) : s.pages = [] := by
  unfold openPrefix OpenPDFParserWith at h
  dsimp only at h
  split at h
  · cases h
  · split at h
    · cases h
    · cases h
    · rename_i hx
      split at h
      · cases h
      · cases h
      · rename_i hr
        split at h
        · cases h
        · cases h
          rw [readRoot_keeps_pages _ _ _ _ hr, readXrefTable_pages _ _ _ _ _ hx]
          rfl


theorem KidsResolve_pages (fuel : Nat) (kids : List Value) :
    ∀ (ds : List Dictionary) (p q : PDFParser) (ps : List PDFPage),
      KidsResolve fuel p kids ds q →
      KidsResolve fuel (withPages ps p) kids ds (withPages ps q) := by
  induction kids with
  | nil =>
    intro ds p q ps h
    cases ds with
    | nil => simp only [KidsResolve] at h ⊢; rw [h]
    | cons d ds => simp [KidsResolve] at h
  | cons kid kids ih =>
    intro ds p q ps h
    cases ds with
    | nil => simp [KidsResolve] at h
    | cons d ds =>
      simp only [KidsResolve] at h ⊢
      obtain ⟨decl, p2, hres, hd, hrest⟩ := h
      refine ⟨decl, withPages ps p2, ?_, hd, ih ds p2 q ps hrest⟩
      rw [resolveObject_pages, hres]
      rfl

theorem KidsResolve_length (fuel : Nat) (kids : List Value) :
    ∀ (ds : List Dictionary) (p q : PDFParser),
      KidsResolve fuel p kids ds q → ds.length = kids.length := by
  induction kids with
  | nil =>
    intro ds p q h
    cases ds with
    | nil => rfl
    | cons d ds => simp [KidsResolve] at h
  | cons kid kids ih =>
    intro ds p q h
    cases ds with
    | nil => simp [KidsResolve] at h
    | cons d ds =>
      simp only [KidsResolve] at h
      obtain ⟨decl, p2, _, _, hrest⟩ := h
      simp only [List.length_cons, ih ds p2 q hrest]

theorem readKids_resolved (fuel : Nat) (kids : List Value) :
    ∀ (ds : List Dictionary) (p q : PDFParser) (k : Int),
      KidsResolve fuel p kids ds q →
      readKids fuel p k kids = .ok (none, withPages (p.pages ++ numberPages k ds) q) := by
  induction kids with
  | nil =>
    intro ds p q k h
    cases ds with
    | nil =>
      simp only [KidsResolve] at h
      subst h
      simp [readKids, numberPages, withPages]
    | cons d ds => simp [KidsResolve] at h
  | cons kid kids ih =>
    intro ds p q k h
    cases ds with
    | nil => simp [KidsResolve] at h
    | cons d ds =>
      simp only [KidsResolve] at h
      obtain ⟨decl, p2, hres, hd, hrest⟩ := h
      have hfr := (resolveObject_frame fuel p kid _ p2 hres).2.1
      rw [readKids, hres]
      simp only [hd]
      have h2 := ih ds _ _ (k + 1)
        (KidsResolve_pages fuel kids ds p2 q (p2.pages ++ [PDFPage.mk d (k + 1)]) hrest)
      simp only [withPages] at h2
      rw [h2, hfr]
      simp [numberPages, withPages]

theorem numberPages_length (ds : List Dictionary) :
    ∀ k : Int, (numberPages k ds).length = ds.length := by
  induction ds with
  | nil => intro k; rfl
  | cons d ds ih => intro k; simp [numberPages, ih]

theorem numberPages_get (ds : List Dictionary) :
    ∀ (k : Int) (i : Nat) (d : Dictionary), ds[i]? = some d →
      (numberPages k ds)[i]? = some (PDFPage.mk d (k + i + 1)) := by
  induction ds with
  | nil => intro k i d h; simp at h
  | cons d0 ds ih =>
    intro k i d h
    cases i with
    | zero =>
      simp only [List.getElem?_cons_zero, Option.some.injEq] at h
      subst h
      simp [numberPages]
    | succ j =>
      simp only [List.getElem?_cons_succ] at h
      simp only [numberPages, List.getElem?_cons_succ, ih (k + 1) j d h]
      congr 2
      push_cast
      ring

theorem numberPages_dicts (ds : List Dictionary) :
    ∀ k : Int, (numberPages k ds).map (fun pg => pg.Dictionary) = ds := by
  induction ds with
  | nil => intro k; rfl
  | cons d ds ih => intro k; simp [numberPages, ih]

theorem readPages_resolved (fuel : Nat) (p q : PDFParser) (pages : Dictionary)
    (kids : List Value) (ds : List Dictionary)
    (hk : lookup "/Kids".toList pages = some (.Array kids))
    (hres : KidsResolve fuel p kids ds q) :
    readPages fuel p pages = .ok (none, withPages (p.pages ++ numberPages 0 ds) q) := by
  unfold readPages
  rw [hk]
  exact readKids_resolved fuel kids ds p q 0 hres


/-! ### C11: pages are numbered in `/Kids` order -/

/-- C11: when `/Kids` of the `/Pages` dictionary is an array `kids` whose
entries resolve one after another to objects with the dictionaries `ds`, then
`readPages`, started as `OpenPDFParser` starts it (with no pages), succeeds and
leaves the page list `numberPages 0 ds`: it has exactly as many pages as
`kids` has entries, and the page at position `i` carries the dictionary of the
`i`-th kid and the number `i + 1`, whatever the object numbers of the kids
are. `Open` on a file whose page-tree steps reach this `readPages` then
succeeds and `CountPages` is the number of kids. -/
theorem readPages_numbers_kids (fuel : Nat) (p q : PDFParser) (pages : Dictionary)
    (kids : List Value) (ds : List Dictionary)
    (hk : lookup "/Kids".toList pages = some (.Array kids))
    (hres : KidsResolve fuel p kids ds q) (hempty : p.pages = []) :
    readPages fuel p pages = .ok (none, withPages (numberPages 0 ds) q) ∧
    (numberPages 0 ds).length = kids.length ∧
    (∀ (i : Nat) (d : Dictionary), ds[i]? = some d →
      (numberPages 0 ds)[i]? = some (PDFPage.mk d (i + 1))) ∧
    (∀ (file : List Char) (nilAtEOF : Bool) (p1 : PDFParser),
      openPrefix fuel file nilAtEOF = .ok (.ok p1) →
      getPagesObj fuel p1 = .ok (.ok pages, p) →
      ∃ td, Open fuel file nilAtEOF = .ok (.ok td) ∧ td.parser.pages = numberPages 0 ds ∧
        CountPages td = kids.length) := by
  have hlen : (numberPages 0 ds).length = kids.length := by
    rw [numberPages_length, KidsResolve_length fuel kids ds p q hres]
  have hrun : readPages fuel p pages = .ok (none, withPages (numberPages 0 ds) q) := by
    rw [readPages_resolved fuel p q pages kids ds hk hres, hempty]
    rfl
  refine ⟨hrun, hlen, ?_, ?_⟩
  · intro i d hd
    have := numberPages_get ds 0 i d hd
    rw [this]
    simp
  · intro file nilAtEOF p1 hpre hobj
    refine ⟨{ numPages := ((numberPages 0 ds).length : Int), lastUsedPageBox := [],
              parser := withPages (numberPages 0 ds) q, k := mkRat 720 254 }, ?_, rfl, ?_⟩
    · unfold Open OpenPDFParser
      rw [OpenPDFParserWith_steps, hpre]
      simp only [openPages, hobj, hrun]
      rfl
    · simp only [CountPages, hlen]

theorem threePages_prefix :
    openPrefix 10 threePages.toList false = .ok (.ok threePagesPrefix) := by decide!

theorem threePages_top :
    getPagesObj 10 threePagesPrefix =
      .ok (.ok [("/Kids".toList, .Array threePagesKids)],
        threePagesAfter 2 [("/Kids".toList, .Array threePagesKids)]) := by decide!

theorem threePages_kids :
    KidsResolve 10 (threePagesAfter 2 [("/Kids".toList, .Array threePagesKids)])
      threePagesKids threePagesDicts (threePagesAfter 5 [("/N".toList, .Token "/c".toList)]) :=
  ⟨ObjectDeclaration.mk 7 0 [.Dictionary [("/N".toList, .Token "/a".toList)]],
    threePagesAfter 7 [("/N".toList, .Token "/a".toList)], by decide!, rfl,
    ObjectDeclaration.mk 3 0 [.Dictionary [("/N".toList, .Token "/b".toList)]],
    threePagesAfter 3 [("/N".toList, .Token "/b".toList)], by decide!, rfl,
    ObjectDeclaration.mk 5 0 [.Dictionary [("/N".toList, .Token "/c".toList)]],
    threePagesAfter 5 [("/N".toList, .Token "/c".toList)], by decide!, rfl, rfl⟩

/-- Witness for C11 on `threePages`, whose kids are the objects 7, 3 and 5:
the document opens with three pages numbered in `/Kids` order. -/
theorem readPages_numbers_kids_witness :
    ∃ td, Open 10 threePages.toList false = .ok (.ok td) ∧
      td.parser.pages = numberPages 0 threePagesDicts ∧ CountPages td = 3 :=
  (readPages_numbers_kids 10
    (threePagesAfter 2 [("/Kids".toList, .Array threePagesKids)])
    (threePagesAfter 5 [("/N".toList, .Token "/c".toList)])
    [("/Kids".toList, .Array threePagesKids)] threePagesKids threePagesDicts rfl
    threePages_kids rfl).2.2.2 threePages.toList false threePagesPrefix
    threePages_prefix threePages_top


/-! ### C12: the page list holds the direct kids only -/

/-- C12, counterexample: `nestedPages` has a top-level `/Pages` node whose only
kid is an intermediate `/Pages` node with two leaf pages. `Open` yields a page
count of 1, and the one page carries the dictionary of the intermediate node
(the one with `/Kids`), not the leaves. -/
theorem Open_nested_pages_counterexample :
    pagesOf (Open 10 nestedPages.toList false) = some (1, [PDFPage.mk nestedPagesInner 1]) := by
  decide!

/-- C12, amended: `readPages` walks one level. When the entries of `/Kids`
resolve one after another to objects with the dictionaries `ds`, whatever
those dictionaries hold (leaf pages or `/Pages` nodes with `/Kids` of their
own), `readPages` succeeds, appends exactly one page per entry carrying that
entry's dictionary, in order, and resolves nothing below. -/
theorem readPages_single_level (fuel : Nat) (p q : PDFParser) (pages : Dictionary)
    (kids : List Value) (ds : List Dictionary)
    (hk : lookup "/Kids".toList pages = some (.Array kids))
    (hres : KidsResolve fuel p kids ds q) :
    ∃ q2, readPages fuel p pages = .ok (none, q2) ∧
      q2.pages.map (fun pg => pg.Dictionary) = p.pages.map (fun pg => pg.Dictionary) ++ ds ∧
      q2.pages.length = p.pages.length + kids.length ∧
      withPages p.pages q2 = withPages p.pages q := by
  refine ⟨_, readPages_resolved fuel p q pages kids ds hk hres, ?_, ?_, rfl⟩
  · simp only [withPages, List.map_append, numberPages_dicts]
  · simp only [withPages, List.length_append, numberPages_length,
      KidsResolve_length fuel kids ds p q hres]

/-- Witness for the amended C12 on `nestedPages`: the kid is the intermediate
node 3 and the one page made from it carries that node's `/Kids`. -/
theorem readPages_single_level_witness :
    ∃ q2, readPages 10 (sampleParser nestedPages 0 nestedPagesXref)
        [("/Kids".toList, .Array [.ObjectRef 3 0])] = .ok (none, q2) ∧
      q2.pages.map (fun pg => pg.Dictionary) = [] ++ [nestedPagesInner] ∧
      q2.pages.length = 0 + 1 ∧
      withPages [] q2 = withPages []
        { sampleParser nestedPages 0 nestedPagesXref with
          currentObject := ObjectDeclaration.mk 3 0 [], currentDictionary := nestedPagesInner } :=
  readPages_single_level 10 (sampleParser nestedPages 0 nestedPagesXref)
    { sampleParser nestedPages 0 nestedPagesXref with
      currentObject := ObjectDeclaration.mk 3 0 [], currentDictionary := nestedPagesInner }
    [("/Kids".toList, .Array [.ObjectRef 3 0])] [.ObjectRef 3 0] [nestedPagesInner] rfl
    ⟨ObjectDeclaration.mk 3 0 [.Dictionary nestedPagesInner], _, by decide!, rfl, rfl⟩


/-! ### C13, C14, C15: page boxes -/

theorem fmin_eq_min (x y : ℚ) : fmin x y = min x y := by
  unfold fmin
  rw [min_def]

theorem fmax_eq_max (x y : ℚ) : fmax x y = max x y := by
  unfold fmax
  rw [max_def]

theorem fabs_eq_abs (x : ℚ) : fabs x = |x| := by
  unfold fabs
  split
  · rename_i h
    rw [abs_of_neg h]
  · rename_i h
    rw [abs_of_nonneg (not_lt.mp h)]

theorem getPageBox_array (fuel depth : Nat) (p : PDFParser) (page : Dictionary)
    (boxIndex : List Char) (a b c d k : ℚ)
    (hbox : lookup boxIndex page = some (.Array [.Real a, .Real b, .Real c, .Real d])) :
    getPageBox fuel (depth + 1) p page boxIndex k =
      .ok (some
        { origin := PointType.mk (a / k) (b / k),
          size := SizeType.mk (|a - c| / k) (|b - d| / k),
          lowCorner := PointType.mk (min a c / k) (min b d / k),
          highCorner := PointType.mk (max a c / k) (max b d / k) }, p) := by
  unfold getPageBox
  rw [hbox]
  simp only [boxFromArray, fmin_eq_min, fmax_eq_max, fabs_eq_abs]

/-- C13: when the box entry of the page dictionary is the inline array
`[a b c d]` of four numbers and the scale `k` is positive, `getPageBox` returns
a box (and leaves the parser as it was) whose `lowCorner` is
`(min a c / k, min b d / k)`, whose `highCorner` is `(max a c / k, max b d / k)`
and whose `size` is `(|a - c| / k, |b - d| / k)`. The bound on `k` is the one of
the contract; the three equations do not depend on it. -/
theorem getPageBox_inline_corners (fuel depth : Nat) (p : PDFParser) (page : Dictionary)
    (boxIndex : List Char) (a b c d k : ℚ)
    (hbox : lookup boxIndex page = some (.Array [.Real a, .Real b, .Real c, .Real d]))
    (_hk : 0 < k) :
    ∃ box, getPageBox fuel (depth + 1) p page boxIndex k = .ok (some box, p) ∧
      box.lowCorner = PointType.mk (min a c / k) (min b d / k) ∧
      box.highCorner = PointType.mk (max a c / k) (max b d / k) ∧
      box.size = SizeType.mk (|a - c| / k) (|b - d| / k) :=
  ⟨_, getPageBox_array fuel depth p page boxIndex a b c d k hbox, rfl, rfl, rfl⟩

/-- Witness for C13: the `/MediaBox` `[200 200 0 0]` at scale 2. -/
theorem getPageBox_inline_corners_witness :
    ∃ box, getPageBox 0 1 (sampleParser "" 0 []) [(MediaBox, squareBoxReversed)] MediaBox 2 =
        .ok (some box, sampleParser "" 0 []) ∧
      box.lowCorner = PointType.mk (min 200 0 / 2) (min 200 0 / 2) ∧
      box.highCorner = PointType.mk (max 200 0 / 2) (max 200 0 / 2) ∧
      box.size = SizeType.mk (|200 - 0| / 2) (|200 - 0| / 2) :=
  getPageBox_inline_corners 0 0 (sampleParser "" 0 []) [(MediaBox, squareBoxReversed)] MediaBox
    200 200 0 0 2 (by decide) (by norm_num)

/-- C14, counterexample: at scale 1 the box returned for `[200 200 0 0]` has
origin `(200, 200)`, the box returned for `[0 0 200 200]` has origin `(0, 0)`,
so the two boxes differ. -/
theorem getPageBox_reversed_counterexample :
    ∃ b1 b2,
      getPageBox 0 1 (sampleParser "" 0 []) [(MediaBox, squareBoxReversed)] MediaBox 1 =
        .ok (some b1, sampleParser "" 0 []) ∧
      getPageBox 0 1 (sampleParser "" 0 []) [(MediaBox, squareBox)] MediaBox 1 =
        .ok (some b2, sampleParser "" 0 []) ∧
      b1.origin = PointType.mk 200 200 ∧ b2.origin = PointType.mk 0 0 ∧ b1 ≠ b2 := by
  refine ⟨_, _, getPageBox_array 0 0 _ _ MediaBox 200 200 0 0 1 (by decide),
    getPageBox_array 0 0 _ _ MediaBox 0 0 200 200 1 (by decide), ?_, ?_, ?_⟩
  · norm_num
  · norm_num
  · intro h
    have h1 := congrArg (fun b => b.origin.X) h
    norm_num at h1

/-- C14, amended: for all numbers `x1 y1 x2 y2` and every scale `k > 0`, the
boxes that `getPageBox` returns for `[x2 y2 x1 y1]` and for `[x1 y1 x2 y2]`
have the same `size`, `lowCorner` and `highCorner`; the `origin` is the first
stored corner over `k` in each case, `(x2 / k, y2 / k)` and `(x1 / k, y1 / k)`,
so the origin is not normalised. -/
theorem getPageBox_corner_order (fuel depth : Nat) (p : PDFParser) (page1 page2 : Dictionary)
    (boxIndex : List Char) (x1 y1 x2 y2 k : ℚ)
    (hrev : lookup boxIndex page1 = some (.Array [.Real x2, .Real y2, .Real x1, .Real y1]))
    (hfwd : lookup boxIndex page2 = some (.Array [.Real x1, .Real y1, .Real x2, .Real y2]))
    (_hk : 0 < k) :
    ∃ b1 b2,
      getPageBox fuel (depth + 1) p page1 boxIndex k = .ok (some b1, p) ∧
      getPageBox fuel (depth + 1) p page2 boxIndex k = .ok (some b2, p) ∧
      b1.size = b2.size ∧ b1.lowCorner = b2.lowCorner ∧ b1.highCorner = b2.highCorner ∧
      b1.origin = PointType.mk (x2 / k) (y2 / k) ∧ b2.origin = PointType.mk (x1 / k) (y1 / k) := by
  refine ⟨_, _, getPageBox_array fuel depth p page1 boxIndex x2 y2 x1 y1 k hrev,
    getPageBox_array fuel depth p page2 boxIndex x1 y1 x2 y2 k hfwd, ?_, ?_, ?_, rfl, rfl⟩
  · simp only [abs_sub_comm x2 x1, abs_sub_comm y2 y1]
  · simp only [min_comm x2 x1, min_comm y2 y1]
  · simp only [max_comm x2 x1, max_comm y2 y1]

/-- Witness for the amended C14: `[200 200 0 0]` and `[0 0 200 200]` at scale 2. -/
theorem getPageBox_corner_order_witness :
    ∃ b1 b2,
      getPageBox 0 1 (sampleParser "" 0 []) [(MediaBox, squareBoxReversed)] MediaBox 2 =
        .ok (some b1, sampleParser "" 0 []) ∧
      getPageBox 0 1 (sampleParser "" 0 []) [(MediaBox, squareBox)] MediaBox 2 =
        .ok (some b2, sampleParser "" 0 []) ∧
      b1.size = b2.size ∧ b1.lowCorner = b2.lowCorner ∧ b1.highCorner = b2.highCorner ∧
      b1.origin = PointType.mk (200 / 2) (200 / 2) ∧ b2.origin = PointType.mk (0 / 2) (0 / 2) :=
  getPageBox_corner_order 0 0 (sampleParser "" 0 []) [(MediaBox, squareBoxReversed)]
    [(MediaBox, squareBox)] MediaBox 0 0 200 200 2 (by decide) (by decide) (by norm_num)

/-- C15: the object 3 of `boxObject` holds the array `[0 0 200 200]`. With
`/MediaBox 3 0 R` in the page dictionary `getPageBox` resolves the reference
and then returns no box (the nil pointer); with the same array stored inline
it returns the box of that array. -/
theorem getPageBox_indirect_sample :
    resolveObject 10 (sampleParser boxObject 0 boxObjectXref) (.ObjectRef 3 0) =
      .ok (some (ObjectDeclaration.mk 3 0 [squareBox]),
        { sampleParser boxObject 0 boxObjectXref with
          currentObject := ObjectDeclaration.mk 3 0 [] }) ∧
    getPageBox 10 1 (sampleParser boxObject 0 boxObjectXref)
        [(MediaBox, .ObjectRef 3 0)] MediaBox 1 =
      .ok (none, { sampleParser boxObject 0 boxObjectXref with
          currentObject := ObjectDeclaration.mk 3 0 [] }) ∧
    getPageBox 10 1 (sampleParser boxObject 0 boxObjectXref) [(MediaBox, squareBox)] MediaBox 1 =
      .ok (some
        { origin := PointType.mk 0 0, size := SizeType.mk 200 200,
          lowCorner := PointType.mk 0 0, highCorner := PointType.mk 200 200 },
        sampleParser boxObject 0 boxObjectXref) := by
  decide!


/-! ### C16: rotation is inherited along `/Parent` -/

theorem _getPageRotation_climbs (fuel : Nat) (ds : List Dictionary) :
    ∀ (depth : Nat) (p q : PDFParser) (page last : Dictionary),
      Climbs fuel "/Rotate".toList p page ds last q → ds.length < depth →
      (∀ r, lookup "/Rotate".toList last = some r → r ≠ .goNil →
        _getPageRotation fuel depth p (.Dictionary page) = .ok ((none, r), q)) ∧
      (lookup "/Rotate".toList last = none → lookup "/Parent".toList last = none →
        _getPageRotation fuel depth p (.Dictionary page) = .ok ((none, .goNil), q)) := by
  induction ds with
  | nil =>
    intro depth p q page last h hd
    obtain ⟨h1, h2⟩ := h
    subst h1 h2
    cases depth with
    | zero => simp at hd
    | succ n =>
      constructor
      · intro r hr hne
        unfold _getPageRotation
        simp only [hr]
      · intro hr hp
        unfold _getPageRotation
        simp only [hr, hp]
  | cons d ds ih =>
    intro depth p q page last h hd
    obtain ⟨hnone, parentObj, decl, p2, rest, hpar, hres, hvals, hrest⟩ := h
    cases depth with
    | zero => simp at hd
    | succ n =>
      have hd2 : ds.length < n := by
        simp only [List.length_cons] at hd
        omega
      obtain ⟨ih1, ih2⟩ := ih n p2 q d last hrest hd2
      constructor
      · intro r hr hne
        unfold _getPageRotation
        simp only [hnone, hpar, hres, hvals, ih1 r hr hne]
      · intro hr hp
        unfold _getPageRotation
        simp only [hnone, hpar, hres, hvals, ih2 hr hp]

/-- C16: let the selected page have the chain of ancestors `ds`, each reached
by resolving `/Parent` of the one before, with no `/Rotate` on the page or on
any ancestor before the final dictionary `last` of the chain. With a recursion
bound above the length of the chain, `getPageRotation` returns no error and
the `/Rotate` value of `last` when `last` has one (so the value of the nearest
dictionary that has `/Rotate`), and no error and no value when `last` has
neither `/Rotate` nor `/Parent` (no dictionary of the chain has `/Rotate`). -/
theorem getPageRotation_nearest (fuel depth : Nat) (p q : PDFParser) (page : PDFPage)
    (ds : List Dictionary) (last : Dictionary)
    (hsel : findPage p.pages 0 (p.pageNumber - 1) = some page)
    (hclimb : Climbs fuel "/Rotate".toList p page.Dictionary ds last q)
    (hdepth : ds.length < depth) :
    (∀ r, lookup "/Rotate".toList last = some r → r ≠ .goNil →
      getPageRotation fuel depth p = .ok ((none, r), q)) ∧
    (lookup "/Rotate".toList last = none → lookup "/Parent".toList last = none →
      getPageRotation fuel depth p = .ok ((none, .goNil), q)) := by
  unfold getPageRotation
  rw [hsel]
  exact _getPageRotation_climbs fuel ds depth p q page.Dictionary last hclimb hdepth

/-- Witness for C16: the page has no `/Rotate`, its parent (object 2 of
`rotatedParent`) has `/Rotate 90`, and the rotation returned is 90. -/
theorem getPageRotation_nearest_witness :
    getPageRotation 10 2
        (selectedParser rotatedParent rotatedParentXref [("/Parent".toList, .ObjectRef 2 0)]) =
      .ok ((none, .Real 90),
        { selectedParser rotatedParent rotatedParentXref [("/Parent".toList, .ObjectRef 2 0)] with
          currentObject := ObjectDeclaration.mk 2 0 [],
          currentDictionary := [("/Rotate".toList, .Real 90)] }) :=
  (getPageRotation_nearest 10 2
    (selectedParser rotatedParent rotatedParentXref [("/Parent".toList, .ObjectRef 2 0)])
    { selectedParser rotatedParent rotatedParentXref [("/Parent".toList, .ObjectRef 2 0)] with
      currentObject := ObjectDeclaration.mk 2 0 [],
      currentDictionary := [("/Rotate".toList, .Real 90)] }
    (PDFPage.mk [("/Parent".toList, .ObjectRef 2 0)] 1)
    [[("/Rotate".toList, .Real 90)]] [("/Rotate".toList, .Real 90)]
    (by decide)
    ⟨by decide, .ObjectRef 2 0, ObjectDeclaration.mk 2 0 [.Dictionary [("/Rotate".toList, .Real 90)]],
      _, [], by decide, by decide!, rfl, rfl, rfl⟩
    (by decide)).1 (.Real 90) (by decide) (by decide)


/-! ### C17, C18, C19: page-selected queries -/

/-- C17: when the dictionary of the selected page (page 1) starts with an
inline `/Resources` dictionary, `getPageResources` panics: `resolveObject`
returns nil for a dictionary and `resources.Values` dereferences it. -/
theorem getPageResources_inline_panics (fuel depth : Nat) (p : PDFParser) (d rest : Dictionary)
    (n : Int) (more : List PDFPage) :
    getPageResources fuel (depth + 1)
      { p with
        pages := PDFPage.mk (("/Resources".toList, .Dictionary d) :: rest) n :: more,
        pageNumber := 1 } = .error .panic := by
  simp [getPageResources, findPage, _getPageResources, lookup, resolveObject, resolveObjectWith]

/-- C18: for page number 0 `GetPageBoxes` passes the range guard and panics on
`parser.pages[-1]`, whatever the page list is. -/
theorem GetPageBoxes_zero_panics (fuel depth : Nat) (p : PDFParser) (k : ℚ) :
    GetPageBoxes fuel depth p 0 k = .error .panic := by
  have h : ¬ ((0 : Int) < 0 ∨ (0 : Int) - 1 ≥ (p.pages.length : Int)) := by omega
  simp only [GetPageBoxes, h, if_false, pageAt]
  rfl


theorem findPage_eq_none (pages : List PDFPage) :
    ∀ i t : Int, findPage pages i t = none ↔ (t < i ∨ i + (pages.length : Int) ≤ t) := by
  induction pages with
  | nil =>
    intro i t
    simp only [findPage, List.length_nil, true_iff]
    omega
  | cons page rest ih =>
    intro i t
    unfold findPage
    by_cases h : i = t
    · simp only [h, if_true, List.length_cons]
      constructor
      · intro h2
        cases h2
      · intro h2
        push_cast at h2
        omega
    · simp only [h, if_false, ih (i + 1) t, List.length_cons]
      push_cast
      omega

theorem findPage_selected_none (p : PDFParser) :
    findPage p.pages 0 (p.pageNumber - 1) = none ↔
      (p.pageNumber < 1 ∨ (p.pages.length : Int) < p.pageNumber) := by
  rw [findPage_eq_none]
  omega

theorem _getPageRotation_no_error (fuel : Nat) :
    ∀ (depth : Nat) (p : PDFParser) (v : Value) (err : Option String) (r : Value)
      (q : PDFParser), _getPageRotation fuel depth p v = .ok ((err, r), q) → err = none := by
  intro depth
  induction depth with
  | zero =>
    intro p v err r q h
    simp [_getPageRotation] at h
  | succ n ih =>
    intro p v err r q h
    unfold _getPageRotation at h
    repeat' split at h
    all_goals try cases h
    all_goals first
      | rfl
      | (rename_i heq; exact absurd (ih _ _ _ _ _ heq) (by simp))

theorem _getPageResources_no_error (fuel : Nat) :
    ∀ (depth : Nat) (p : PDFParser) (v : Value) (err : Option String)
      (r : Option (List Value)) (q : PDFParser),
      _getPageResources fuel depth p v = .ok ((err, r), q) → err = none := by
  intro depth
  induction depth with
  | zero =>
    intro p v err r q h
    simp [_getPageResources] at h
  | succ n ih =>
    intro p v err r q h
    unfold _getPageResources at h
    repeat' split at h
    all_goals try cases h
    all_goals first
      | rfl
      | (rename_i heq; exact absurd (ih _ _ _ _ _ heq) (by simp))

/-- C19: the page-selected queries `getContent`, `getPageResources` and
`getPageRotation` return the page-does-not-exist error exactly when the
selected page number is outside `1..pageCount`. Outside that range each of
them returns the error and hands back the parser state as it was (page list
and xref index included), so any later query runs on the unchanged parser;
inside that range none of them returns an error. -/
theorem page_queries_range (codecs : Codecs) (fuel depth : Nat) (p : PDFParser) :
    ((p.pageNumber < 1 ∨ (p.pages.length : Int) < p.pageNumber) →
      getContent codecs fuel depth p = .ok ((some (pageError (p.pageNumber - 1)), []), p) ∧
      getPageResources fuel depth p = .ok ((some (pageError (p.pageNumber - 1)), none), p) ∧
      getPageRotation fuel depth p =
        .ok ((some (pageError (p.pageNumber - 1)), .goNil), p)) ∧
    ((1 ≤ p.pageNumber ∧ p.pageNumber ≤ (p.pages.length : Int)) →
      (∀ err v q, getContent codecs fuel depth p = .ok ((err, v), q) → err = none) ∧
      (∀ err v q, getPageResources fuel depth p = .ok ((err, v), q) → err = none) ∧
      (∀ err v q, getPageRotation fuel depth p = .ok ((err, v), q) → err = none)) := by
  constructor
  · intro hout
    have hnone := (findPage_selected_none p).mpr hout
    simp only [getContent, getPageResources, getPageRotation, hnone, and_self]
  · intro hin
    have hsome : findPage p.pages 0 (p.pageNumber - 1) ≠ none := by
      rw [Ne, findPage_selected_none]
      omega
    refine ⟨?_, ?_, ?_⟩
    · intro err v q h
      unfold getContent at h
      repeat' split at h
      all_goals try cases h
      all_goals first | rfl | contradiction
    · intro err v q h
      unfold getPageResources at h
      split at h
      · exact _getPageResources_no_error fuel depth p _ err v q h
      · contradiction
    · intro err v q h
      unfold getPageRotation at h
      split at h
      · exact _getPageRotation_no_error fuel depth p _ err v q h
      · contradiction

/-- Witness for C19: on the one-page parser over `rotatedParent` the query for
page 5 returns the error and the unchanged state; selecting page 1 afterwards
gives the rotation without error. -/
theorem page_queries_range_witness :
    getPageRotation 10 2
        (setPageNumber
          (selectedParser rotatedParent rotatedParentXref [("/Parent".toList, .ObjectRef 2 0)])
          5) =
      .ok ((some (pageError 4), .goNil),
        setPageNumber
          (selectedParser rotatedParent rotatedParentXref [("/Parent".toList, .ObjectRef 2 0)])
          5) ∧
    ∀ err v q,
      getPageRotation 10 2
        (setPageNumber
          (setPageNumber
            (selectedParser rotatedParent rotatedParentXref
              [("/Parent".toList, .ObjectRef 2 0)]) 5) 1) = .ok ((err, v), q) → err = none :=
  ⟨((page_queries_range (Codecs.mk (fun _ => none) id id) 10 2
      (setPageNumber
        (selectedParser rotatedParent rotatedParentXref [("/Parent".toList, .ObjectRef 2 0)])
        5)).1 (by decide)).2.2,
    ((page_queries_range (Codecs.mk (fun _ => none) id id) 10 2
      (setPageNumber
        (setPageNumber
          (selectedParser rotatedParent rotatedParentXref
            [("/Parent".toList, .ObjectRef 2 0)]) 5) 1)).2 (by decide)).2.2⟩


/-! ### C20: page content is the concatenation of the decoded streams -/

theorem forEachContent_flattens
    (F : PDFParser → Value → List (List Value) → PDFParser → Prop)
    (visit : PDFParser → Value → List (List Value) → Res (List (List Value)))
    (hv : ∀ p v cs q, F p v cs q → ∀ acc, visit p v acc = .ok (acc ++ cs, q))
    (xs : List Value) :
    ∀ (p q : PDFParser) (cs acc : List (List Value)),
      FlattensList F p xs cs q → forEachContent visit xs p acc = .ok (acc ++ cs, q) := by
  induction xs with
  | nil =>
    intro p q cs acc h
    obtain ⟨h1, h2⟩ := h
    subst h1 h2
    simp [forEachContent]
  | cons x xs ih =>
    intro p q cs acc h
    obtain ⟨c1, p2, c2, hx, hrest, hcs⟩ := h
    subst hcs
    unfold forEachContent
    rw [hv p x c1 p2 hx acc]
    simp only
    rw [ih p2 q c2 (acc ++ c1) hrest, List.append_assoc]

theorem _getPageContent_flattens (fuel : Nat) :
    ∀ (n depth : Nat) (p q : PDFParser) (v : Value) (cs : List (List Value)),
      n ≤ depth → Flattens fuel n p v cs q →
      ∀ acc, _getPageContent fuel depth p v acc = .ok (acc ++ cs, q) := by
  intro n
  induction n with
  | zero =>
    intro depth p q v cs _ h
    simp [Flattens] at h
  | succ n ih =>
    intro depth p q v cs hle h acc
    cases depth with
    | zero => omega
    | succ m =>
      have hnm : n ≤ m := by omega
      cases v with
      | ObjectRef obj gen =>
        simp only [Flattens] at h
        obtain ⟨decl, p2, hres, hcase⟩ := h
        unfold _getPageContent
        simp only [hres]
        rcases hcase with ⟨d, s, rest, hvals, hcs, hq⟩ | ⟨xs, rest, hvals, hrec⟩
        · subst hcs hq
          simp only [hvals]
        · simp only [hvals]
          exact ih m p2 q (.Array xs) cs hnm hrec acc
      | Array xs =>
        simp only [Flattens] at h
        unfold _getPageContent
        simp only
        exact forEachContent_flattens (Flattens fuel n) (_getPageContent fuel m)
          (fun p1 v1 cs1 q1 h1 acc1 => ih m p1 q1 v1 cs1 hnm h1 acc1) xs p q cs acc h
      | _ => simp [Flattens] at h

theorem unfilterAll_decoded (codecs : Codecs) (fuel : Nat) (cs : List (List Value)) :
    ∀ (bs : List (List Char)) (p q : PDFParser) (acc : List Char),
      Decoded codecs fuel p cs bs q →
      unfilterAll codecs fuel cs p acc = .ok (acc ++ bs.flatten, q) := by
  induction cs with
  | nil =>
    intro bs p q acc h
    cases bs with
    | nil =>
      simp only [Decoded] at h
      subst h
      simp [unfilterAll]
    | cons b bs => simp [Decoded] at h
  | cons c cs ih =>
    intro bs p q acc h
    cases bs with
    | nil => simp [Decoded] at h
    | cons b bs =>
      simp only [Decoded] at h
      obtain ⟨p2, hc, hrest⟩ := h
      unfold unfilterAll
      rw [hc]
      simp only
      rw [ih bs p2 q (acc ++ b) hrest]
      simp

theorem _unFilterStream_frame (codecs : Codecs) (fuel : Nat) (p q : PDFParser)
    (c : List Value) (b : List Char) (h : _unFilterStream codecs fuel p c = .ok (b, q)) :
    Frame p q := by
  unfold _unFilterStream at h
  dsimp only at h
  repeat' split at h
  all_goals try cases h
  rename_i hn
  repeat' split at hn
  all_goals try cases hn
  · exact resolveObject_frame _ _ _ _ _ (by assumption)
  · exact Frame.self _
  · exact Frame.self _


theorem FlattensList_frame
    (F : PDFParser → Value → List (List Value) → PDFParser → Prop)
    (hF : ∀ p v cs q, F p v cs q → Frame p q) (xs : List Value) :
    ∀ (p q : PDFParser) (cs : List (List Value)), FlattensList F p xs cs q → Frame p q := by
  induction xs with
  | nil =>
    intro p q cs h
    obtain ⟨_, h2⟩ := h
    subst h2
    exact Frame.self _
  | cons x xs ih =>
    intro p q cs h
    obtain ⟨c1, p2, c2, hx, hrest, _⟩ := h
    exact Frame.step (hF p x c1 p2 hx) (ih p2 q c2 hrest)

theorem Flattens_frame (fuel : Nat) :
    ∀ (n : Nat) (p q : PDFParser) (v : Value) (cs : List (List Value)),
      Flattens fuel n p v cs q → Frame p q := by
  intro n
  induction n with
  | zero =>
    intro p q v cs h
    simp [Flattens] at h
  | succ n ih =>
    intro p q v cs h
    cases v with
    | ObjectRef obj gen =>
      simp only [Flattens] at h
      obtain ⟨decl, p2, hres, hcase⟩ := h
      have hfr := resolveObject_frame fuel p _ _ p2 hres
      rcases hcase with ⟨d, s, rest, _, _, hq⟩ | ⟨xs, rest, _, hrec⟩
      · subst hq
        exact hfr
      · exact Frame.step hfr (ih p2 q (.Array xs) cs hrec)
    | Array xs =>
      simp only [Flattens] at h
      exact FlattensList_frame (Flattens fuel n) (fun p1 v1 cs1 q1 h1 => ih p1 q1 v1 cs1 h1)
        xs p q cs h
    | _ => simp [Flattens] at h

theorem Decoded_own (codecs : Codecs) (fuel : Nat) (cs : List (List Value)) :
    ∀ (bs : List (List Char)) (p q : PDFParser), Decoded codecs fuel p cs bs q →
      bs.length = cs.length ∧
      ∀ (i : Nat) (c : List Value), cs[i]? = some c →
        ∃ b s1 s2, bs[i]? = some b ∧ Frame p s1 ∧
          _unFilterStream codecs fuel s1 c = .ok (b, s2) := by
  induction cs with
  | nil =>
    intro bs p q h
    cases bs with
    | nil => exact ⟨rfl, fun i c hc => by simp at hc⟩
    | cons b bs => simp [Decoded] at h
  | cons c0 cs ih =>
    intro bs p q h
    cases bs with
    | nil => simp [Decoded] at h
    | cons b0 bs =>
      simp only [Decoded] at h
      obtain ⟨p2, hc0, hrest⟩ := h
      obtain ⟨hlen, hget⟩ := ih bs p2 q hrest
      refine ⟨by simp only [List.length_cons, hlen], ?_⟩
      intro i c hc
      cases i with
      | zero =>
        simp only [List.getElem?_cons_zero, Option.some.injEq] at hc
        subst hc
        exact ⟨b0, p, p2, by simp only [List.getElem?_cons_zero], Frame.self _, hc0⟩
      | succ j =>
        simp only [List.getElem?_cons_succ] at hc
        obtain ⟨b, s1, s2, hb, hfr, hrun⟩ := hget j c hc
        exact ⟨b, s1, s2, by simp only [List.getElem?_cons_succ, hb],
          Frame.step (_unFilterStream_frame codecs fuel p p2 c0 b0 hc0) hfr, hrun⟩

theorem _unFilterStream_names (codecs : Codecs) (fuel : Nat) (p : PDFParser) (d : Dictionary)
    (s : List Char) (rest : List Value) (f : Value) (ns : List (List Char))
    (hd : lookup "/Filter".toList d = some f) (hnil : f ≠ .goNil)
    (href : ∀ obj gen, f ≠ .ObjectRef obj gen) (hns : filterNames f = some ns) :
    _unFilterStream codecs fuel p (.Dictionary d :: .Stream s :: rest) =
      match applyFilters codecs s ns with
      | .error e => .error e
      | .ok out => .ok (out, p) := by
  unfold _unFilterStream
  simp only [hd]
  cases f with
  | goNil => exact absurd rfl hnil
  | ObjectRef obj gen => exact absurd rfl (href obj gen)
  | _ => simp only [hns]

theorem _unFilterStream_unfiltered (codecs : Codecs) (fuel : Nat) (p : PDFParser)
    (d : Dictionary) (s : List Char) (rest : List Value)
    (hd : lookup "/Filter".toList d = none) :
    _unFilterStream codecs fuel p (.Dictionary d :: .Stream s :: rest) = .ok ([], p) := by
  unfold _unFilterStream
  simp only [hd, applyFilters]

theorem _unFilterStream_own (codecs : Codecs) (fuel : Nat) (s1 s2 : PDFParser) (d : Dictionary)
    (s : List Char) (rest : List Value) (b : List Char)
    (hnr : ∀ obj gen, lookup "/Filter".toList d ≠ some (.ObjectRef obj gen))
    (h : _unFilterStream codecs fuel s1 (.Dictionary d :: .Stream s :: rest) = .ok (b, s2)) :
    (∃ ns, (match lookup "/Filter".toList d with
        | some f => filterNames f
        | none => some []) = some ns ∧ applyFilters codecs s ns = .ok b) ∧
    ∀ s0 : PDFParser,
      _unFilterStream codecs fuel s0 (.Dictionary d :: .Stream s :: rest) = .ok (b, s0) := by
  cases hd : lookup "/Filter".toList d with
  | none =>
    rw [_unFilterStream_unfiltered codecs fuel s1 d s rest hd] at h
    cases h
    exact ⟨⟨[], rfl, rfl⟩, fun s0 => _unFilterStream_unfiltered codecs fuel s0 d s rest hd⟩
  | some f =>
    have href : ∀ obj gen, f ≠ .ObjectRef obj gen := by
      intro obj gen hf
      rw [hf] at hd
      exact hnr obj gen hd
    have hnil : f ≠ .goNil := by
      intro hf
      subst hf
      unfold _unFilterStream at h
      simp only [hd] at h
      cases h
    cases hns : filterNames f with
    | none =>
      exfalso
      unfold _unFilterStream at h
      simp only [hd] at h
      cases f with
      | goNil => exact hnil rfl
      | ObjectRef obj gen => exact href obj gen rfl
      | _ =>
        simp only [hns] at h
        cases h
    | some ns =>
      rw [_unFilterStream_names codecs fuel s1 d s rest f ns hd hnil href hns] at h
      cases ha : applyFilters codecs s ns with
      | error e =>
        rw [ha] at h
        cases h
      | ok out =>
        rw [ha] at h
        cases h
        refine ⟨⟨ns, hns, ha⟩, fun s0 => ?_⟩
        rw [_unFilterStream_names codecs fuel s0 d s rest f ns hd hnil href hns, ha]

theorem FlattensList_all
    (F : PDFParser → Value → List (List Value) → PDFParser → Prop) (P : List Value → Prop)
    (hF : ∀ p v cs q, F p v cs q → ∀ c ∈ cs, P c) (xs : List Value) :
    ∀ (p q : PDFParser) (cs : List (List Value)), FlattensList F p xs cs q →
      ∀ c ∈ cs, P c := by
  induction xs with
  | nil =>
    intro p q cs h c hc
    obtain ⟨h1, _⟩ := h
    subst h1
    cases hc
  | cons x xs ih =>
    intro p q cs h c hc
    obtain ⟨c1, p2, c2, hx, hrest, hcs⟩ := h
    subst hcs
    rcases List.mem_append.mp hc with h1 | h2
    · exact hF p x c1 p2 hx c h1
    · exact ih p2 q c2 hrest c h2

theorem Flattens_shape (fuel : Nat) :
    ∀ (n : Nat) (p q : PDFParser) (v : Value) (cs : List (List Value)),
      Flattens fuel n p v cs q →
      ∀ c ∈ cs, ∃ d s rest, c = .Dictionary d :: .Stream s :: rest := by
  intro n
  induction n with
  | zero =>
    intro p q v cs h
    simp [Flattens] at h
  | succ n ih =>
    intro p q v cs h
    cases v with
    | ObjectRef obj gen =>
      simp only [Flattens] at h
      obtain ⟨decl, p2, _, hcase⟩ := h
      rcases hcase with ⟨d, s, rest, hv, hcs, _⟩ | ⟨xs, rest, _, hrec⟩
      · intro c hc
        rw [hcs] at hc
        simp only [List.mem_singleton] at hc
        exact ⟨d, s, rest, by rw [hc, hv]⟩
      · exact ih p2 q (.Array xs) cs hrec
    | Array xs =>
      simp only [Flattens] at h
      exact FlattensList_all (Flattens fuel n) _ (fun p1 v1 cs1 q1 h1 => ih p1 q1 v1 cs1 h1)
        xs p q cs h
    | _ => simp [Flattens] at h

/-- C20: let `/Contents` of the selected page be, within nesting height `n`, an
array (possibly nested, possibly reached through a reference) of references
that resolve to (dictionary, stream) objects, with `cs` the values of those
objects in depth-first array order, and let `_unFilterStream` turn each
content of `cs` into the bytes at the same position of `bs`. With a recursion
bound of at least `n`, `getContent` returns no error and the concatenation of
`bs` in that order. The bytes at position `i` are the result of
`_unFilterStream` on the `i`-th content alone, run on a parser over the same
file, xref index and page list as the one the query started from. Every
content is a dictionary followed by a stream, and unless its `/Filter` is a
reference, its bytes are the stream of that content decoded by the filter
names of that content's own dictionary: `_unFilterStream` returns them for
that content from every parser state, whatever was decoded before. -/
theorem getContent_concatenates (codecs : Codecs) (fuel n depth : Nat) (p q q2 : PDFParser)
    (page : PDFPage) (contentRef : Value) (cs : List (List Value)) (bs : List (List Char))
    (hsel : findPage p.pages 0 (p.pageNumber - 1) = some page)
    (hc : lookup "/Contents".toList page.Dictionary = some contentRef)
    (hflat : Flattens fuel n p contentRef cs q) (hn : n ≤ depth)
    (hdec : Decoded codecs fuel q cs bs q2) :
    getContent codecs fuel depth p = .ok ((none, bs.flatten), q2) ∧
    bs.length = cs.length ∧
    (∀ (i : Nat) (c : List Value), cs[i]? = some c →
      ∃ b s1 s2, bs[i]? = some b ∧ Frame p s1 ∧
        _unFilterStream codecs fuel s1 c = .ok (b, s2)) ∧
    ∀ (i : Nat) (c : List Value), cs[i]? = some c →
      ∃ d s rest b, c = .Dictionary d :: .Stream s :: rest ∧ bs[i]? = some b ∧
        ((∀ obj gen, lookup "/Filter".toList d ≠ some (.ObjectRef obj gen)) →
          (∃ ns, (match lookup "/Filter".toList d with
              | some f => filterNames f
              | none => some []) = some ns ∧ applyFilters codecs s ns = .ok b) ∧
          ∀ s0 : PDFParser, _unFilterStream codecs fuel s0 c = .ok (b, s0)) := by
  obtain ⟨hlen, hget⟩ := Decoded_own codecs fuel cs bs q q2 hdec
  refine ⟨?_, hlen, ?_, ?_⟩
  · unfold getContent
    simp only [hsel, hc, _getPageContent_flattens fuel n depth p q contentRef cs hn hflat [],
      List.nil_append, unfilterAll_decoded codecs fuel cs bs q q2 [] hdec]
  · intro i c hci
    obtain ⟨b, s1, s2, hb, hfr, hrun⟩ := hget i c hci
    exact ⟨b, s1, s2, hb, Frame.step (Flattens_frame fuel n p q contentRef cs hflat) hfr, hrun⟩
  · intro i c hci
    obtain ⟨b, s1, s2, hb, _, hrun⟩ := hget i c hci
    obtain ⟨d, s, rest, hshape⟩ :=
      Flattens_shape fuel n p q contentRef cs hflat c (List.mem_iff_getElem?.mpr ⟨i, hci⟩)
    subst hshape
    exact ⟨d, s, rest, b, rfl, hb, fun hnr =>
      _unFilterStream_own codecs fuel s1 s2 d s rest b hnr hrun⟩

theorem twoStreams_flattens :
    Flattens 10 3 twoStreamsParser (.Array [.ObjectRef 4 0, .Array [.ObjectRef 5 0]])
      [[.Dictionary lzwDict, .Stream "abc".toList], [.Dictionary a85Dict, .Stream "xyz".toList]]
      (twoStreamsAfter 5 a85Dict) :=
  ⟨[[.Dictionary lzwDict, .Stream "abc".toList]], twoStreamsAfter 4 lzwDict,
    [[.Dictionary a85Dict, .Stream "xyz".toList]],
    ⟨ObjectDeclaration.mk 4 0 [.Dictionary lzwDict, .Stream "abc".toList],
      twoStreamsAfter 4 lzwDict, by decide!,
      Or.inl ⟨lzwDict, "abc".toList, [], rfl, rfl, rfl⟩⟩,
    ⟨[[.Dictionary a85Dict, .Stream "xyz".toList]], twoStreamsAfter 5 a85Dict, [],
      ⟨[[.Dictionary a85Dict, .Stream "xyz".toList]], twoStreamsAfter 5 a85Dict, [],
        ⟨ObjectDeclaration.mk 5 0 [.Dictionary a85Dict, .Stream "xyz".toList],
          twoStreamsAfter 5 a85Dict, by decide!,
          Or.inl ⟨a85Dict, "xyz".toList, [], rfl, rfl, rfl⟩⟩,
        ⟨rfl, rfl⟩, rfl⟩,
      ⟨rfl, rfl⟩, rfl⟩,
    rfl⟩

theorem twoStreams_decoded :
    Decoded sampleCodecs 10 (twoStreamsAfter 5 a85Dict)
      [[.Dictionary lzwDict, .Stream "abc".toList], [.Dictionary a85Dict, .Stream "xyz".toList]]
      ["ABC".toList, "zyx".toList] (twoStreamsAfter 5 a85Dict) :=
  ⟨twoStreamsAfter 5 a85Dict, by decide!, twoStreamsAfter 5 a85Dict, by decide!, rfl⟩

/-- Witness for C20: `/Contents` is `[4 0 R [5 0 R]]` over `twoStreams`; the
result is the decoding of stream 4 by its own filter followed by the decoding
of stream 5 by its own filter. -/
theorem getContent_concatenates_witness :
    getContent sampleCodecs 10 5 twoStreamsParser =
      .ok ((none, "ABCzyx".toList), twoStreamsAfter 5 a85Dict) :=
  (getContent_concatenates sampleCodecs 10 3 5 twoStreamsParser (twoStreamsAfter 5 a85Dict)
    (twoStreamsAfter 5 a85Dict)
    (PDFPage.mk [("/Contents".toList, .Array [.ObjectRef 4 0, .Array [.ObjectRef 5 0]])] 1)
    (.Array [.ObjectRef 4 0, .Array [.ObjectRef 5 0]])
    [[.Dictionary lzwDict, .Stream "abc".toList], [.Dictionary a85Dict, .Stream "xyz".toList]]
    ["ABC".toList, "zyx".toList] (by decide) (by decide) twoStreams_flattens (by decide)
    twoStreams_decoded).1


/-! ### C21, C22, C23: what `_unFilterStream` applies -/

theorem getContent_single (codecs : Codecs) (fuel depth : Nat) (p q : PDFParser)
    (page : PDFPage) (obj gen : Int) (decl : ObjectDeclaration) (d : Dictionary)
    (s : List Char) (rest : List Value)
    (hsel : findPage p.pages 0 (p.pageNumber - 1) = some page)
    (hc : lookup "/Contents".toList page.Dictionary = some (.ObjectRef obj gen))
    (hres : resolveObject fuel p (.ObjectRef obj gen) = .ok (some decl, q))
    (hvals : decl.Values = .Dictionary d :: .Stream s :: rest) :
    getContent codecs fuel (depth + 1) p =
      match _unFilterStream codecs fuel q decl.Values with
      | .error e => .error e
      | .ok (b, q2) => .ok ((none, b), q2) := by
  unfold getContent
  simp only [hsel, hc]
  unfold _getPageContent
  simp only [hres, hvals, List.nil_append]
  unfold unfilterAll
  cases _unFilterStream codecs fuel q (.Dictionary d :: .Stream s :: rest) with
  | error e => rfl
  | ok r =>
    obtain ⟨b, q2⟩ := r
    simp [unfilterAll]

/-- C21: when the selected page's `/Contents` is a reference to a
(dictionary, stream) object whose dictionary has no `/Filter`, `_unFilterStream`
returns no bytes for it (the nil result after an empty filter loop), whatever
the raw stream bytes `s` are, and `getContent` returns no error and no bytes. -/
theorem getContent_unfiltered_empty (codecs : Codecs) (fuel depth : Nat) (p q : PDFParser)
    (page : PDFPage) (obj gen : Int) (decl : ObjectDeclaration) (d : Dictionary)
    (s : List Char) (rest : List Value)
    (hsel : findPage p.pages 0 (p.pageNumber - 1) = some page)
    (hc : lookup "/Contents".toList page.Dictionary = some (.ObjectRef obj gen))
    (hres : resolveObject fuel p (.ObjectRef obj gen) = .ok (some decl, q))
    (hvals : decl.Values = .Dictionary d :: .Stream s :: rest)
    (hnf : lookup "/Filter".toList d = none) :
    _unFilterStream codecs fuel q decl.Values = .ok ([], q) ∧
    getContent codecs fuel (depth + 1) p = .ok ((none, []), q) := by
  have h1 : _unFilterStream codecs fuel q decl.Values = .ok ([], q) := by
    rw [hvals]
    exact _unFilterStream_unfiltered codecs fuel q d s rest hnf
  refine ⟨h1, ?_⟩
  rw [getContent_single codecs fuel depth p q page obj gen decl d s rest hsel hc hres hvals, h1]

/-- C21 at a concrete input: the content stream of `plainStream` holds the
bytes `abc` and has no `/Filter`; decoding it and reading the page content
both give no bytes. -/
theorem getContent_unfiltered_empty_witness :
    _unFilterStream sampleCodecs 10
        { plainStreamParser with
          currentObject := ObjectDeclaration.mk 4 0 [],
          currentDictionary := [("/Length".toList, .Real 3)] }
        [.Dictionary [("/Length".toList, .Real 3)], .Stream "abc".toList] =
      .ok ([], { plainStreamParser with
          currentObject := ObjectDeclaration.mk 4 0 [],
          currentDictionary := [("/Length".toList, .Real 3)] }) ∧
    getContent sampleCodecs 10 1 plainStreamParser =
      .ok ((none, []), { plainStreamParser with
          currentObject := ObjectDeclaration.mk 4 0 [],
          currentDictionary := [("/Length".toList, .Real 3)] }) :=
  getContent_unfiltered_empty sampleCodecs 10 0 plainStreamParser
    { plainStreamParser with
      currentObject := ObjectDeclaration.mk 4 0 [],
      currentDictionary := [("/Length".toList, .Real 3)] }
    (PDFPage.mk [("/Contents".toList, .ObjectRef 4 0)] 1) 4 0
    (ObjectDeclaration.mk 4 0 [.Dictionary [("/Length".toList, .Real 3)], .Stream "abc".toList])
    [("/Length".toList, .Real 3)] "abc".toList [] (by decide) (by decide) (by decide!) rfl
    (by decide)

/-- C22: for a stream whose `/Filter` is the array
`[/ASCII85Decode /FlateDecode]`, `_unFilterStream` returns the ASCII-85
decoding of the raw bytes: the case of the first name returns, and the inflate
named second is never applied. -/
theorem _unFilterStream_first_filter_only (codecs : Codecs) (fuel : Nat) (p : PDFParser)
    (s : List Char) (rest : List Value) :
    _unFilterStream codecs fuel p
        (.Dictionary [("/Filter".toList,
            .Array [.Token "/ASCII85Decode".toList, .Token "/FlateDecode".toList])] ::
          .Stream s :: rest) =
      .ok (codecs.ascii85Decode s, p) := by
  rw [_unFilterStream_names codecs fuel p _ s rest
    (.Array [.Token "/ASCII85Decode".toList, .Token "/FlateDecode".toList])
    ["/ASCII85Decode".toList, "/FlateDecode".toList] (by decide) (fun h => nomatch h)
    (fun _ _ h => nomatch h) rfl]
  have e1 : ("/ASCII85Decode".toList = "/Fl".toList) = False := by decide
  have e2 : ("/ASCII85Decode".toList = "/FlateDecode".toList) = False := by decide
  have e3 : ("/ASCII85Decode".toList = "/LZWDecode".toList) = False := by decide
  simp only [applyFilters, e1, e2, e3, if_false, if_true]

/-- C23: for a stream whose `/Filter` is the name `/ASCIIHexDecode`,
`_unFilterStream` returns no bytes, whatever the raw bytes are: the hex case
is spelled `ASCIIHexDecode`, without the leading slash that every name token
carries. Only that slash-less spelling reaches the hex decoder, which then
decodes `48 65 6C 6C 6F>` to `Hello` and pads the odd `414` to `A@`. -/
theorem _unFilterStream_hex_name (codecs : Codecs) (fuel : Nat) (p : PDFParser)
    (s : List Char) (rest : List Value) :
    _unFilterStream codecs fuel p
        (.Dictionary [("/Filter".toList, .Token "/ASCIIHexDecode".toList)] ::
          .Stream s :: rest) = .ok ([], p) ∧
    _unFilterStream codecs fuel p
        (.Dictionary [("/Filter".toList, .Token "ASCIIHexDecode".toList)] ::
          .Stream s :: rest) = .ok (asciiHexDecode s, p) ∧
    asciiHexDecode "48 65 6C 6C 6F>".toList = "Hello".toList ∧
    asciiHexDecode "414".toList = "A@".toList := by
  refine ⟨?_, ?_, by decide, by decide⟩
  · rw [_unFilterStream_names codecs fuel p _ s rest (.Token "/ASCIIHexDecode".toList)
      ["/ASCIIHexDecode".toList] (by decide) (fun h => nomatch h) (fun _ _ h => nomatch h) rfl]
    have e1 : ("/ASCIIHexDecode".toList = "/Fl".toList) = False := by decide
    have e2 : ("/ASCIIHexDecode".toList = "/FlateDecode".toList) = False := by decide
    have e3 : ("/ASCIIHexDecode".toList = "/LZWDecode".toList) = False := by decide
    have e4 : ("/ASCIIHexDecode".toList = "/ASCII85Decode".toList) = False := by decide
    have e5 : ("/ASCIIHexDecode".toList = "ASCIIHexDecode".toList) = False := by decide
    simp only [applyFilters, e1, e2, e3, e4, e5, if_false]
  · rw [_unFilterStream_names codecs fuel p _ s rest (.Token "ASCIIHexDecode".toList)
      ["ASCIIHexDecode".toList] (by decide) (fun h => nomatch h) (fun _ _ h => nomatch h) rfl]
    have e1 : ("ASCIIHexDecode".toList = "/Fl".toList) = False := by decide
    have e2 : ("ASCIIHexDecode".toList = "/FlateDecode".toList) = False := by decide
    have e3 : ("ASCIIHexDecode".toList = "/LZWDecode".toList) = False := by decide
    have e4 : ("ASCIIHexDecode".toList = "/ASCII85Decode".toList) = False := by decide
    simp only [applyFilters, e1, e2, e3, e4, if_false, if_true]


/-! ### C24: an unrecognized filter name -/

theorem applyFilters_unrecognized (codecs : Codecs) (s f : List Char)
    (h1 : f ≠ "/FlateDecode".toList) (h2 : f ≠ "/LZWDecode".toList)
    (h3 : f ≠ "/ASCII85Decode".toList) (h4 : f ≠ "ASCIIHexDecode".toList) :
    applyFilters codecs s [f] = .ok [] := by
  unfold applyFilters
  simp only [h1, h2, h3, h4, if_false]
  split <;> simp [applyFilters]

theorem Decoded_append (codecs : Codecs) (fuel : Nat) (cs1 : List (List Value)) :
    ∀ (bs1 : List (List Char)) (p q r : PDFParser) (cs2 : List (List Value))
      (bs2 : List (List Char)),
      Decoded codecs fuel p cs1 bs1 q → Decoded codecs fuel q cs2 bs2 r →
      Decoded codecs fuel p (cs1 ++ cs2) (bs1 ++ bs2) r := by
  induction cs1 with
  | nil =>
    intro bs1 p q r cs2 bs2 h1 h2
    cases bs1 with
    | nil =>
      simp only [Decoded] at h1
      subst h1
      exact h2
    | cons b bs => simp [Decoded] at h1
  | cons c cs ih =>
    intro bs1 p q r cs2 bs2 h1 h2
    cases bs1 with
    | nil => simp [Decoded] at h1
    | cons b bs =>
      simp only [Decoded] at h1
      obtain ⟨p2, hc, hrest⟩ := h1
      simp only [List.cons_append, Decoded]
      exact ⟨p2, hc, ih bs p2 q r cs2 bs2 hrest h2⟩

/-- C24: let `f` be a filter name other than the four names that
`_unFilterStream` decodes, and let a stream's `/Filter` be the single name
`f`. Then `_unFilterStream` returns no bytes for that stream and leaves the
parser as it is. When that stream is one of the contents of the selected page,
between the contents `cs1` decoded to `bs1` and the contents `cs2` decoded to
`bs2`, `getContent` returns without error the concatenation of `bs1` and
`bs2`. -/
theorem getContent_unrecognized_filter (codecs : Codecs) (fuel n depth : Nat)
    (p q q1 q2 : PDFParser) (page : PDFPage) (contentRef : Value)
    (cs1 cs2 : List (List Value)) (bs1 bs2 : List (List Char))
    (d : Dictionary) (s : List Char) (rest : List Value) (f : List Char)
    (hf : f ≠ "/FlateDecode".toList ∧ f ≠ "/LZWDecode".toList ∧
      f ≠ "/ASCII85Decode".toList ∧ f ≠ "ASCIIHexDecode".toList)
    (hd : lookup "/Filter".toList d = some (.Token f))
    (hsel : findPage p.pages 0 (p.pageNumber - 1) = some page)
    (hc : lookup "/Contents".toList page.Dictionary = some contentRef)
    (hflat : Flattens fuel n p contentRef
      (cs1 ++ [.Dictionary d :: .Stream s :: rest] ++ cs2) q)
    (hn : n ≤ depth)
    (hdec1 : Decoded codecs fuel q cs1 bs1 q1) (hdec2 : Decoded codecs fuel q1 cs2 bs2 q2) :
    (∀ p0, _unFilterStream codecs fuel p0 (.Dictionary d :: .Stream s :: rest) = .ok ([], p0)) ∧
    getContent codecs fuel depth p = .ok ((none, bs1.flatten ++ bs2.flatten), q2) := by
  have hone : ∀ p0,
      _unFilterStream codecs fuel p0 (.Dictionary d :: .Stream s :: rest) = .ok ([], p0) := by
    intro p0
    rw [_unFilterStream_names codecs fuel p0 d s rest (.Token f) [f] hd (fun h => nomatch h)
      (fun _ _ h => nomatch h) rfl,
      applyFilters_unrecognized codecs s f hf.1 hf.2.1 hf.2.2.1 hf.2.2.2]
  refine ⟨hone, ?_⟩
  have hmid : Decoded codecs fuel q1 [.Dictionary d :: .Stream s :: rest] [[]] q1 :=
    ⟨q1, hone q1, rfl⟩
  have hall := Decoded_append codecs fuel (cs1 ++ [.Dictionary d :: .Stream s :: rest])
    (bs1 ++ [[]]) q q1 q2 cs2 bs2
    (Decoded_append codecs fuel cs1 bs1 q q1 q1 _ _ hdec1 hmid) hdec2
  unfold getContent
  simp only [hsel, hc, _getPageContent_flattens fuel n depth p q contentRef _ hn hflat [],
    List.nil_append, unfilterAll_decoded codecs fuel _ _ q q2 [] hall]
  simp


theorem threeStreams_flattens :
    Flattens 10 2 threeStreamsParser (.Array [.ObjectRef 4 0, .ObjectRef 6 0, .ObjectRef 5 0])
      ([[.Dictionary lzwDict, .Stream "abc".toList]] ++
        [.Dictionary dctStreamDict :: .Stream "qq".toList :: []] ++
        [[.Dictionary a85Dict, .Stream "xyz".toList]])
      (threeStreamsAfter 5 a85Dict) :=
  ⟨[[.Dictionary lzwDict, .Stream "abc".toList]], threeStreamsAfter 4 lzwDict, _,
    ⟨ObjectDeclaration.mk 4 0 [.Dictionary lzwDict, .Stream "abc".toList],
      threeStreamsAfter 4 lzwDict, by decide!,
      Or.inl ⟨lzwDict, "abc".toList, [], rfl, rfl, rfl⟩⟩,
    ⟨[[.Dictionary dctStreamDict, .Stream "qq".toList]], threeStreamsAfter 6 dctStreamDict, _,
      ⟨ObjectDeclaration.mk 6 0 [.Dictionary dctStreamDict, .Stream "qq".toList],
        threeStreamsAfter 6 dctStreamDict, by decide!,
        Or.inl ⟨dctStreamDict, "qq".toList, [], rfl, rfl, rfl⟩⟩,
      ⟨[[.Dictionary a85Dict, .Stream "xyz".toList]], threeStreamsAfter 5 a85Dict, [],
        ⟨ObjectDeclaration.mk 5 0 [.Dictionary a85Dict, .Stream "xyz".toList],
          threeStreamsAfter 5 a85Dict, by decide!,
          Or.inl ⟨a85Dict, "xyz".toList, [], rfl, rfl, rfl⟩⟩,
        ⟨rfl, rfl⟩, rfl⟩,
      rfl⟩,
    rfl⟩

/-- Witness for C24: `/Contents` is `[4 0 R 6 0 R 5 0 R]` over `threeStreams`;
stream 6 names the filter `/DCTDecode` and contributes nothing, the result is
the decoding of stream 4 followed by the decoding of stream 5. -/
theorem getContent_unrecognized_filter_witness :
    getContent sampleCodecs 10 5 threeStreamsParser =
      .ok ((none, "ABCzyx".toList), threeStreamsAfter 5 a85Dict) :=
  (getContent_unrecognized_filter sampleCodecs 10 2 5 threeStreamsParser
    (threeStreamsAfter 5 a85Dict) (threeStreamsAfter 5 a85Dict) (threeStreamsAfter 5 a85Dict)
    (PDFPage.mk
      [("/Contents".toList, .Array [.ObjectRef 4 0, .ObjectRef 6 0, .ObjectRef 5 0])] 1)
    (.Array [.ObjectRef 4 0, .ObjectRef 6 0, .ObjectRef 5 0])
    [[.Dictionary lzwDict, .Stream "abc".toList]] [[.Dictionary a85Dict, .Stream "xyz".toList]]
    ["ABC".toList] ["zyx".toList] dctStreamDict "qq".toList [] "/DCTDecode".toList
    (by decide) (by decide) (by decide) (by decide) threeStreams_flattens (by decide)
    ⟨threeStreamsAfter 5 a85Dict, by decide!, rfl⟩
    ⟨threeStreamsAfter 5 a85Dict, by decide!, rfl⟩).2


/-! ### C25: an array that is not closed before the end of input -/

theorem readPlain_empty (p : PDFParser) : readPlain p [] = .ok (.Token [], p) := by
  have ha : Atoi [] = (0, false) := by decide
  have hf : ParseFloat [] = none := by decide
  have e1 : (([] : List Char) = "true".toList) = False := by decide
  have e2 : (([] : List Char) = "false".toList) = False := by decide
  have e3 : (([] : List Char) = "null".toList) = False := by decide
  unfold readPlain
  simp only [ha, hf, e1, e2, e3, if_false, Bool.false_eq_true]

theorem ReadToken_at_end (r : PDFTokenReader) (h : r.remaining = []) :
    r.ReadToken = (if r.nilAtEOF = true then none else some [], r) := by
  unfold PDFTokenReader.ReadToken PDFTokenReader.scanToken
  simp only [h, List.takeWhile_nil, List.dropWhile_nil, List.length_nil, Nat.add_zero,
    true_and]
  split <;> rfl

theorem readValue_at_end (f : Nat) (p : PDFParser) (t : Option Token)
    (h : p.reader.remaining = []) (ht : t = none ∨ t = some []) :
    readValue (f + 1) p t = .ok (.Token [], p) := by
  rw [readValue]
  unfold readValueBody readValueAt
  rcases ht with ht | ht
  · subst ht
    simp only [ReadToken_at_end p.reader h]
    split <;> simp [readPlain_empty]
  · subst ht
    simp [readPlain_empty]

theorem readArray_at_end (f : Nat) (p : PDFParser) (h : p.reader.remaining = []) :
    ∀ (n : Nat) (acc : List Value), readArray (readValue f) n p acc = .error .fuel := by
  intro n
  induction n with
  | zero => intro acc; rfl
  | succ n ih =>
    intro acc
    unfold readArray
    simp only [ReadToken_at_end p.reader h]
    cases f with
    | zero => split <;> simp [readValue]
    | succ g =>
      have hp : ({ p with reader := p.reader } : PDFParser) = p := rfl
      by_cases hb : p.reader.nilAtEOF = true
      · simp only [hb, if_true]
        rw [hp, readValue_at_end g p none h (Or.inl rfl)]
        simp only [ih]
        simp
      · simp only [hb, if_false, Bool.false_eq_true]
        rw [hp, readValue_at_end g p (some []) h (Or.inr rfl)]
        simp only [ih]
        simp


theorem readValue_plain (f : Nat) (p : PDFParser) (t : Option Token) (str : List Char)
    (r : PDFTokenReader)
    (htk : (match t with
      | none => p.reader.ReadToken
      | some t => (some t, p.reader)) = (some str, r))
    (h1 : str ≠ ['<']) (h2 : str ≠ ['<', '<']) (h3 : str ≠ ['[']) (h4 : str ≠ ['('])
    (h5 : str ≠ "stream".toList) :
    readValue (f + 1) p t = readPlain { p with reader := r } str := by
  rw [readValue]
  unfold readValueBody readValueAt
  simp only [htk, Option.getD_some, h1, h2, h3, h4, h5, if_false]

theorem readValue_array_eq (f : Nat) (p : PDFParser) (t : Option Token) (r : PDFTokenReader)
    (htk : (match t with
      | none => p.reader.ReadToken
      | some t => (some t, p.reader)) = (some ['['], r)) :
    readValue (f + 1) p t = readArray (readValue f) f { p with reader := r } [] := by
  rw [readValue]
  unfold readValueBody readValueAt
  simp [htk]

theorem resolveObjectWith_body_error (rv : PDFParser → Option Token → Res Value) (n : Nat)
    (p p1 : PDFParser) (obj gen offset : Int) (e : Fault)
    (hlook : lookup (ObjectRef.mk obj gen) p.xref.xref = some offset)
    (hhdr : rv { p with reader := ((p.reader.Seek 0 1).2.Seek offset 0).2 } none =
      .ok (.ObjectRef obj gen, p1))
    (hbody : rv { p1 with currentObject := ObjectDeclaration.mk obj gen [] } none = .error e) :
    resolveObjectWith rv (n + 1) p (.ObjectRef obj gen) = .error e := by
  unfold resolveObjectWith
  simp only [hlook]
  rw [hhdr]
  simp only [headerIs, and_self, decide_True, if_true, readDeclaration]
  unfold readObjectValues
  rw [hbody]

/-- C25: on the input `1 0 obj [`, which ends inside an array, `resolveObject`
for the indexed object `1 0` returns no result for any amount of fuel: each
turn of the array loop reads an empty token at the end of input, which is
neither `]` nor a failure, and appends it. This holds whether `ReadToken`
returns an empty token or nil at the end of input. -/
theorem resolveObject_unclosed_array (fuel : Nat) (nilAtEOF : Bool) :
    resolveObject fuel (unclosedArrayParser nilAtEOF) (.ObjectRef 1 0) = .error .fuel := by
  cases fuel with
  | zero => cases nilAtEOF <;> decide!
  | succ f =>
    unfold resolveObject
    cases nilAtEOF with
    | false =>
      exact resolveObjectWith_body_error (readValue (f + 1)) f (unclosedArrayParser false)
        { unclosedArrayParser false with
          reader := PDFTokenReader.mk unclosedArray.toList 7 false } 1 0 0 .fuel (by decide)
        ((readValue_plain f _ none "1".toList (PDFTokenReader.mk unclosedArray.toList 1 false)
          (by decide!) (by decide) (by decide) (by decide) (by decide) (by decide)).trans
          (by decide!))
        ((readValue_array_eq f _ none (PDFTokenReader.mk unclosedArray.toList 9 false)
          (by decide!)).trans (readArray_at_end f _ (by decide) f []))
    | true =>
      exact resolveObjectWith_body_error (readValue (f + 1)) f (unclosedArrayParser true)
        { unclosedArrayParser true with
          reader := PDFTokenReader.mk unclosedArray.toList 7 true } 1 0 0 .fuel (by decide)
        ((readValue_plain f _ none "1".toList (PDFTokenReader.mk unclosedArray.toList 1 true)
          (by decide!) (by decide) (by decide) (by decide) (by decide) (by decide)).trans
          (by decide!))
        ((readValue_array_eq f _ none (PDFTokenReader.mk unclosedArray.toList 9 true)
          (by decide!)).trans (readArray_at_end f _ (by decide) f []))


/-! ### C26: escapes in literal strings -/

theorem readStringBytes_escape (pre : List Char) :
    ∀ (post : List Char) (x : Char) (ob : Int) (buf : List Char) (used : Nat),
      (∀ c ∈ pre, c.toNat ≠ 0x5C) → 0 < ob →
      readStringBytes (pre ++ backslash :: x :: post) ob buf used =
        readStringBytes post (ob + (pre.countP isParen : Nat)) (buf ++ pre ++ [x])
          (used + pre.length + 2) := by
  induction pre with
  | nil =>
    intro post x ob buf used _ hob
    rw [readStringBytes.eq_def]
    have e1 : (backslash.toNat = 0x28) = False := by decide
    have e2 : (backslash.toNat = 0x29) = False := by decide
    have e3 : (backslash.toNat = 0x5C) = True := by decide
    simp only [List.nil_append, gt_iff_lt, hob, if_true, e1, e2, e3, if_false,
      List.countP_nil, Nat.cast_zero, add_zero, List.append_nil, List.length_nil]
  | cons c pre ih =>
    intro post x ob buf used hpre hob
    have hc : c.toNat ≠ 0x5C := hpre c (List.mem_cons_self c pre)
    have hrest : ∀ c1 ∈ pre, c1.toNat ≠ 0x5C := fun c1 h1 => hpre c1 (List.mem_cons_of_mem c h1)
    rw [List.cons_append, readStringBytes.eq_def]
    simp only [gt_iff_lt, hob, if_true, hc, if_false]
    by_cases h28 : c.toNat = 0x28
    · have hp : isParen c = true := by simp [isParen, h28]
      simp only [h28, if_true]
      rw [ih post x (ob + 1) (buf ++ [c]) (used + 1) hrest (by omega)]
      simp only [List.countP_cons, hp, if_true, List.length_cons, List.append_assoc,
        List.singleton_append]
      push_cast
      congr 1 <;> omega
    · by_cases h29 : c.toNat = 0x29
      · have hp : isParen c = true := by simp [isParen, h29]
        simp only [h28, h29, if_true, if_false]
        rw [ih post x (ob + 1) (buf ++ [c]) (used + 1) hrest (by omega)]
        simp only [List.countP_cons, hp, if_true, List.length_cons, List.append_assoc,
          List.singleton_append]
        push_cast
        congr 1 <;> omega
      · have hp : isParen c = false := by simp [isParen, h28, h29]
        simp only [h28, h29, if_false]
        rw [ih post x ob (buf ++ [c]) (used + 1) hrest hob]
        simp only [List.countP_cons, hp, List.length_cons, List.append_assoc,
          List.singleton_append]
        simp
        congr 1
        omega

theorem readStringBytes_buffer (m : Nat) :
    ∀ (rest : List Char) (ob : Int) (buf : List Char) (used : Nat), rest.length ≤ m →
      (readStringBytes rest ob buf used).1 = buf ++ (readStringBytes rest ob [] 0).1 := by
  induction m with
  | zero =>
    intro rest ob buf used hlen
    have : rest = [] := List.length_eq_zero.mp (by omega)
    subst this
    rw [readStringBytes.eq_def, readStringBytes.eq_def [] ob [] 0]
    split <;> simp
  | succ m ih =>
    intro rest ob buf used hlen
    cases rest with
    | nil =>
      rw [readStringBytes.eq_def, readStringBytes.eq_def [] ob [] 0]
      split <;> simp
    | cons b rest1 =>
      have h1 : rest1.length ≤ m := by simpa using hlen
      rw [readStringBytes.eq_def, readStringBytes.eq_def (b :: rest1) ob [] 0]
      by_cases hob : ob > 0
      · simp only [hob, if_true]
        split
        · rw [ih rest1 _ (buf ++ [b]) _ h1, ih rest1 _ ([] ++ [b]) _ h1]
          simp
        · split
          · rw [ih rest1 _ (buf ++ [b]) _ h1, ih rest1 _ ([] ++ [b]) _ h1]
            simp
          · split
            · cases rest1 with
              | nil => simp
              | cons b2 rest2 =>
                have h2 : rest2.length ≤ m := by simp at h1; omega
                simp only
                rw [ih rest2 _ (buf ++ [b2]) _ h2, ih rest2 _ ([] ++ [b2]) _ h2]
                simp
            · rw [ih rest1 _ (buf ++ [b]) _ h1, ih rest1 _ ([] ++ [b]) _ h1]
              simp
      · simp [hob]


/-- C26, counterexample: the body of `(a\nb)` holds a backslash followed by
`n`; the string returned is `anb)`, without the backslash. -/
theorem readValue_string_escape_counterexample :
    readValue 3 (sampleParser escapeSample 0 []) none =
      .ok (.String "anb)".toList, sampleParser escapeSample 6 []) := by
  decide!

/-- C26, amended: when the bytes after `(` are `pre`, free of backslashes,
then a backslash, then a byte `x`, then `post`, the string returned by
`readValue` is `pre`, then `x` in place of the pair (the backslash is not
kept), then what the loop accumulates from `post`; the loop continues on
`post` with the nesting counter it had before the pair, whatever `x` is, so an
escaped `(` or `)` does not change the nesting depth. -/
theorem readValue_string_drops_backslash (fuel : Nat) (p : PDFParser) (pre post : List Char)
    (x : Char) (hrem : p.reader.remaining = pre ++ backslash :: x :: post)
    (hpre : ∀ c ∈ pre, c.toNat ≠ 0x5C) :
    ∃ tail, readValue (fuel + 1) p (some ['(']) =
        .ok (.String (pre ++ x :: tail),
          { p with reader := p.reader.SkipBytes p.reader.remaining.length }) ∧
      tail = (readStringBytes post (1 + (pre.countP isParen : Nat)) [] 0).1 := by
  refine ⟨_, ?_, rfl⟩
  have hlen := readStringBytes_consumes_all p.reader.remaining.length
    p.reader.remaining 1 [] 0 (le_refl _) (by decide)
  have hbuf := readStringBytes_escape pre post x 1 [] 0 hpre (by decide)
  rw [← hrem] at hbuf
  have hfst : (readStringBytes p.reader.remaining 1 [] 0).1 =
      pre ++ x :: (readStringBytes post (1 + (pre.countP isParen : Nat)) [] 0).1 := by
    rw [hbuf, readStringBytes_buffer post.length post _ _ _ (le_refl _)]
    simp
  rw [readValue, readValueBody, readValueAt]
  simp only [Nat.zero_add] at hlen
  simp [hlen, hfst]

/-- Witness for the amended C26 on `(a\nb)`, with the cursor after `(`. -/
theorem readValue_string_drops_backslash_witness :
    ∃ tail, readValue 3 (sampleParser escapeSample 1 []) (some ['(']) =
        .ok (.String ("a".toList ++ 'n' :: tail),
          { sampleParser escapeSample 1 [] with
            reader := (sampleParser escapeSample 1 []).reader.SkipBytes
              (sampleParser escapeSample 1 []).reader.remaining.length }) ∧
      tail = (readStringBytes "b)".toList (1 + (("a".toList).countP isParen : Nat)) [] 0).1 :=
  readValue_string_drops_backslash 2 (sampleParser escapeSample 1 []) "a".toList "b)".toList 'n'
    (by decide) (by decide)


/-! ### C27: white space in front of stream data -/

theorem readStream_skips_whitespace (rv : PDFParser → Option Token → Res Value) (fuel : Nat)
    (p : PDFParser) (n : ℚ) (hlen : p.currentDictionary.get "/Length".toList = .Real n) :
    ∃ q, readStream rv fuel p =
      .ok (.Stream
        ((p.reader.remaining.drop
          ((p.reader.Peek 32).takeWhile isPdfWhitespace).length).take (floatToInt n).toNat), q) := by
  have h : ((skipStreamWhitespace p.reader).ReadBytes (floatToInt n)).1 =
      (p.reader.remaining.drop
        ((p.reader.Peek 32).takeWhile isPdfWhitespace).length).take (floatToInt n).toNat := by
    simp only [PDFTokenReader.ReadBytes, skipStreamWhitespace, PDFTokenReader.SkipBytes,
      PDFTokenReader.remaining, List.drop_drop]
  unfold readStream
  simp only [hlen]
  exact ⟨_, by rw [h]⟩

/-- C27: the stream of `spaceStream` has `/Length 3` and the data bytes space,
`a`, `b` after the line break that follows `stream`. `readValue` skips the
space together with the line break and returns the three bytes `a`, `b`, line
feed: the data is not returned intact. -/
theorem resolveObject_stream_leading_space :
    resolveObject 10 (sampleParser spaceStream 0 spaceStreamXref) (.ObjectRef 1 0) =
      .ok (some (ObjectDeclaration.mk 1 0
          [.Dictionary [("/Length".toList, .Real 3)], .Stream "ab\n".toList]),
        { sampleParser spaceStream 0 spaceStreamXref with
          currentObject := ObjectDeclaration.mk 1 0 [],
          currentDictionary := [("/Length".toList, .Real 3)] }) := by
  decide!


/-! ### C28: the variant returned for a number -/

theorem readPlain_not_numeric (p q : PDFParser) (str : List Char) (v : Value)
    (h : readPlain p str = .ok (v, q)) : ∀ m, v ≠ .Numeric m := by
  intro m
  unfold readPlain at h
  dsimp only at h
  by_cases ha : (Atoi str).2 = true
  · have hnum : ∀ q0 : PDFParser, numericValue q0 str (Atoi str).1 =
        .ok (.Real (float64OfInt (Atoi str).1), q0) :=
      fun q0 => numericValue_of_Atoi q0 str (Atoi str).1 (by rw [← ha])
    simp only [ha, if_true, hnum] at h
    repeat' split at h
    all_goals cases h
    all_goals (intro hv; cases hv)
  · simp only [ha, if_false, Bool.false_eq_true] at h
    split at h
    · obtain ⟨_, r, hr⟩ := realValue_ok _ _ _ _ h
      rw [hr]
      intro hv
      cases hv
    · repeat' split at h
      all_goals cases h
      all_goals (intro hv; cases hv)

theorem readDictionary_kind (rv : PDFParser → Option Token → Res Value) :
    ∀ (n : Nat) (p q : PDFParser) (acc : Dictionary) (v : Value),
      readDictionary rv n p acc = .ok (v, q) → v = .goNil ∨ ∃ d, v = .Dictionary d := by
  intro n
  induction n with
  | zero =>
    intro p q acc v h
    simp [readDictionary] at h
  | succ n ih =>
    intro p q acc v h
    unfold readDictionary at h
    dsimp only at h
    repeat' split at h
    all_goals try cases h
    all_goals first
      | exact Or.inl rfl
      | exact Or.inr ⟨_, rfl⟩
      | exact ih _ _ _ _ h

theorem readArray_kind (rv : PDFParser → Option Token → Res Value) :
    ∀ (n : Nat) (p q : PDFParser) (acc : List Value) (v : Value),
      readArray rv n p acc = .ok (v, q) → ∃ xs, v = .Array xs := by
  intro n
  induction n with
  | zero =>
    intro p q acc v h
    simp [readArray] at h
  | succ n ih =>
    intro p q acc v h
    unfold readArray at h
    dsimp only at h
    repeat' split at h
    all_goals try cases h
    all_goals first
      | exact ⟨_, rfl⟩
      | exact ih _ _ _ _ h

theorem readStream_kind (rv : PDFParser → Option Token → Res Value) (fuel : Nat)
    (p q : PDFParser) (v : Value) (h : readStream rv fuel p = .ok (v, q)) :
    ∃ s, v = .Stream s := by
  unfold readStream at h
  dsimp only at h
  repeat' split at h
  all_goals try cases h
  all_goals exact ⟨_, rfl⟩

theorem readValueAt_not_numeric (rv : PDFParser → Option Token → Res Value) (fuel : Nat)
    (p q : PDFParser) (str : List Char) (v : Value)
    (h : readValueAt rv fuel p str = .ok (v, q)) : ∀ m, v ≠ .Numeric m := by
  intro m hv
  subst hv
  unfold readValueAt at h
  dsimp only at h
  repeat' split at h
  · cases h
  · rcases readDictionary_kind rv fuel p q [] _ h with h1 | ⟨d, h1⟩ <;> cases h1
  · obtain ⟨xs, h1⟩ := readArray_kind rv fuel p q [] _ h
    cases h1
  · cases h
  · obtain ⟨s, h1⟩ := readStream_kind rv fuel p q _ h
    cases h1
  · exact readPlain_not_numeric p q str _ h m rfl

theorem readPlain_header (p : PDFParser) (str : List Char) (n : Int) (t0 t1 : Token)
    (hn : Atoi str = (n, true)) (hp : p.reader.PeekTokens 2 = [t0, t1])
    (h0 : (Atoi t0).2 = true) (h1 : t1 = "obj".toList ∨ t1 = ['R']) :
    readPlain p str =
      .ok (.ObjectRef n (Atoi t0).1,
        { p with reader := (PDFTokenReader.ReadTokens 2 p.reader).2 }) := by
  unfold readPlain
  simp only [hn, if_true, hp, h0, h1, true_and]

theorem readPlain_alone (p : PDFParser) (str : List Char) (n : Int)
    (hn : Atoi str = (n, true))
    (hno : ¬ ∃ t0 t1, p.reader.PeekTokens 2 = [t0, t1] ∧ (Atoi t0).2 = true ∧
      (t1 = "obj".toList ∨ t1 = ['R'])) :
    readPlain p str = .ok (.Real (float64OfInt n), p) := by
  unfold readPlain
  simp only [hn, if_true, numericValue_of_Atoi p str n hn]
  split
  · rename_i t0 t1 hp
    split
    · rename_i hc
      exact absurd ⟨t0, t1, hp, hc.1, hc.2⟩ hno
    · rfl
  · rfl

/-- C28, counterexample: the token `42` parses as the integer 42 and is not
followed by anything, yet `readValue` returns `Real 42`, not `Numeric 42`. -/
theorem readValue_integer_token_counterexample :
    readValue 2 (sampleParser integerSample 0 []) none =
      .ok (.Real 42, sampleParser integerSample 2 []) := by
  decide!

/-- C28, amended: `readValue` tries the integer parse first, but returns the
`Real` variant for an integer token too. For every token that parses as the
decimal integer `n`: when the next two tokens are an integer `g` and then
`obj` or `R` (the token starts an object header or reference) `readValue`
returns `ObjectRef n g`; in every other case it returns the `Real` of the
`float64` nearest to `n`, which is `n` itself whenever `|n| ≤ 2 ^ 53`, with
the state unchanged. The float parse that follows the integer parse succeeds
on every integer token, and the `Numeric` variant is returned by no call of
`readValue` at all. -/
theorem readValue_integer_is_real (fuel : Nat) (p : PDFParser) (str : List Char) (n : Int)
    (hn : Atoi str = (n, true)) :
    (∀ t0 t1, p.reader.PeekTokens 2 = [t0, t1] → (Atoi t0).2 = true →
        (t1 = "obj".toList ∨ t1 = ['R']) →
        readValue (fuel + 1) p (some str) =
          .ok (.ObjectRef n (Atoi t0).1,
            { p with reader := (PDFTokenReader.ReadTokens 2 p.reader).2 })) ∧
    ((¬ ∃ t0 t1, p.reader.PeekTokens 2 = [t0, t1] ∧ (Atoi t0).2 = true ∧
          (t1 = "obj".toList ∨ t1 = ['R'])) →
        readValue (fuel + 1) p (some str) = .ok (.Real (float64OfInt n), p)) ∧
    (n.natAbs ≤ 2 ^ 53 → float64OfInt n = (n : ℚ)) ∧
    ParseFloat str = some (.finite (float64OfInt n)) ∧
    (∀ (f : Nat) (p1 q1 : PDFParser) (t : Option Token) (v : Value),
      readValue f p1 t = .ok (v, q1) → ∀ m, v ≠ .Numeric m) := by
  have hok : (Atoi str).2 = true := by rw [hn]
  obtain ⟨k1, k2, k3, k4, k5⟩ := Atoi_ok_not_keyword str hok
  have hrv : readValue (fuel + 1) p (some str) = readPlain p str :=
    readValue_plain fuel p (some str) str p.reader rfl k1 k2 k3 k4 k5
  refine ⟨?_, ?_, float64OfInt_exact n, ParseFloat_of_Atoi str n hn, ?_⟩
  · intro t0 t1 hp h0 h1
    rw [hrv]
    exact readPlain_header p str n t0 t1 hn hp h0 h1
  · intro hno
    rw [hrv]
    exact readPlain_alone p str n hn hno
  · intro f p1 q1 t v h
    cases f with
    | zero => simp [readValue] at h
    | succ g =>
      rw [readValue] at h
      unfold readValueBody at h
      exact readValueAt_not_numeric _ g _ q1 _ v h

/-- Witness for the amended C28 on the token `42`, with nothing after it. -/
theorem readValue_integer_is_real_witness :
    readValue 2 (sampleParser integerSample 2 []) (some "42".toList) =
        .ok (.Real (float64OfInt 42), sampleParser integerSample 2 []) ∧
      float64OfInt 42 = ((42 : Int) : ℚ) :=
  ⟨(readValue_integer_is_real 1 (sampleParser integerSample 2 []) "42".toList 42
      (by decide)).2.1 (fun ⟨t0, t1, hp, _, _⟩ => by
        have e : (sampleParser integerSample 2 []).reader.PeekTokens 2 = [] := by decide
        rw [e] at hp
        cases hp),
    (readValue_integer_is_real 1 (sampleParser integerSample 2 []) "42".toList 42
      (by decide)).2.2.1 (by decide)⟩


/-! ### C29: the current dictionary after a dictionary has been read -/

theorem readPlain_keeps (p q : PDFParser) (str : List Char) (v : Value)
    (h : readPlain p str = .ok (v, q)) : q.currentDictionary = p.currentDictionary := by
  unfold readPlain at h
  dsimp only at h
  split at h
  · split at h
    · split at h
      · cases h; rfl
      · rw [(numericValue_ok _ _ _ _ _ h).1]
    · rw [(numericValue_ok _ _ _ _ _ h).1]
  · split at h
    · rw [(realValue_ok _ _ _ _ h).1]
    · repeat' split at h
      all_goals cases h
      all_goals rfl

theorem readValueAt_token_keeps (rv : PDFParser → Option Token → Res Value) (fuel : Nat)
    (p q : PDFParser) (str tok : List Char)
    (h : readValueAt rv fuel p str = .ok (.Token tok, q)) :
    q.currentDictionary = p.currentDictionary := by
  unfold readValueAt at h
  dsimp only at h
  repeat' split at h
  · cases h
  · rcases readDictionary_kind rv fuel p q [] _ h with h1 | ⟨d, h1⟩ <;> cases h1
  · obtain ⟨xs, h1⟩ := readArray_kind rv fuel p q [] _ h
    cases h1
  · cases h
  · obtain ⟨s, h1⟩ := readStream_kind rv fuel p q _ h
    cases h1
  · exact readPlain_keeps p q str _ h

theorem readValue_token_keeps (f : Nat) (p q : PDFParser) (t : Option Token) (tok : List Char)
    (h : readValue f p t = .ok (.Token tok, q)) :
    q.currentDictionary = p.currentDictionary := by
  cases f with
  | zero => simp [readValue] at h
  | succ g =>
    rw [readValue] at h
    unfold readValueBody at h
    have hk := readValueAt_token_keeps _ g _ q _ tok h
    exact hk

theorem EntriesRead_current (rv : PDFParser → Option Token → Res Value)
    (es : List (Token × Value)) :
    ∀ (p q : PDFParser) (acc : Dictionary), EntriesRead rv p acc es q →
      p.currentDictionary = acc →
      q.currentDictionary = es.foldl (fun d e => mapSet e.1 e.2 d) acc := by
  induction es with
  | nil =>
    intro p q acc h hp
    simp only [EntriesRead] at h
    subst h
    exact hp
  | cons e es ih =>
    intro p q acc h _
    obtain ⟨k, v⟩ := e
    simp only [EntriesRead] at h
    obtain ⟨_, _, _, _, p2, _, hrest⟩ := h
    exact ih _ q _ hrest rfl

theorem EntriesRead_current_nonempty (rv : PDFParser → Option Token → Res Value)
    (es : List (Token × Value)) (p q : PDFParser) (h : EntriesRead rv p [] es q)
    (hne : es ≠ []) : q.currentDictionary = dictOf es := by
  cases es with
  | nil => exact absurd rfl hne
  | cons e es =>
    obtain ⟨k, v⟩ := e
    simp only [EntriesRead] at h
    obtain ⟨_, _, _, _, p2, _, hrest⟩ := h
    exact EntriesRead_current rv es _ q _ hrest rfl

theorem foldl_mapSet_nonempty (es : List (Token × Value)) :
    ∀ acc : Dictionary, es ≠ [] →
      (es.foldl (fun d e => mapSet e.1 e.2 d) acc).isEmpty = false := by
  induction es with
  | nil => intro acc h; exact absurd rfl h
  | cons e es ih =>
    intro acc _
    cases es with
    | nil => simp [mapSet]
    | cons e2 es2 => exact ih _ (by simp)

/-- C29, counterexample: in `<< /A 1 >> << >> << /K >>` the first dictionary
becomes the current dictionary; reading `<< >>` next returns the empty
dictionary and reading `<< /K >>` after it returns the dictionary that maps
`/K` to `Null`, and both leave the first dictionary in place as the current
dictionary. -/
theorem readValue_dictionary_stale_counterexample :
    readValue 4 (sampleParser staleDictSample 0 []) none =
      .ok (.Dictionary [("/A".toList, .Real 1)],
        { sampleParser staleDictSample 10 [] with
          currentDictionary := [("/A".toList, .Real 1)] }) ∧
    readValue 4
        { sampleParser staleDictSample 10 [] with
          currentDictionary := [("/A".toList, .Real 1)] } none =
      .ok (.Dictionary [],
        { sampleParser staleDictSample 16 [] with
          currentDictionary := [("/A".toList, .Real 1)] }) ∧
    readValue 4
        { sampleParser staleDictSample 16 [] with
          currentDictionary := [("/A".toList, .Real 1)] } none =
      .ok (.Dictionary [("/K".toList, .Null)],
        { sampleParser staleDictSample 25 [] with
          currentDictionary := [("/A".toList, .Real 1)] }) := by
  decide!

/-- C29, amended: let `readValue` on `<<` read the entries `es`, each a key
followed by a value. If at least one entry was read, the current dictionary
after the call equals the dictionary returned, both when the dictionary is
closed by `>>` and when a further key is followed by `>>` in place of its
value (an entry whose value is a nested dictionary included). If no entry was
read, as for `<< >>` and for a dictionary whose only key lacks a value, the
current dictionary is left as it was before the call. -/
theorem readValue_dictionary_current (fuel : Nat) (parser q : PDFParser)
    (es : List (Token × Value))
    (hes : EntriesRead (readValue fuel) parser [] es q) (hfuel : es.length < fuel) :
    (∀ r, q.reader.ReadToken = (some ['>', '>'], r) →
      ∃ s, readValue (fuel + 1) parser (some ['<', '<']) =
          .ok (.Dictionary (dictOf es), s) ∧
        s.currentDictionary =
          if es.isEmpty then parser.currentDictionary else dictOf es) ∧
    (∀ key r q2, q.reader.ReadToken = (some key, r) → key ≠ ['>', '>'] →
      readValue fuel { q with reader := r } none = .ok (.Token ['>', '>'], q2) →
      ∃ s, readValue (fuel + 1) parser (some ['<', '<']) =
          .ok (.Dictionary (mapSet key Value.Null (dictOf es)), s) ∧
        s.currentDictionary =
          if es.isEmpty then parser.currentDictionary
          else mapSet key Value.Null (dictOf es)) := by
  obtain ⟨m, hm⟩ : ∃ m, fuel = es.length + (m + 1) := ⟨fuel - es.length - 1, by omega⟩
  have hrun := readDictionary_entries (readValue fuel) es (m + 1) parser [] q hes
  rw [← hm] at hrun
  constructor
  · intro r hr
    refine ⟨{ q with reader := r }, ?_, ?_⟩
    · rw [readValue_dictionary_eq, hrun]
      exact readDictionary_close _ _ _ _ _ hr
    · cases es with
      | nil =>
        simp only [EntriesRead] at hes
        subst hes
        rfl
      | cons e es1 =>
        simp only [List.isEmpty_cons, Bool.false_eq_true, if_false]
        exact EntriesRead_current_nonempty (readValue fuel) (e :: es1) parser q hes (by simp)
  · intro key r q2 hr hne hrv
    refine ⟨if (dictOf es).isEmpty then q2
      else { q2 with currentDictionary := mapSet key Value.Null (dictOf es) }, ?_, ?_⟩
    · rw [readValue_dictionary_eq, hrun]
      exact readDictionary_missing _ _ _ _ _ _ _ hr hne hrv
    · cases es with
      | nil =>
        simp only [EntriesRead] at hes
        subst hes
        have hk := readValue_token_keeps fuel _ q2 none _ hrv
        simp only [dictOf, List.foldl_nil, List.isEmpty_nil, if_true]
        exact hk
      | cons e es1 =>
        have hne2 : (dictOf (e :: es1)).isEmpty = false :=
          foldl_mapSet_nonempty (e :: es1) [] (by simp)
        simp only [hne2, List.isEmpty_cons, Bool.false_eq_true, if_false]

/-- Witness for the amended C29: after `<< /A 1 /B 2 /A 3 >>` has been read,
the current dictionary is the dictionary returned. -/
theorem readValue_dictionary_current_witness :
    ∃ s, readValue 6 (sampleParser dictSample 2 []) (some ['<', '<']) =
        .ok (.Dictionary (dictOf dictSampleEntries), s) ∧
      s.currentDictionary =
        if dictSampleEntries.isEmpty then (sampleParser dictSample 2 []).currentDictionary
        else dictOf dictSampleEntries :=
  (readValue_dictionary_current 5 (sampleParser dictSample 2 [])
    { sampleParser dictSample 17 [] with currentDictionary := dictOf dictSampleEntries }
    dictSampleEntries
    ⟨rfl, by decide, (fun h => nomatch h), rfl, _, rfl,
      rfl, by decide, (fun h => nomatch h), rfl, _, rfl,
      rfl, by decide, (fun h => nomatch h), rfl, _, rfl, rfl⟩
    (by decide)).1 _ rfl


/-! ### C30: the read loop of `resolveObject` -/

theorem readObjectValues_reads (rv : PDFParser → Option Token → Res Value) :
    ∀ (n : Nat) (p q : PDFParser) (acc values : List Value),
      readObjectValues rv n p acc = .ok (values, q) →
      ∃ more last, values = acc ++ more ∧ ReadsIn rv p (more ++ [last]) q ∧
        (∀ v ∈ more, tokenIs v "endobj".toList = false ∧ v ≠ Value.goNil) ∧
        (acc.length ≤ 2 → values.length ≤ 2) ∧
        (values.length < 2 → last = Value.goNil ∨ tokenIs last "endobj".toList = true) := by
  intro n
  induction n with
  | zero =>
    intro p q acc values h
    simp [readObjectValues] at h
  | succ n ih =>
    intro p q acc values h
    unfold readObjectValues at h
    cases hrv : rv p none with
    | error e => simp [hrv] at h
    | ok r =>
      obtain ⟨value, p2⟩ := r
      simp only [hrv] at h
      by_cases hnil : value = Value.goNil
      · subst hnil
        simp only at h
        cases h
        exact ⟨[], Value.goNil, by simp, ⟨q, hrv, rfl⟩, by simp, fun hl => hl,
          fun _ => Or.inl rfl⟩
      · split at h
        · exact absurd rfl hnil
        · by_cases hlen : acc.length > 1
          · simp only [hlen, if_true] at h
            cases h
            exact ⟨[], value, by simp, ⟨q, hrv, rfl⟩, by simp, fun hl => hl,
              fun hl => by omega⟩
          · simp only [hlen, if_false] at h
            by_cases hend : tokenIs value "endobj".toList = true
            · simp only [hend, if_true] at h
              cases h
              exact ⟨[], value, by simp, ⟨q, hrv, rfl⟩, by simp, fun hl => hl,
                fun _ => Or.inr hend⟩
            · simp only [hend, if_false] at h
              obtain ⟨more, last, hv, hreads, hall, hle, hlast⟩ := ih p2 q (acc ++ [value]) values h
              refine ⟨value :: more, last, by simp [hv], ⟨p2, hrv, hreads⟩, ?_, ?_, hlast⟩
              · intro v hvm
                rcases List.mem_cons.mp hvm with h1 | h1
                · subst h1
                  exact ⟨by simpa using hend, hnil⟩
                · exact hall v h1
              · intro _
                exact hle (by simp; omega)

theorem readObjectValues_step (rv : PDFParser → Option Token → Res Value) (n : Nat)
    (p p2 : PDFParser) (acc : List Value) (value : Value)
    (hrv : rv p none = .ok (value, p2)) (hnil : value ≠ Value.goNil) :
    readObjectValues rv (n + 1) p acc =
      if acc.length > 1 then .ok (acc, p2)
      else if tokenIs value "endobj".toList then .ok (acc, p2)
      else readObjectValues rv n p2 (acc ++ [value]) := by
  rw [readObjectValues]
  simp only [hrv]

theorem readObjectValues_stops (rv : PDFParser → Option Token → Res Value) :
    ∀ (more : List Value) (n : Nat) (s t : PDFParser) (acc : List Value) (last : Value),
      ReadsIn rv s (more ++ [last]) t →
      (∀ v ∈ more, tokenIs v "endobj".toList = false ∧ v ≠ Value.goNil) →
      (acc ++ more).length ≤ 2 →
      ((acc ++ more).length < 2 → last = Value.goNil ∨ tokenIs last "endobj".toList = true) →
      more.length < n →
      readObjectValues rv n s acc = .ok (acc ++ more, t) := by
  intro more
  induction more with
  | nil =>
    intro n s t acc last hreads _ hlen hlast hn
    obtain ⟨p2, hrv, ht⟩ := hreads
    simp only [ReadsIn] at ht
    subst ht
    simp only [List.append_nil] at hlen hlast ⊢
    cases n with
    | zero => simp at hn
    | succ n =>
      by_cases hnil : last = Value.goNil
      · subst hnil
        unfold readObjectValues
        simp only [hrv]
      · rw [readObjectValues_step rv n s t acc last hrv hnil]
        by_cases hl : acc.length > 1
        · simp only [hl, if_true]
        · simp only [hl, if_false]
          rcases hlast (by omega) with h1 | h1
          · exact absurd h1 hnil
          · simp only [h1, if_true]
  | cons v more ih =>
    intro n s t acc last hreads hall hlen hlast hn
    obtain ⟨p2, hrv, hrest⟩ := hreads
    obtain ⟨hend, hnil⟩ := hall v (List.mem_cons_self _ _)
    simp only [List.length_append, List.length_cons] at hlen hlast hn
    cases n with
    | zero => simp at hn
    | succ n =>
      rw [readObjectValues_step rv n s p2 acc v hrv hnil]
      have hl : ¬ acc.length > 1 := by omega
      simp only [hl, if_false, hend, Bool.false_eq_true]
      have hk := ih n p2 t (acc ++ [v]) last hrest
        (fun w hw => hall w (List.mem_cons_of_mem _ hw))
        (by simp only [List.length_append, List.length_cons, List.length_nil]; omega)
        (fun hlt => hlast (by
          simp only [List.length_append, List.length_cons, List.length_nil] at hlt
          omega))
        (by omega)
      simp only [List.append_assoc, List.singleton_append] at hk
      exact hk

theorem readDeclaration_values (rv : PDFParser → Option Token → Res Value) (n : Nat)
    (p q : PDFParser) (off : Int) (header : Value) (decl : ObjectDeclaration)
    (h : readDeclaration rv n p off header = .ok (some decl, q)) :
    ∃ q1,
      readObjectValues rv n
          { p with currentObject := ObjectDeclaration.mk decl.Obj decl.Gen [] } [] =
        .ok (decl.Values, q1) ∧
      q = { q1 with reader := (q1.reader.Seek off 0).2 } := by
  unfold readDeclaration at h
  split at h
  · dsimp only at h
    split at h
    · cases h
    · rename_i heq
      cases h
      exact ⟨_, heq, rfl⟩
  · cases h

theorem resolveObjectWith_values (rv : PDFParser → Option Token → Res Value) (n : Nat)
    (p q : PDFParser) (obj gen : Int) (decl : ObjectDeclaration)
    (h : resolveObjectWith rv n p (.ObjectRef obj gen) = .ok (some decl, q)) :
    ∃ offset header hp p0 q1,
      lookup (ObjectRef.mk obj gen) p.xref.xref = some offset ∧
      rv { p with reader := ((p.reader.Seek 0 1).2.Seek offset 0).2 } none = .ok (header, hp) ∧
      (p0 = hp ∨
        p0 = { hp with
          reader := ((hp.reader.Seek 0 0).2.SkipToToken (objHeader obj gen)).2.SkipBytes
            (objHeader obj gen).length }) ∧
      readObjectValues rv n
          { p0 with currentObject := ObjectDeclaration.mk decl.Obj decl.Gen [] } [] =
        .ok (decl.Values, q1) ∧
      q = { q1 with reader := (q1.reader.Seek (p.reader.Seek 0 1).1.1 0).2 } := by
  unfold resolveObjectWith at h
  dsimp only at h
  split at h
  · rename_i offset hlook
    split at h
    · cases h
    · rename_i header hp hrv
      split at h
      · obtain ⟨q1, h1, h2⟩ := readDeclaration_values rv n _ q _ _ decl h
        exact ⟨offset, header, hp, hp, q1, hlook, hrv, Or.inl rfl, h1, h2⟩
      · split at h
        · obtain ⟨q1, h1, h2⟩ := readDeclaration_values rv n _ q _ _ decl h
          exact ⟨offset, header, hp, _, q1, hlook, hrv, Or.inr rfl, h1, h2⟩
        · cases h
  · cases h

/-- C30: whenever `resolveObject` returns a declaration for a reference, the
declaration holds at most two values and none of them is the token `endobj`.
Its values are, in order, the values returned by successive reads that start
in the state `p1` in which the loop is entered (the state `p0` after the
header was read, or found by search, with the new current object), followed
by one last read whose value is not kept, so the loop makes at most three
reads: the state `q` in which `resolveObject` returns is the state `q1` right
after that last read with the cursor moved back. When fewer than two values
are held, the last read returned `endobj` (or nil). The loop never reads on:
for any value reader and any state, reads that return these values and then
`last` make the loop stop with these values right after the read of `last`. -/
theorem resolveObject_two_values (fuel : Nat) (p q : PDFParser) (obj gen : Int)
    (decl : ObjectDeclaration)
    (h : resolveObject fuel p (.ObjectRef obj gen) = .ok (some decl, q)) :
    decl.Values.length ≤ 2 ∧
    (∀ v ∈ decl.Values, tokenIs v "endobj".toList = false) ∧
    ∃ offset header hp p0 p1 q1 last,
      lookup (ObjectRef.mk obj gen) p.xref.xref = some offset ∧
      readValue fuel { p with reader := ((p.reader.Seek 0 1).2.Seek offset 0).2 } none =
        .ok (header, hp) ∧
      (p0 = hp ∨
        p0 = { hp with
          reader := ((hp.reader.Seek 0 0).2.SkipToToken (objHeader obj gen)).2.SkipBytes
            (objHeader obj gen).length }) ∧
      p1 = { p0 with currentObject := ObjectDeclaration.mk decl.Obj decl.Gen [] } ∧
      ReadsIn (readValue fuel) p1 (decl.Values ++ [last]) q1 ∧
      (decl.Values ++ [last]).length ≤ 3 ∧
      (decl.Values.length < 2 → last = Value.goNil ∨ tokenIs last "endobj".toList = true) ∧
      q = { q1 with reader := (q1.reader.Seek (p.reader.Seek 0 1).1.1 0).2 } ∧
      ∀ (rv : PDFParser → Option Token → Res Value) (n : Nat) (s t : PDFParser),
        ReadsIn rv s (decl.Values ++ [last]) t → 3 ≤ n →
        readObjectValues rv n s [] = .ok (decl.Values, t) := by
  obtain ⟨offset, header, hp, p0, q1, hlook, hhdr, hp0, hrd, hq⟩ :=
    resolveObjectWith_values (readValue fuel) fuel p q obj gen decl h
  obtain ⟨more, last, hv, hreads, hall, hle, hlast⟩ :=
    readObjectValues_reads (readValue fuel) fuel _ q1 [] decl.Values hrd
  simp only [List.nil_append] at hv
  have hlen : decl.Values.length ≤ 2 := hle (by simp)
  refine ⟨hlen, ?_, offset, header, hp, p0, _, q1, last, hlook, hhdr, hp0, rfl, ?_, ?_, hlast,
    hq, ?_⟩
  · intro v hvm
    rw [hv] at hvm
    exact (hall v hvm).1
  · rw [hv]
    exact hreads
  · simp only [List.length_append, List.length_singleton]
    omega
  · intro rv n s t hr hn
    have hk := readObjectValues_stops rv decl.Values n s t [] last hr
      (fun v hvm => hall v (by rw [← hv]; exact hvm))
      (by simpa using hlen) (fun hlt => hlast (by simpa using hlt)) (by omega)
    simpa using hk

/-- Witness for C30: object 4 of `plainStream` is a dictionary, a stream and
`endobj`; the declaration holds the two values and the third read, which
returns `endobj`, is not kept. -/
theorem resolveObject_two_values_witness :
    [Value.Dictionary [("/Length".toList, .Real 3)], Value.Stream "abc".toList].length ≤ 2 ∧
    (∀ v ∈ [Value.Dictionary [("/Length".toList, .Real 3)], Value.Stream "abc".toList],
      tokenIs v "endobj".toList = false) ∧
    ∃ (q1 : PDFParser) (last : Value),
      (([Value.Dictionary [("/Length".toList, .Real 3)],
          Value.Stream "abc".toList] : List Value).length < 2 →
        last = Value.goNil ∨ tokenIs last "endobj".toList = true) ∧
      { sampleParser plainStream 0 plainStreamXref with
          currentObject := ObjectDeclaration.mk 4 0 [],
          currentDictionary := [("/Length".toList, .Real 3)] } =
        { q1 with
          reader := (q1.reader.Seek
            ((sampleParser plainStream 0 plainStreamXref).reader.Seek 0 1).1.1 0).2 } ∧
      ∀ (rv : PDFParser → Option Token → Res Value) (n : Nat) (s t : PDFParser),
        ReadsIn rv s
          ([Value.Dictionary [("/Length".toList, .Real 3)], Value.Stream "abc".toList] ++
            [last]) t →
        3 ≤ n →
        readObjectValues rv n s [] =
          .ok ([Value.Dictionary [("/Length".toList, .Real 3)], Value.Stream "abc".toList], t) :=
  let ⟨h1, h2, _, _, _, _, _, q1, last, _, _, _, _, _, _, h3, h4, h5⟩ :=
    resolveObject_two_values 10 (sampleParser plainStream 0 plainStreamXref)
      { sampleParser plainStream 0 plainStreamXref with
        currentObject := ObjectDeclaration.mk 4 0 [],
        currentDictionary := [("/Length".toList, .Real 3)] } 4 0
      (ObjectDeclaration.mk 4 0
        [.Dictionary [("/Length".toList, .Real 3)], .Stream "abc".toList]) (by decide!)
  ⟨h1, h2, q1, last, h3, h4, h5⟩


/-! ### C31: the abbreviated filter name `/Fl` -/

/-- C31: for a stream whose `/Filter` is the name `/Fl`, `_unFilterStream`
returns no bytes, whatever the raw bytes are: the case `/Fl` has an empty body
and does not continue into the case `/FlateDecode`. For the same stream with
`/Filter /FlateDecode` it returns the inflated bytes (and panics when zlib
rejects the data). With a decoder that inflates `abc` to `abc` the two results
differ. -/
theorem _unFilterStream_Fl_not_FlateDecode (codecs : Codecs) (fuel : Nat) (p : PDFParser)
    (s : List Char) (rest : List Value) :
    _unFilterStream codecs fuel p
        (.Dictionary [("/Filter".toList, .Token "/Fl".toList)] :: .Stream s :: rest) =
      .ok ([], p) ∧
    _unFilterStream codecs fuel p
        (.Dictionary [("/Filter".toList, .Token "/FlateDecode".toList)] :: .Stream s :: rest) =
      (match codecs.zlibDecode s with
        | some out => .ok (out, p)
        | none => .error .panic) ∧
    _unFilterStream sampleCodecs 0 (sampleParser "" 0 [])
        [.Dictionary [("/Filter".toList, .Token "/Fl".toList)], .Stream "abc".toList] ≠
      _unFilterStream sampleCodecs 0 (sampleParser "" 0 [])
        [.Dictionary [("/Filter".toList, .Token "/FlateDecode".toList)],
          .Stream "abc".toList] := by
  refine ⟨?_, ?_, by decide!⟩
  · rw [_unFilterStream_names codecs fuel p _ s rest (.Token "/Fl".toList) ["/Fl".toList]
      (by decide) (fun h => nomatch h) (fun _ _ h => nomatch h) rfl]
    simp only [applyFilters, if_true]
  · rw [_unFilterStream_names codecs fuel p _ s rest (.Token "/FlateDecode".toList)
      ["/FlateDecode".toList] (by decide) (fun h => nomatch h) (fun _ _ h => nomatch h) rfl]
    have e1 : ("/FlateDecode".toList = "/Fl".toList) = False := by decide
    simp only [applyFilters, e1, if_false, if_true]
    cases codecs.zlibDecode s <;> rfl

end Gofpdi
